import Mathlib

/-!
# Job control of MyShell: a shallow embedding of `src/JobControl.c`

The registry is the chain of `job` nodes that starts at the global `first_job`
and follows `next`; it is modelled by the list of its nodes in chain order.
A `job*` that points into the registry is the position of the node in the
chain, `NULL` is `none`.  A `process*` is a pair (position of the job,
position of the process in the chain of `first_process`).

What has no defined result in C is not given one here: the functions that can
run into it return `Except Stuck _`. `Stuck.null_dereference` is the use of
`NULL` as an object, `Stuck.out_of_bounds` the read of an array past its end,
`Stuck.signed_overflow` the overflow of `int` arithmetic,
`Stuck.buffer_overflow` a write past the end of a `malloc` block and
`Stuck.use_after_free` the read of a block that `free` has released.

Job ids are C `int`s of 32 bits. The only arithmetic on them is
`last_job->id + 1` in `insert_job`; it overflows when the last registered job
has the id `INT_MAX`, and `insert_job` is then `Stuck.signed_overflow` (on the
usual targets the addition wraps to `INT_MIN`, see `int_wrap`).

The operating system is an input of the model: what `fork` returns, whether
`pipe` succeeds, and the list of what the coming calls of `waitpid` give (the
returned pid and the stored status). Wait statuses are the integers that glibc
stores, tested with the arithmetic reading of the `sys/wait.h` tests.

Terminal output is modelled for the status listing (`print_job_status`,
`print_job_all_status`), as the text written; the call of `print_job_status`
in `wait_for_job` is modelled for the reads it makes. What the other functions
write and the capture pipes are not part of the modelled state. Of the heap
the model keeps what the code relies on: the size of the block that
`str_to_array` allocates for a token, and the release of the job by the
`free_job` call of `remove_job` where `launch_job` reads the job afterwards.
-/

namespace JobControl

/-! ## Data model (`inc/JobControl.h`) -/

/-- Values of `enum PROCESS_FILTERS`, passed to `get_processes_count` as `int`. -/
def PROC_FILTER_ALL : Int := 0

/-- Second value of `enum PROCESS_FILTERS`. -/
def PROC_FILTER_DONE : Int := 1

/-- Third value of `enum PROCESS_FILTERS`. -/
def PROC_FILTER_REMAINING : Int := 2

/-- The type `enum PROCESS_EXECUTION_MODES`. -/
inductive PROCESS_EXECUTION_MODES where
  | BACKGROUND_EXECUTION
  | FOREGROUND_EXECUTION
  | PIPELINE_EXECUTION
  deriving DecidableEq, Repr

/-- The type `enum PROCESS_STATUS`, constructors in the order of the enumerators. -/
inductive PROCESS_STATUS where
  | STATUS_RUNNING
  | STATUS_DONE
  | STATUS_SUSPENDED
  | STATUS_CONTINUED
  | STATUS_TERMINATED
  | STATUS_NEW
  | STATUS_READY
  deriving DecidableEq, Repr

open PROCESS_EXECUTION_MODES PROCESS_STATUS

/-- The type `struct process` without its `next` link: `argv` is the array of
`char*` (a `NULL` entry is `none`), `argc` the `u_int8_t` counter. -/
structure process where
  argc : Nat
  argv : List (Option String)
  pid : Int
  status : PROCESS_STATUS
  deriving DecidableEq, Repr

/-- The type `struct job` without its `next` link; `processes` is the chain
that starts at `first_process`. -/
structure job where
  id : Int
  processes : List process
  pgid : Int
  mode : PROCESS_EXECUTION_MODES
  deriving DecidableEq, Repr

/-- The chain of jobs that starts at the global `first_job`. -/
abbrev Registry := List job

/-- Ways in which a call does not return. -/
inductive Stuck where
  | null_dereference
  | out_of_bounds
  | waits_forever
  | exits
  | child_side
  | signed_overflow
  | buffer_overflow
  | use_after_free
  deriving DecidableEq, Repr

/-- The constant `INT_MAX` of `limits.h` for the 32-bit `int`. -/
def INT_MAX : Int := 2147483647

/-! ## The registry (`insert_job`, `remove_job` and the lookups) -/

/-- The function `get_last_job`: follows `next` to the node whose `next` is `NULL`. -/
def get_last_job : Registry → Option job
  | [] => none
  | [j] => some j
  | _ :: j :: rest => get_last_job (j :: rest)

/-- The function `insert_job`, for a job `j` whose `next` is `NULL` (as `new_job`
leaves it): the new chain and the returned id. The sum `last_job->id + 1` is
`int` arithmetic and has no defined result above `INT_MAX`. -/
def insert_job (reg : Registry) (j : job) : Except Stuck (Registry × Int) :=
  match get_last_job reg with
  | none => .ok ([{ j with id := 1 }], 1)
  | some last_job =>
    if last_job.id + 1 > INT_MAX then .error .signed_overflow
    else .ok (reg ++ [{ j with id := last_job.id + 1 }], last_job.id + 1)

/-- The loop of `get_job_parent`: `parent` is the head of the first argument and
sits at position `i`; the loop stops when `parent->next` is the node `k`. -/
def get_job_parent_from : List job → Nat → Nat → Except Stuck Nat
  | [], _, _ => .error .null_dereference
  | _ :: rest, i, k =>
    if rest ≠ [] ∧ i + 1 = k then .ok i else get_job_parent_from rest (i + 1) k

/-- The function `get_job_parent`; `k` is the position of `j` (a `k` beyond the
chain stands for a job that is not registered). -/
def get_job_parent (reg : Registry) (k : Nat) : Except Stuck (Option Nat) :=
  if reg = [] ∨ k = 0 then .ok none
  else (get_job_parent_from reg 0 k).map some

/-- The function `remove_job`; `k` is the position of `j`, so `j->next` is the
chain `reg.drop (k + 1)`. -/
def remove_job (reg : Registry) (k : Nat) : Except Stuck Registry :=
  if reg = [] then .ok reg
  else
    match get_job_parent reg k with
    | .error e => .error e
    | .ok none => .ok (reg.drop (k + 1))
    | .ok (some parent) =>
      if reg.drop (k + 1) = [] then .ok (reg.take (parent + 1))
      else .ok (reg.take (parent + 1) ++ reg.drop (k + 1))

/-- The loop of `get_job_by_id`: `j` is the head of the first argument, at position `k`. -/
def get_job_by_id_from : List job → Nat → Int → Except Stuck Nat
  | [], _, _ => .error .null_dereference
  | j :: rest, k, id =>
    if j.id ≠ id then get_job_by_id_from rest (k + 1) id else .ok k

/-- The function `get_job_by_id`. -/
def get_job_by_id (reg : Registry) (id : Int) : Except Stuck (Option Nat) :=
  match reg with
  | [] => .ok none
  | _ :: _ => (get_job_by_id_from reg 0 id).map some

/-- The function `get_job_id_by_pid`. -/
def get_job_id_by_pid : Registry → Int → Int
  | [], _ => -1
  | j :: rest, pid =>
    if j.processes.any (fun p => decide (p.pid = pid)) then j.id
    else get_job_id_by_pid rest pid

/-- The function `get_job_by_pid`. -/
def get_job_by_pid (reg : Registry) (pid : Int) : Except Stuck (Option Nat) :=
  if get_job_id_by_pid reg pid = -1 then .ok none
  else get_job_by_id reg (get_job_id_by_pid reg pid)

/-- The loop of `get_process_by_pid`: `p` is the head of the first argument, at position `i`. -/
def get_process_by_pid_from : List process → Nat → Int → Except Stuck Nat
  | [], _, _ => .error .null_dereference
  | p :: rest, i, pid =>
    if p.pid ≠ pid then get_process_by_pid_from rest (i + 1) pid else .ok i

/-- The function `get_process_by_pid`: the position of the job and of the process in it. -/
def get_process_by_pid (reg : Registry) (pid : Int) : Except Stuck (Option (Nat × Nat)) :=
  match get_job_by_pid reg pid with
  | .error e => .error e
  | .ok none => .ok none
  | .ok (some k) =>
    match reg[k]? with
    | none => .error .null_dereference
    | some j =>
      match j.processes with
      | [] => .ok none
      | _ :: _ => (get_process_by_pid_from j.processes 0 pid).map (fun i => some (k, i))

/-! ## Status queries on one job -/

/-- The function `is_job_completed`. -/
def is_job_completed_from : List process → Int
  | [] => 1
  | p :: rest => if p.status ≠ STATUS_DONE then 0 else is_job_completed_from rest

/-- The function `is_job_completed`. -/
def is_job_completed (j : job) : Int := is_job_completed_from j.processes

/-- The loop of `get_processes_count`, with the running `count`. -/
def get_processes_count_from : List process → Int → Int → Int
  | [], _, count => count
  | p :: rest, filter, count =>
    if filter = PROC_FILTER_ALL ∨
       (filter = PROC_FILTER_DONE ∧ p.status = STATUS_DONE) ∨
       (filter = PROC_FILTER_REMAINING ∧ p.status ≠ STATUS_DONE)
    then get_processes_count_from rest filter (count + 1)
    else get_processes_count_from rest filter count

/-- The function `get_processes_count`. -/
def get_processes_count (j : job) (filter : Int) : Int :=
  get_processes_count_from j.processes filter 0

/-! ## Creation of processes and jobs -/

/-- Repeated `strtok(str, " ")`: the maximal runs of characters other than the
space, in order; the second argument is the run being read, last character first. -/
def strtok_all_from : List Char → List Char → List String
  | [], tok => if tok = [] then [] else [String.mk tok.reverse]
  | c :: cs, tok =>
    if c = Char.ofNat 32 then
      (if tok = [] then strtok_all_from cs []
       else String.mk tok.reverse :: strtok_all_from cs [])
    else strtok_all_from cs (c :: tok)

/-- The tokens that the `strtok` loop of `str_to_array` visits. -/
def strtok_all (str : String) : List String := strtok_all_from str.data []

/-- The call `realloc(argv, sizeof(char*) * size)` on an array of `char*`: the
first `size` slots are kept, a new slot holds no string yet. -/
def realloc_argv (argv : List (Option String)) (size : Nat) : List (Option String) :=
  argv.take size ++ List.replicate (size - argv.length) none

/-- The value `strlen(s)`: the number of bytes of the string before its
terminating zero byte. -/
def strlen (s : String) : Nat := s.utf8ByteSize

/-- The call `strcpy(dest, src)` into a `malloc` block of `block_size` bytes:
it writes the `strlen(src)` bytes of the string and the terminating zero byte. -/
def strcpy (block_size : Nat) (src : String) : Except Stuck String :=
  if strlen src + 1 ≤ block_size then .ok src else .error .buffer_overflow

/-- The loop of `str_to_array` and the final `argv[*n] = NULL`; `n` is the
`u_int8_t` counter `*n`, so `(*n)++` wraps at 256. The block of a token is
`malloc(sizeof(char) * strlen(token))`, of `strlen(token)` bytes. -/
def str_to_array_loop : List String → List (Option String) → Nat →
    Except Stuck (List (Option String) × Nat)
  | [], argv, n => .ok (argv.set n none, n)
  | token :: rest, argv, n =>
    match strcpy (strlen token) token with
    | .error e => .error e
    | .ok copy =>
      str_to_array_loop rest
        (realloc_argv (argv.set n (some copy)) ((n + 1) % 256 + 1)) ((n + 1) % 256)

/-- The function `str_to_array`: the array and the value left in `*n`. -/
def str_to_array (str : String) : Except Stuck (List (Option String) × Nat) :=
  str_to_array_loop (strtok_all str) [none] 0

/-- The function `new_process`. -/
def new_process (command : String) : Except Stuck process :=
  match str_to_array command with
  | .error e => .error e
  | .ok (argv, argc) => .ok { argc := argc, argv := argv, pid := -1, status := STATUS_NEW }

/-- The function `new_job`, for a `first_process` whose `next` is `NULL`. The
call `strcmp(argv[argc - 1], "&")` reads the last argument; in the Background
branch `free(argv[argc])` reads the slot after it, which holds the `NULL` that
ends an array built by `str_to_array`, so that nothing is released. -/
def new_job (first_process : process) : Except Stuck job :=
  if first_process.argc = 0 then .error .out_of_bounds
  else
    match first_process.argv[first_process.argc - 1]? with
    | none => .error .out_of_bounds
    | some none => .error .null_dereference
    | some (some last) =>
      if last = "&" then
        match first_process.argv[first_process.argc]? with
        | none => .error .out_of_bounds
        | some _ =>
          .ok { id := 0
                pgid := -1
                mode := BACKGROUND_EXECUTION
                processes :=
                  [{ first_process with
                      status := STATUS_READY
                      argv := first_process.argv.set (first_process.argc - 1) none }] }
      else
        .ok { id := 0
              pgid := -1
              mode := FOREGROUND_EXECUTION
              processes := [{ first_process with status := STATUS_READY }] }

/-- The strings of a `NULL`-terminated `argv`, as `execvp` reads it. -/
def argv_strings : List (Option String) → List String
  | [] => []
  | none :: _ => []
  | some s :: rest => s :: argv_strings rest

/-- The function `get_last_process`. -/
def get_last_process : List process → Option process
  | [] => none
  | [p] => some p
  | _ :: p :: rest => get_last_process (p :: rest)

/-- The function `insert_process`, for a process `p` whose `next` is `NULL`. -/
def insert_process (j : job) (p : process) : job :=
  match get_last_process j.processes with
  | none => { j with processes := [p] }
  | some _ => { j with processes := j.processes ++ [p] }

/-! ## Status updates -/

/-- The function `set_process_status` on the process itself. -/
def set_process_status (p : process) (status : PROCESS_STATUS) : process :=
  { p with status := status }

/-- Update of the element at a position of a chain. -/
def modify_at {α : Type} (f : α → α) : List α → Nat → List α
  | [], _ => []
  | x :: xs, 0 => f x :: xs
  | x :: xs, n + 1 => x :: modify_at f xs n

/-- The call `set_process_status(p, status)` through a `process*` into the registry. -/
def set_process_status_ptr (reg : Registry) (p : Option (Nat × Nat))
    (status : PROCESS_STATUS) : Except Stuck Registry :=
  match p with
  | none => .error .null_dereference
  | some (k, i) =>
    .ok (modify_at
      (fun j =>
        { j with
            processes := modify_at (fun q => set_process_status q status) j.processes i })
      reg k)

/-- The function `set_job_status`. -/
def set_job_status (j : job) (status : PROCESS_STATUS) : job :=
  { j with
      processes := j.processes.map
        (fun p => if p.status ≠ STATUS_DONE then set_process_status p status else p) }

/-! ## Wait statuses (`sys/wait.h` of glibc, on the value stored by `waitpid`) -/

/-- The expression `WTERMSIG(status)`, `status & 0x7f`. -/
def WTERMSIG (status : Int) : Int := status % 128

/-- The expression `WEXITSTATUS(status)`, `(status & 0xff00) >> 8`. -/
def WEXITSTATUS (status : Int) : Int := (status / 256) % 256

/-- The expression `WSTOPSIG(status)`, the same bits as `WEXITSTATUS`. -/
def WSTOPSIG (status : Int) : Int := WEXITSTATUS status

/-- The expression `WIFEXITED(status)`, `WTERMSIG(status) == 0`. -/
def WIFEXITED (status : Int) : Bool := decide (WTERMSIG status = 0)

/-- Conversion of a value in 0..255 to `signed char`. -/
def to_signed_char (x : Int) : Int := if x % 256 ≥ 128 then x % 256 - 256 else x % 256

/-- The expression `WIFSIGNALED(status)`,
`((signed char) ((status & 0x7f) + 1) >> 1) > 0`. -/
def WIFSIGNALED (status : Int) : Bool :=
  decide (to_signed_char (status % 128 + 1) / 2 > 0)

/-- The expression `WIFSTOPPED(status)`, `(status & 0xff) == 0x7f`. -/
def WIFSTOPPED (status : Int) : Bool := decide (status % 256 = 127)

/-- The expression `WIFCONTINUED(status)`, `status == 0xffff`. -/
def WIFCONTINUED (status : Int) : Bool := decide (status = 65535)

/-- The status `W_EXITCODE(ret, sig)`, `(ret) << 8 | (sig)`, that `waitpid` stores
for a normal exit (`sig = 0`) or a death by signal (`ret = 0`, with 128 added to
`sig` when a core was dumped). -/
def W_EXITCODE (ret sig : Int) : Int := ret * 256 + sig

/-- The status `W_STOPCODE(sig)`, `(sig) << 8 | 0x7f`, stored for a stop. -/
def W_STOPCODE (sig : Int) : Int := sig * 256 + 127

/-- What one call of `waitpid` gives: the returned pid and, when that pid is
positive, the value stored in `status` (otherwise `status` is left as it was). -/
structure wait_result where
  pid : Int
  status : Int
  deriving DecidableEq, Repr

/-- The variable `status` after a call of `waitpid(_, &status, _)`. -/
def status_after_waitpid (status : Int) (w : wait_result) : Int :=
  if w.pid > 0 then w.status else status

/-! ## The status listing (`print_job_status`, `print_job_all_status`) -/

/-- The array `PROCESS_STATUS_STRING`: it has five entries. -/
def PROCESS_STATUS_STRING : List String :=
  ["running", "done", "suspended", "continued", "terminated"]

/-- The integer value of an enumerator of `enum PROCESS_STATUS`, used as index. -/
def status_value : PROCESS_STATUS → Nat
  | STATUS_RUNNING => 0
  | STATUS_DONE => 1
  | STATUS_SUSPENDED => 2
  | STATUS_CONTINUED => 3
  | STATUS_TERMINATED => 4
  | STATUS_NEW => 5
  | STATUS_READY => 6

/-- The colour code `KBLU`. -/
def KBLU : String := "\x1B[34m"

/-- The colour code `KDEF`. -/
def KDEF : String := "\x1B[0m"

/-- What `%s` writes for `p->argv[0]`; for `NULL` the `printf` of glibc writes `(null)`. -/
def argv0_text (p : process) : String :=
  match p.argv with
  | some s :: _ => s
  | _ => "(null)"

/-- The loop of `print_job_status` over the chain of processes: the text written,
or the read of `PROCESS_STATUS_STRING[p->status]` past the end of the array. -/
def print_job_status_from : List process → Except Stuck String
  | [] => .ok ""
  | p :: rest =>
    match PROCESS_STATUS_STRING[status_value p.status]? with
    | none => .error .out_of_bounds
    | some name =>
      (print_job_status_from rest).map
        (fun tail =>
          KBLU ++ " " ++ toString p.pid ++ " " ++ name ++ " " ++ argv0_text p ++ KDEF
            ++ (if rest ≠ [] then KBLU ++ "|\n" ++ KDEF else "\n") ++ tail)

/-- The function `print_job_status`: the text written to `stdout`. -/
def print_job_status (j : job) : Except Stuck String :=
  (print_job_status_from j.processes).map
    (fun body => KBLU ++ "[" ++ toString j.id ++ "]" ++ KDEF ++ body)

/-- The loop of `print_job_all_status` over the chain of jobs. -/
def print_job_all_status_from : List job → Except Stuck String
  | [] => .ok ""
  | j :: rest =>
    match print_job_status j with
    | .error e => .error e
    | .ok text => (print_job_all_status_from rest).map (fun tail => text ++ tail)

/-- The function `print_job_all_status`: the text written to `stdout`. -/
def print_job_all_status (reg : Registry) : Except Stuck String :=
  (print_job_all_status_from reg).map (fun body => "\n" ++ body ++ "\n")

/-! ## Waiting (`wait_for_job`, `wait_for_process`) -/

/-- The body of the loop of `wait_for_job` after `wait_count++`, up to the loop
test, for the job at position `k`: the registry and the variable `status`;
`wait_count` is the counter after its increment. After a stop that is the last
wait of the call, `print_job_status(j)` reads the status name of every process
of the job. -/
def wait_for_job_classify (reg : Registry) (k : Nat) (p : Option (Nat × Nat))
    (status wait_count proc_count : Int) : Except Stuck (Registry × Int) :=
  if WIFEXITED status then
    (set_process_status_ptr reg p STATUS_DONE).map (fun r => (r, status))
  else if WIFSIGNALED status then
    (set_process_status_ptr reg p STATUS_TERMINATED).map (fun r => (r, status))
  else if WSTOPSIG status ≠ 0 then
    match set_process_status_ptr reg p STATUS_SUSPENDED with
    | .error e => .error e
    | .ok reg1 =>
      if wait_count = proc_count then
        match reg1[k]? with
        | none => .error .null_dereference
        | some j => (print_job_status j).map (fun _ => (reg1, -1))
      else .ok (reg1, -1)
  else .ok (reg, status)

/-- The loop `do ... while (wait_count < proc_count)` of `wait_for_job` for the
job at position `k`; the first argument lists what the coming calls of
`waitpid` give, and the call blocks for ever when it is used up. Returns the
registry, the variable `status` and what is left of the first argument. -/
def wait_for_job_loop : List wait_result → Registry → Nat → Int → Int → Int →
    Except Stuck (Registry × Int × List wait_result)
  | [], _, _, _, _, _ => .error .waits_forever
  | w :: ws, reg, k, proc_count, wait_count, status =>
    match get_process_by_pid reg w.pid with
    | .error e => .error e
    | .ok p =>
      match wait_for_job_classify reg k p (status_after_waitpid status w)
          (wait_count + 1) proc_count with
      | .error e => .error e
      | .ok (reg1, status1) =>
        if wait_count + 1 < proc_count then
          wait_for_job_loop ws reg1 k proc_count (wait_count + 1) status1
        else .ok (reg1, status1, ws)

/-- The function `wait_for_job` for the registered job at position `k`. -/
def wait_for_job (reg : Registry) (k : Nat) (ws : List wait_result) :
    Except Stuck (Registry × Int × List wait_result) :=
  match reg[k]? with
  | none => .error .null_dereference
  | some j => wait_for_job_loop ws reg k (get_processes_count j PROC_FILTER_REMAINING) 0 0

/-- The function `wait_for_process` on the process itself: the process after
the call and the returned status. -/
def wait_for_process (p : process) (ws : List wait_result) :
    Except Stuck (process × Int) :=
  match ws with
  | [] => .error .waits_forever
  | w :: _ =>
    if WIFEXITED (status_after_waitpid 0 w) then
      .ok (set_process_status p STATUS_DONE, status_after_waitpid 0 w)
    else if WIFSIGNALED (status_after_waitpid 0 w) then
      .ok (set_process_status p STATUS_TERMINATED, status_after_waitpid 0 w)
    else if WSTOPSIG (status_after_waitpid 0 w) ≠ 0 then
      .ok (set_process_status p STATUS_SUSPENDED, -1)
    else .ok (p, status_after_waitpid 0 w)

/-! ## Launching (`launch_process`, `launch_job`) -/

/-- The parent side of `launch_process` after a successful `fork`: stores
`childpid` in the process and sets the `pgid` of the job when it is not set. -/
def record_child (reg : Registry) (k i : Nat) (childpid : Int) : Registry :=
  modify_at
    (fun j =>
      { j with
          processes := modify_at (fun q => { q with pid := childpid }) j.processes i
          pgid := if j.pgid ≤ 0 then childpid else j.pgid })
    reg k

/-- The function `launch_process` for the process at position `i` of the
registered job at position `k`; `childpid` is what `fork` returns. In the child
(`childpid = 0`) the call ends in `execvp` or `exit` and does not return. -/
def launch_process (reg : Registry) (k i : Nat) (childpid : Int)
    (ws : List wait_result) : Except Stuck (Registry × Int × List wait_result) :=
  match set_process_status_ptr reg (some (k, i)) STATUS_RUNNING with
  | .error e => .error e
  | .ok reg1 =>
    if childpid < 0 then .ok (reg1, -1, ws)
    else if childpid = 0 then .error .child_side
    else
      match (record_child reg1 k i childpid)[k]? with
      | none => .error .null_dereference
      | some j =>
        if j.mode = FOREGROUND_EXECUTION then
          wait_for_job (record_child reg1 k i childpid) k ws
        else .ok (record_child reg1 k i childpid, 0, ws)

/-- The loop `for (p = j->first_process; p; p = p->next) status = launch_process(j, p)`
of `launch_job`: the first argument is the part of the chain still to launch,
its head at position `i`; `forks n` is what the `n`-th call of `fork` returns. -/
def launch_job_loop : List process → Registry → Nat → Nat → (Nat → Int) →
    List wait_result → Int → Except Stuck (Registry × Int × List wait_result)
  | [], reg, _, _, _, ws, status => .ok (reg, status, ws)
  | _ :: rest, reg, k, i, forks, ws, _ =>
    match launch_process reg k i (forks i) ws with
    | .error e => .error e
    | .ok (reg1, status1, ws1) => launch_job_loop rest reg1 k (i + 1) forks ws1 status1

/-- The function `launch_job` up to the end of its loop: `insert_job`, the two
calls of `pipe` (`pipes_ok` tells whether both succeed) and the launch of each
process. The job `j` is appended to the chain, so it sits at position
`reg.length`. -/
def launch_job_processes (reg : Registry) (j : job) (pipes_ok : Bool)
    (forks : Nat → Int) (ws : List wait_result) :
    Except Stuck (Registry × Int × List wait_result) :=
  match insert_job reg j with
  | .error e => .error e
  | .ok (reg0, _) =>
    if pipes_ok then launch_job_loop j.processes reg0 reg.length 0 forks ws 0
    else .error .exits

/-- The function `launch_job` up to and with the statement
`if (status >= 0 && j->mode == FOREGROUND_EXECUTION) remove_job(j);`: the
registry, the status, the wait results not consumed, and whether `remove_job`
has called `free_job(j)` (it does unless it finds `first_job` `NULL`). -/
def launch_job_removal (reg : Registry) (j : job) (pipes_ok : Bool)
    (forks : Nat → Int) (ws : List wait_result) :
    Except Stuck (Registry × Int × List wait_result × Bool) :=
  match launch_job_processes reg j pipes_ok forks ws with
  | .error e => .error e
  | .ok (reg1, status, ws1) =>
    if status ≥ 0 ∧ j.mode = FOREGROUND_EXECUTION then
      (remove_job reg1 reg.length).map (fun r => (r, status, ws1, decide (reg1 ≠ [])))
    else .ok (reg1, status, ws1, false)

/-- The function `launch_job`: the registry on return, the returned status and
the wait results not consumed. The test `j->mode == BACKGROUND_EXECUTION` that
follows the removal reads the job; after `free_job(j)` that is a read of a
released block. -/
def launch_job (reg : Registry) (j : job) (pipes_ok : Bool)
    (forks : Nat → Int) (ws : List wait_result) :
    Except Stuck (Registry × Int × List wait_result) :=
  match launch_job_removal reg j pipes_ok forks ws with
  | .error e => .error e
  | .ok (reg2, status, ws1, freed) =>
    if freed then .error .use_after_free else .ok (reg2, status, ws1)

/-! ## The handler of `SIGCHLD` (`sigint_handler`) -/

/-- The three-way test of `sigint_handler` on the reaped status. -/
def sigint_handler_classify (reg : Registry) (p : Option (Nat × Nat)) (status : Int) :
    Except Stuck Registry :=
  if WIFEXITED status then set_process_status_ptr reg p STATUS_DONE
  else if WIFSTOPPED status then set_process_status_ptr reg p STATUS_SUSPENDED
  else if WIFCONTINUED status then set_process_status_ptr reg p STATUS_CONTINUED
  else .ok reg

/-- The function `sigint_handler`: the first argument lists what the coming
calls of `waitpid(WAIT_ANY, &status, WNOHANG|WUNTRACED|WCONTINUED)` give; when
it is used up `waitpid` returns 0. `print_job_pipe(j)` reads the fields of `j`. -/
def sigint_handler : List wait_result → Registry → Except Stuck Registry
  | [], reg => .ok reg
  | w :: ws, reg =>
    if w.pid > 0 then
      match get_job_by_pid reg w.pid with
      | .error e => .error e
      | .ok j =>
        match get_process_by_pid reg w.pid with
        | .error e => .error e
        | .ok p =>
          match sigint_handler_classify reg p w.status with
          | .error e => .error e
          | .ok reg1 =>
            match j with
            | none => .error .null_dereference
            | some k =>
              match reg1[k]? with
              | none => .error .null_dereference
              | some jb =>
                if jb.id > 0 ∧ is_job_completed jb ≠ 0 then
                  match remove_job reg1 k with
                  | .error e => .error e
                  | .ok reg2 => sigint_handler ws reg2
                else sigint_handler ws reg1
    else .ok reg

/-- The edges of the process state machine as section 4.2 of the specification
lists them (the code has no such table): `New -> Ready`, `Ready -> Running`,
`Running -> Done`, `Running -> Terminated`, `Running -> Suspended`,
`Suspended -> Continued`, `Continued -> Running`. -/
def spec_state_machine_edge : PROCESS_STATUS → PROCESS_STATUS → Bool
  | STATUS_NEW, STATUS_READY => true
  | STATUS_READY, STATUS_RUNNING => true
  | STATUS_RUNNING, STATUS_DONE => true
  | STATUS_RUNNING, STATUS_TERMINATED => true
  | STATUS_RUNNING, STATUS_SUSPENDED => true
  | STATUS_SUSPENDED, STATUS_CONTINUED => true
  | STATUS_CONTINUED, STATUS_RUNNING => true
  | _, _ => false

/-! ## Runs of `insert_job` and `remove_job` -/

/-- One call on the registry: `insert_job(j)` or `remove_job` of the node at a position. -/
inductive RegistryOp where
  | insert (j : job)
  | remove (k : Nat)
  deriving DecidableEq, Repr

/-- The registry after one call. -/
def apply_op (reg : Registry) : RegistryOp → Except Stuck Registry
  | .insert j => (insert_job reg j).map (fun r => r.1)
  | .remove k => remove_job reg k

/-- The registry after a sequence of calls, first call first. -/
def run_ops : List RegistryOp → Registry → Except Stuck Registry
  | [], reg => .ok reg
  | op :: ops, reg =>
    match apply_op reg op with
    | .error e => .error e
    | .ok reg1 => run_ops ops reg1

/-- The ids that the `insert_job` calls of a sequence return, first call first. -/
def assigned_ids : List RegistryOp → Registry → List Int
  | [], _ => []
  | .insert j :: ops, reg =>
    match insert_job reg j with
    | .error _ => []
    | .ok (reg1, id) => id :: assigned_ids ops reg1
  | .remove k :: ops, reg =>
    match remove_job reg k with
    | .error _ => []
    | .ok reg1 => assigned_ids ops reg1

/-- Number of `insert_job` calls in a sequence. -/
def count_inserts : List RegistryOp → Nat
  | [] => 0
  | .insert _ :: ops => count_inserts ops + 1
  | .remove _ :: ops => count_inserts ops

/-! ## Shapes used in the statements -/

/-- The id that `insert_job` computes for the job it registers: 1 on the empty
registry, the id of the last registered job plus one otherwise. -/
def next_id (reg : Registry) : Int :=
  match get_last_job reg with
  | none => 1
  | some last_job => last_job.id + 1

/-- The value of an `int` sum on a target where signed overflow wraps (two's
complement on 32 bits). -/
def int_wrap (x : Int) : Int := (x + 2147483648) % 4294967296 - 2147483648

/-- The node of a job `j` with the single process `p` while it is registered under
`id`, once `launch_process` has recorded the pid `childpid` of the child (and set
the `pgid` when it was not set), the process being in `status`. -/
def launched_job (j : job) (id : Int) (p : process) (childpid : Int)
    (status : PROCESS_STATUS) : job :=
  { j with
      id := id
      processes := [{ p with pid := childpid, status := status }]
      pgid := if j.pgid ≤ 0 then childpid else j.pgid }

/-- The status of the process at position `i` of the job at position `k`. -/
def status_at (reg : Registry) (k i : Nat) : Option PROCESS_STATUS :=
  match reg[k]? with
  | none => none
  | some j => j.processes[i]?.map (fun p => p.status)

/-- The registry with the status of the process at position `i` of the job at
position `k` replaced, everything else as it was. -/
def with_status_at (reg : Registry) (k i : Nat) (status : PROCESS_STATUS) : Registry :=
  modify_at
    (fun j =>
      { j with processes := modify_at (fun q => { q with status := status }) j.processes i })
    reg k

/-- Position, in pipeline order, of the first process of a chain that has the pid. -/
def first_with_pid_in : List process → Int → Option Nat
  | [], _ => none
  | p :: rest, pid =>
    if p.pid = pid then some 0 else (first_with_pid_in rest pid).map (fun i => i + 1)

/-- Position of the first process with the pid: first job in registration order
that holds one, first such process in it. -/
def first_with_pid : Registry → Int → Option (Nat × Nat)
  | [], _ => none
  | j :: rest, pid =>
    match first_with_pid_in j.processes pid with
    | some i => some (0, i)
    | none => (first_with_pid rest pid).map (fun ki => (ki.1 + 1, ki.2))

/-- The three outcomes that `waitpid(_, _, WUNTRACED)` reports for a child: a
normal exit with a code, a death by a signal (with or without core dump), a stop
by a signal. -/
inductive wait_outcome where
  | exited (code : Nat)
  | signaled (sig : Nat) (core : Bool)
  | stopped (sig : Nat)
  deriving DecidableEq, Repr

/-- The ranges of the outcomes: exit codes are 0..255, signals that kill 1..126,
signals that stop 1..255. -/
def wait_outcome.valid : wait_outcome → Bool
  | .exited code => decide (code < 256)
  | .signaled sig _ => decide (1 ≤ sig ∧ sig ≤ 126)
  | .stopped sig => decide (1 ≤ sig ∧ sig ≤ 255)

/-- The status that `waitpid` stores for an outcome. -/
def wait_outcome.raw : wait_outcome → Int
  | .exited code => W_EXITCODE code 0
  | .signaled sig core => W_EXITCODE 0 (sig + (if core then 128 else 0))
  | .stopped sig => W_STOPCODE sig

/-- The rule of section 4.4 of the specification: exited gives Done, killed by a
signal gives Terminated, stopped gives Suspended. -/
def spec_settled_status : wait_outcome → PROCESS_STATUS
  | .exited _ => STATUS_DONE
  | .signaled _ _ => STATUS_TERMINATED
  | .stopped _ => STATUS_SUSPENDED

/-- The value that section 4.4 of the specification has the waits return for an
outcome: the status code, and the distinguished -1 for a stop. -/
def spec_returned_status : wait_outcome → Int
  | .stopped _ => -1
  | o => o.raw

/-- One observed outcome, the reported pid first. -/
abbrev wait_event := Int × wait_outcome

/-- What `waitpid` gives for an observed outcome. -/
def wait_event_result (e : wait_event) : wait_result := { pid := e.1, status := e.2.raw }

/-- The effect that the specification gives to one observed outcome: the process
with the reported pid gets the status of the rule, nothing else changes. -/
def spec_settle (reg : Registry) (e : wait_event) : Registry :=
  match first_with_pid reg e.1 with
  | none => reg
  | some (k, i) => with_status_at reg k i (spec_settled_status e.2)

/-- The effect of a sequence of observed outcomes, first outcome first. -/
def spec_wait_effect (reg : Registry) (events : List wait_event) : Registry :=
  events.foldl spec_settle reg

/-- The effect that the specification gives to one outcome observed by
`wait_for_job` for the job at position `k`: the process of that job with the
reported pid (the first one in pipeline order) gets the status of the rule,
nothing else changes. -/
def spec_settle_job (reg : Registry) (k : Nat) (e : wait_event) : Registry :=
  match reg[k]? with
  | none => reg
  | some j =>
    match first_with_pid_in j.processes e.1 with
    | none => reg
    | some i => with_status_at reg k i (spec_settled_status e.2)

/-- The effect on the job at position `k` of a sequence of outcomes observed for
it, first outcome first. -/
def spec_wait_effect_job (reg : Registry) (k : Nat) (events : List wait_event) : Registry :=
  events.foldl (fun r e => spec_settle_job r k e) reg

/-- The value that one turn of the loop of `wait_for_job` leaves in the variable
`status`, for the value that `waitpid` left there: -1 in the branch of a stop,
the value itself in the other branches. -/
def status_after_turn (status : Int) : Int :=
  if WIFEXITED status then status
  else if WIFSIGNALED status then status
  else if WSTOPSIG status ≠ 0 then -1
  else status

/-- The fields of a job node that no status update and no launch writes: the id
and the mode. -/
def job_frame (j : job) : Int × PROCESS_EXECUTION_MODES := (j.id, j.mode)

/-- Whether an outcome is a stop. -/
def wait_outcome.is_stop : wait_outcome → Bool
  | .stopped _ => true
  | _ => false

/-- Whether `PROCESS_STATUS_STRING` has an entry for the status, so that
`print_job_status` can name it. -/
def has_status_string (status : PROCESS_STATUS) : Bool :=
  decide (status_value status < PROCESS_STATUS_STRING.length)

/-- The status that the three-way test of `sigint_handler` selects for a reaped
wait status, `none` when no branch runs. -/
def reaped_status (status : Int) : Option PROCESS_STATUS :=
  if WIFEXITED status then some STATUS_DONE
  else if WIFSTOPPED status then some STATUS_SUSPENDED
  else if WIFCONTINUED status then some STATUS_CONTINUED
  else none

/-- The registry after the three-way test of `sigint_handler` on the process at
position `i` of the job at position `k`. -/
def reaped_registry (reg : Registry) (k i : Nat) (status : Int) : Registry :=
  match reaped_status status with
  | none => reg
  | some st => with_status_at reg k i st

/-- The value returned after a sequence of observed outcomes: that of the last one. -/
def spec_wait_return (events : List wait_event) : Int :=
  match events.getLast? with
  | none => 0
  | some e => spec_returned_status e.2

/-- A process as `new_job` leaves the one of the command `ls`. -/
def sample_process : process :=
  { argc := 1, argv := [some "ls", none], pid := -1, status := STATUS_READY }

/-- A foreground job with one process, not yet registered. -/
def sample_job : job :=
  { id := 0, processes := [sample_process], pgid := -1, mode := FOREGROUND_EXECUTION }

/-- A background job with one process, not yet registered. -/
def sample_background_job : job :=
  { id := 0, processes := [sample_process], pgid := -1, mode := BACKGROUND_EXECUTION }

/-- A registered background job with id 1 whose process runs with pid 100. -/
def sample_running_job : job :=
  { id := 1
    processes := [{ sample_process with pid := 100, status := STATUS_RUNNING }]
    pgid := 100
    mode := BACKGROUND_EXECUTION }

/-- A registered background job with id 1 whose process, pid 100, was killed by a signal. -/
def sample_terminated_job : job :=
  { id := 1
    processes := [{ sample_process with pid := 100, status := STATUS_TERMINATED }]
    pgid := 100
    mode := BACKGROUND_EXECUTION }

/-- A registered background job with id 1 whose process, pid 100, is Done. -/
def sample_done_job : job :=
  { id := 1
    processes := [{ sample_process with pid := 100, status := STATUS_DONE }]
    pgid := 100
    mode := BACKGROUND_EXECUTION }

/-- A registered foreground job with id 1 whose process runs with pid 100, as
`launch_process` holds it while `wait_for_job` waits for it. -/
def sample_foreground_running_job : job :=
  { id := 1
    processes := [{ sample_process with pid := 100, status := STATUS_RUNNING }]
    pgid := 100
    mode := FOREGROUND_EXECUTION }

/-- A registered background job with id 2 whose process runs with pid 200. -/
def sample_second_running_job : job :=
  { id := 2
    processes := [{ sample_process with pid := 200, status := STATUS_RUNNING }]
    pgid := 200
    mode := BACKGROUND_EXECUTION }

/-- A registered foreground job with id 2 whose process runs with pid 100, as
`launch_process` holds it while `wait_for_job` waits for it: the pid is the one
of the Terminated process of `sample_terminated_job`, given again by the
operating system. -/
def sample_same_pid_job : job :=
  { id := 2
    processes := [{ sample_process with pid := 100, status := STATUS_RUNNING }]
    pgid := 100
    mode := FOREGROUND_EXECUTION }

/-- A registered background job with id 1 and two processes: the first, pid 100,
has been stopped and continued (Continued), the second, pid 101, is Running. -/
def sample_continued_job : job :=
  { id := 1
    processes :=
      [{ sample_process with pid := 100, status := STATUS_CONTINUED },
       { sample_process with argv := [some "wc", none], pid := 101, status := STATUS_RUNNING }]
    pgid := 100
    mode := BACKGROUND_EXECUTION }

/-- A registered foreground job with id 1 and two processes, as `launch_job`
holds it while `launch_process` waits for the first process: the first, pid 100,
is Running, the second, added by `insert_process`, is not launched yet and is
still New. -/
def sample_half_launched_job : job :=
  { id := 1
    processes :=
      [{ sample_process with pid := 100, status := STATUS_RUNNING },
       { sample_process with argv := [some "wc", none], status := STATUS_NEW }]
    pgid := 100
    mode := FOREGROUND_EXECUTION }

/-- The process that `new_process` is to build for the command `ls`: one
argument, the array `ls`, `NULL`. -/
def sample_new_process : process :=
  { argc := 1, argv := [some "ls", none], pid := -1, status := STATUS_NEW }

/-- A run that raises the id of the only registered job by `n`: `n` times
`insert_job` of the sample job followed by `remove_job` of the first job. -/
def climb_ops : Nat → List RegistryOp
  | 0 => []
  | n + 1 => .insert sample_job :: .remove 0 :: climb_ops n

/-! # Theorems -/

theorem get_last_job_eq_getLast? (reg : Registry) : get_last_job reg = reg.getLast? := by
  induction reg with
  | nil => rfl
  | cons x rest ih =>
    cases rest with
    | nil => rfl
    | cons y r => simp only [get_last_job, ih, List.getLast?_cons_cons]

/-! ## Updates at a position of a chain -/

theorem modify_at_getElem? {α : Type} (f : α → α) (l : List α) (k : Nat) :
    (modify_at f l k)[k]? = l[k]?.map f := by
  induction l generalizing k with
  | nil => rfl
  | cons a rest ih =>
    cases k with
    | zero => simp [modify_at]
    | succ m => simp only [modify_at, List.getElem?_cons_succ, ih]

theorem modify_at_getElem?_ne {α : Type} (f : α → α) (l : List α) (k k1 : Nat)
    (h : k1 ≠ k) : (modify_at f l k)[k1]? = l[k1]? := by
  induction l generalizing k k1 with
  | nil => rfl
  | cons a rest ih =>
    cases k with
    | zero =>
      cases k1 with
      | zero => exact absurd rfl h
      | succ n => simp [modify_at]
    | succ m =>
      cases k1 with
      | zero => simp [modify_at]
      | succ n =>
        simp only [modify_at, List.getElem?_cons_succ]
        exact ih m n (fun e => h (by rw [e]))

theorem modify_at_append_length {α : Type} (f : α → α) (pre post : List α) (x : α) :
    modify_at f (pre ++ x :: post) pre.length = pre ++ f x :: post := by
  induction pre with
  | nil => rfl
  | cons a rest ih =>
    simp only [List.cons_append, List.length_cons, modify_at, List.append_eq]
    rw [ih]

theorem modify_at_eraseIdx {α : Type} (f : α → α) (l : List α) (k : Nat) :
    (modify_at f l k).eraseIdx k = l.eraseIdx k := by
  induction l generalizing k with
  | nil => rfl
  | cons a rest ih =>
    cases k with
    | zero => rfl
    | succ m => simp only [modify_at, List.eraseIdx_cons_succ, ih]

theorem modify_at_length {α : Type} (f : α → α) (l : List α) (k : Nat) :
    (modify_at f l k).length = l.length := by
  induction l generalizing k with
  | nil => rfl
  | cons a rest ih =>
    cases k with
    | zero => rfl
    | succ m => simp only [modify_at, List.length_cons, ih]

theorem modify_at_map_eq {α β : Type} (f : α → α) (g : α → β) (l : List α) (k : Nat)
    (h : ∀ x, g (f x) = g x) : (modify_at f l k).map g = l.map g := by
  induction l generalizing k with
  | nil => rfl
  | cons a rest ih =>
    cases k with
    | zero => simp only [modify_at, List.map_cons, h]
    | succ m => simp only [modify_at, List.map_cons, ih]

theorem mem_modify_at {α : Type} (f : α → α) (l : List α) (k : Nat) (x : α)
    (h : x ∈ modify_at f l k) : x ∈ l ∨ ∃ y ∈ l, x = f y := by
  induction l generalizing k with
  | nil => simp [modify_at] at h
  | cons a rest ih =>
    cases k with
    | zero =>
      simp only [modify_at, List.mem_cons] at h
      rcases h with h | h
      · exact Or.inr ⟨a, List.mem_cons_self _ _, h⟩
      · exact Or.inl (List.mem_cons_of_mem _ h)
    | succ m =>
      simp only [modify_at, List.mem_cons] at h
      rcases h with h | h
      · exact Or.inl (by rw [h]; exact List.mem_cons_self _ _)
      · rcases ih m h with h1 | ⟨y, hy, hxy⟩
        · exact Or.inl (List.mem_cons_of_mem _ h1)
        · exact Or.inr ⟨y, List.mem_cons_of_mem _ hy, hxy⟩

theorem set_length_pred {α : Type} (l : List α) (n : Nat) (x : α) (h : l.length = n + 1) :
    l.set n x = l.take n ++ [x] := by
  induction l generalizing n with
  | nil => simp at h
  | cons a rest ih =>
    cases n with
    | zero =>
      have : rest = [] := by simpa using h
      subst this; rfl
    | succ m =>
      simp only [List.length_cons, Nat.add_right_cancel_iff] at h
      simp only [List.set_cons_succ, List.take_succ_cons, List.cons_append, ih m h]

theorem set_append_length {α : Type} (pre post : List α) (x y : α) :
    (pre ++ x :: post).set pre.length y = pre ++ y :: post := by
  induction pre with
  | nil => rfl
  | cons a rest ih => simp only [List.cons_append, List.length_cons, List.set_cons_succ, ih]

theorem getElem?_append_cons_length {α : Type} (pre post : List α) (x : α) :
    (pre ++ x :: post)[pre.length]? = some x := by
  rw [List.getElem?_append_right (Nat.le_refl _)]
  simp

theorem eq_take_append_cons_drop {α : Type} (l : List α) (k : Nat) (x : α)
    (h : l[k]? = some x) : l = l.take k ++ x :: l.drop (k + 1) ∧ (l.take k).length = k := by
  have hk : k < l.length := by
    rcases Nat.lt_or_ge k l.length with h1 | h1
    · exact h1
    · rw [List.getElem?_eq_none h1] at h
      cases h
  have hx : l[k] = x := by
    rw [List.getElem?_eq_getElem hk] at h
    exact Option.some.inj h
  refine ⟨?_, by rw [List.length_take]; omega⟩
  rw [← hx, ← List.drop_eq_getElem_cons hk, List.take_append_drop]

theorem next_id_nil : next_id [] = 1 := rfl

theorem next_id_of_getLast? (reg : Registry) (l : job) (h : reg.getLast? = some l) :
    next_id reg = l.id + 1 := by
  unfold next_id
  rw [get_last_job_eq_getLast?, h]

theorem next_id_cases (reg : Registry) :
    (reg = [] ∧ next_id reg = 1) ∨ (∃ l, reg.getLast? = some l ∧ next_id reg = l.id + 1) := by
  cases h : reg.getLast? with
  | none =>
    have : reg = [] := by simpa using h
    subst this
    exact Or.inl ⟨rfl, rfl⟩
  | some l => exact Or.inr ⟨l, rfl, next_id_of_getLast? reg l h⟩

theorem insert_job_eq (reg : Registry) (j : job) :
    insert_job reg j =
      if next_id reg > INT_MAX then .error .signed_overflow
      else .ok (reg ++ [{ j with id := next_id reg }], next_id reg) := by
  unfold insert_job next_id
  cases h : get_last_job reg with
  | none =>
    rw [get_last_job_eq_getLast?] at h
    have : reg = [] := by simpa using h
    subst this
    rw [if_neg (by decide)]
    rfl
  | some l => rfl

theorem insert_job_ok_of_le (reg : Registry) (j : job) (h : next_id reg ≤ INT_MAX) :
    insert_job reg j = .ok (reg ++ [{ j with id := next_id reg }], next_id reg) := by
  rw [insert_job_eq, if_neg (by omega)]

theorem insert_job_ok_cases (reg r : Registry) (j : job) (id : Int)
    (h : insert_job reg j = .ok (r, id)) :
    id = next_id reg ∧ r = reg ++ [{ j with id := next_id reg }] ∧ next_id reg ≤ INT_MAX := by
  rw [insert_job_eq] at h
  by_cases hb : next_id reg > INT_MAX
  · rw [if_pos hb] at h
    cases h
  · rw [if_neg hb] at h
    injection h with h
    injection h with h1 h2
    exact ⟨h2.symm, h1.symm, by omega⟩

theorem insert_job_error_cases (reg : Registry) (j : job) (e : Stuck)
    (h : insert_job reg j = .error e) : e = .signed_overflow ∧ next_id reg > INT_MAX := by
  rw [insert_job_eq] at h
  by_cases hb : next_id reg > INT_MAX
  · rw [if_pos hb] at h
    injection h with h
    exact ⟨h.symm, hb⟩
  · rw [if_neg hb] at h
    cases h

theorem next_id_gt (reg : Registry)
    (hs : List.Pairwise (· < ·) (reg.map (fun x => x.id))) :
    ∀ x ∈ reg, x.id < next_id reg := by
  intro x hx
  rcases next_id_cases reg with ⟨rfl, _⟩ | ⟨l, h, hn⟩
  · simp at hx
  · rw [hn]
    obtain ⟨pre, rfl⟩ : ∃ pre, reg = pre ++ [l] := by
      have hne : reg ≠ [] := by rintro rfl; simp at h
      refine ⟨reg.dropLast, ?_⟩
      have := List.dropLast_append_getLast hne
      rw [List.getLast?_eq_getLast _ hne] at h
      simp only [Option.some.injEq] at h
      rw [← h]; exact this.symm
    simp only [List.map_append, List.map_cons, List.map_nil, List.pairwise_append,
      List.mem_map, List.mem_singleton, forall_exists_index, and_imp] at hs
    simp only [List.mem_append, List.mem_singleton] at hx
    rcases hx with hx | rfl
    · have := hs.2.2 x.id x hx rfl l.id rfl
      omega
    · omega

theorem next_id_pos (reg : Registry) (hp : ∀ x ∈ reg, 1 ≤ x.id) : 1 ≤ next_id reg := by
  rcases next_id_cases reg with ⟨_, hn⟩ | ⟨l, h, hn⟩
  · omega
  · have := hp l (List.mem_of_getLast?_eq_some h)
    omega

theorem next_id_le (reg : Registry) (n : Int) (hn : 0 ≤ n)
    (hp : ∀ x ∈ reg, x.id ≤ n) : next_id reg ≤ n + 1 := by
  rcases next_id_cases reg with ⟨_, hn⟩ | ⟨l, h, hn⟩
  · omega
  · have := hp l (List.mem_of_getLast?_eq_some h)
    omega

/-- While every registered id is below `INT_MAX`, `insert_job` appends the job
with the id `next_id`. -/
theorem insert_job_ok (reg : Registry) (j : job) (h : ∀ x ∈ reg, x.id < INT_MAX) :
    insert_job reg j = .ok (reg ++ [{ j with id := next_id reg }], next_id reg) := by
  apply insert_job_ok_of_le
  have := next_id_le reg (INT_MAX - 1) (by decide) (fun x hx => by have := h x hx; omega)
  omega

theorem get_job_parent_from_eq (l : List job) (i d : Nat) (h : d + 1 < l.length) :
    get_job_parent_from l i (i + 1 + d) = .ok (i + d) := by
  induction d generalizing l i with
  | zero =>
    match l, h with
    | x :: y :: r, _ => simp [get_job_parent_from]
  | succ d ih =>
    match l, h with
    | x :: y :: r, h =>
      have h1 : d + 1 < (y :: r).length := by simp only [List.length_cons] at h ⊢; omega
      have := ih (y :: r) (i + 1) h1
      rw [get_job_parent_from, if_neg (by omega)]
      rw [show i + 1 + (d + 1) = i + 1 + 1 + d by omega, this]
      congr 1; omega

theorem get_job_parent_from_error (l : List job) (i k : Nat) (h : i + l.length ≤ k) :
    get_job_parent_from l i k = .error .null_dereference := by
  induction l generalizing i with
  | nil => rfl
  | cons x rest ih =>
    rw [get_job_parent_from]
    simp only [List.length_cons] at h
    have hrec := ih (i + 1) (by omega)
    by_cases hr : rest = []
    · subst hr; simp [get_job_parent_from]
    · have hlen : 0 < rest.length := List.length_pos.mpr hr
      rw [if_neg (by omega), hrec]

theorem remove_job_eq_eraseIdx (reg : Registry) (k : Nat) (h : k < reg.length) :
    remove_job reg k = .ok (reg.eraseIdx k) := by
  have hne : reg ≠ [] := by rintro rfl; simp at h
  unfold remove_job get_job_parent
  rw [if_neg hne]
  cases k with
  | zero =>
    simp only [hne, or_true, false_or, ite_true]
    cases reg with
    | nil => exact absurd rfl hne
    | cons x r => simp
  | succ k =>
    have hp := get_job_parent_from_eq reg 0 k (by omega)
    rw [if_neg (by simp [hne])]
    rw [show k + 1 = 0 + 1 + k by omega, hp]
    simp only [Except.map, zero_add]
    rw [show 1 + k = k + 1 by omega]
    have he : reg.eraseIdx (k + 1) = reg.take (k + 1) ++ reg.drop (k + 1 + 1) :=
      List.eraseIdx_eq_take_drop_succ reg (k + 1)
    by_cases hd : List.drop (k + 1 + 1) reg = []
    · rw [if_pos hd, he, hd, List.append_nil]
    · rw [if_neg hd, he]

theorem remove_job_nil (k : Nat) : remove_job [] k = .ok [] := rfl

theorem remove_job_not_registered (reg : Registry) (k : Nat) (hne : reg ≠ [])
    (h : reg.length ≤ k) : remove_job reg k = .error .null_dereference := by
  unfold remove_job get_job_parent
  have hk : k ≠ 0 := by
    have := List.length_pos.mpr hne
    omega
  rw [if_neg hne, if_neg (by simp [hne, hk])]
  rw [get_job_parent_from_error reg 0 k (by omega)]
  rfl

theorem remove_job_ok_cases (reg reg1 : Registry) (k : Nat) (h : remove_job reg k = .ok reg1) :
    reg1 = reg.eraseIdx k := by
  by_cases hk : k < reg.length
  · rw [remove_job_eq_eraseIdx reg k hk] at h
    injection h with h
    exact h.symm
  · by_cases hne : reg = []
    · subst hne
      rw [remove_job_nil] at h
      injection h with h
      simp [← h]
    · rw [remove_job_not_registered reg k hne (by omega)] at h
      cases h

theorem apply_op_insert_ok (reg reg1 : Registry) (j : job)
    (h : apply_op reg (.insert j) = .ok reg1) :
    reg1 = reg ++ [{ j with id := next_id reg }] ∧ next_id reg ≤ INT_MAX ∧
    insert_job reg j = .ok (reg1, next_id reg) := by
  simp only [apply_op] at h
  cases hi : insert_job reg j with
  | error e => rw [hi] at h; cases h
  | ok r =>
    obtain ⟨r1, id⟩ := r
    rw [hi] at h
    simp only [Except.map, Except.ok.injEq] at h
    subst h
    obtain ⟨h1, h2, h3⟩ := insert_job_ok_cases reg r1 j id hi
    exact ⟨h2, h3, by rw [h1]⟩

theorem apply_op_ids_increasing (reg reg1 : Registry) (op : RegistryOp)
    (h : apply_op reg op = .ok reg1)
    (hs : List.Pairwise (· < ·) (reg.map (fun x => x.id)))
    (hp : ∀ x ∈ reg, 1 ≤ x.id) :
    List.Pairwise (· < ·) (reg1.map (fun x => x.id)) ∧ ∀ x ∈ reg1, 1 ≤ x.id := by
  cases op with
  | insert j =>
    obtain ⟨h1, _, _⟩ := apply_op_insert_ok reg reg1 j h
    subst h1
    constructor
    · simp only [List.map_append, List.map_cons, List.map_nil, List.pairwise_append,
        List.pairwise_singleton, List.mem_map, List.mem_singleton, forall_exists_index,
        and_imp, true_and]
      refine ⟨hs, ?_⟩
      rintro a x hx rfl b rfl
      exact next_id_gt reg hs x hx
    · intro x hx
      simp only [List.mem_append, List.mem_singleton] at hx
      rcases hx with hx | rfl
      · exact hp x hx
      · exact next_id_pos reg hp
  | remove k =>
    simp only [apply_op] at h
    have := remove_job_ok_cases reg reg1 k h
    subst this
    constructor
    · exact hs.sublist ((List.eraseIdx_sublist reg k).map _)
    · intro x hx
      exact hp x ((List.eraseIdx_sublist reg k).subset hx)

theorem run_ops_ids_increasing (ops : List RegistryOp) (reg reg1 : Registry)
    (h : run_ops ops reg = .ok reg1)
    (hs : List.Pairwise (· < ·) (reg.map (fun x => x.id)))
    (hp : ∀ x ∈ reg, 1 ≤ x.id) :
    List.Pairwise (· < ·) (reg1.map (fun x => x.id)) ∧ ∀ x ∈ reg1, 1 ≤ x.id := by
  induction ops generalizing reg with
  | nil =>
    simp only [run_ops, Except.ok.injEq] at h
    subst h
    exact ⟨hs, hp⟩
  | cons op ops ih =>
    simp only [run_ops] at h
    cases hop : apply_op reg op with
    | error e => rw [hop] at h; cases h
    | ok r =>
      rw [hop] at h
      have := apply_op_ids_increasing reg r op hop hs hp
      exact ih r h this.1 this.2

/-- In a registry reached from the empty one by `insert_job` and `remove_job`
calls the ids are strictly increasing in registration order and at least 1. -/
theorem reachable_ids_increasing (ops : List RegistryOp) (reg : Registry)
    (h : run_ops ops [] = .ok reg) :
    List.Pairwise (· < ·) (reg.map (fun x => x.id)) ∧ ∀ x ∈ reg, 1 ≤ x.id :=
  run_ops_ids_increasing ops [] reg h (by simp) (by simp)

theorem run_ops_ids_le_inserts (ops : List RegistryOp) (reg reg1 : Registry) (n : Nat)
    (h : run_ops ops reg = .ok reg1) (hn : ∀ x ∈ reg, x.id ≤ n) :
    ∀ x ∈ reg1, x.id ≤ n + count_inserts ops := by
  induction ops generalizing reg n with
  | nil =>
    simp only [run_ops, Except.ok.injEq] at h
    subst h
    simpa [count_inserts] using hn
  | cons op ops ih =>
    simp only [run_ops] at h
    cases hop : apply_op reg op with
    | error e => rw [hop] at h; cases h
    | ok r =>
      rw [hop] at h
      cases op with
      | insert j =>
        obtain ⟨h1, _, _⟩ := apply_op_insert_ok reg r j hop
        subst h1
        have hle := next_id_le reg n (by omega) hn
        have hn1 : ∀ x ∈ reg ++ [{ j with id := next_id reg }], x.id ≤ ((n + 1 : Nat) : Int) := by
          intro x hx
          simp only [List.mem_append, List.mem_singleton] at hx
          rcases hx with hx | rfl
          · have := hn x hx
            push_cast; omega
          · push_cast; exact hle
        have := ih _ (n + 1) h hn1
        intro x hx
        have := this x hx
        simp only [count_inserts]
        push_cast at this ⊢
        omega
      | remove k =>
        simp only [apply_op] at hop
        have he := remove_job_ok_cases reg r k hop
        subst he
        have := ih (reg.eraseIdx k) n h
          (fun x hx => hn x ((List.eraseIdx_sublist reg k).subset hx))
        simpa [count_inserts] using this

/-- Every id in a registry reached from the empty one is at most the number of
`insert_job` calls made. -/
theorem reachable_ids_le_inserts (ops : List RegistryOp) (reg : Registry)
    (h : run_ops ops [] = .ok reg) : ∀ x ∈ reg, x.id ≤ count_inserts ops := by
  have := run_ops_ids_le_inserts ops [] reg 0 h (by simp)
  simpa using this

theorem run_ops_ids_assigned (ops : List RegistryOp) (reg reg1 : Registry)
    (h : run_ops ops reg = .ok reg1) :
    ∀ x ∈ reg1, x.id ∈ reg.map (fun y => y.id) ∨ x.id ∈ assigned_ids ops reg := by
  induction ops generalizing reg with
  | nil =>
    simp only [run_ops, Except.ok.injEq] at h
    subst h
    intro x hx
    exact Or.inl (List.mem_map_of_mem _ hx)
  | cons op ops ih =>
    simp only [run_ops] at h
    cases hop : apply_op reg op with
    | error e => rw [hop] at h; cases h
    | ok r =>
      rw [hop] at h
      intro x hx
      cases op with
      | insert j =>
        obtain ⟨h1, _, h3⟩ := apply_op_insert_ok reg r j hop
        simp only [assigned_ids, h3, List.mem_cons]
        rcases ih _ h x hx with h1a | h1a
        · rw [h1] at h1a
          simp only [List.map_append, List.map_cons, List.map_nil, List.mem_append,
            List.mem_singleton] at h1a
          rcases h1a with h1a | h1a
          · exact Or.inl h1a
          · exact Or.inr (Or.inl h1a)
        · exact Or.inr (Or.inr h1a)
      | remove k =>
        simp only [apply_op] at hop
        simp only [assigned_ids, hop]
        have he := remove_job_ok_cases reg r k hop
        rcases ih _ h x hx with h1 | h1
        · left
          rw [he] at h1
          exact ((List.eraseIdx_sublist reg k).map _).subset h1
        · exact Or.inr h1

theorem run_ops_append (ops1 ops2 : List RegistryOp) (reg reg1 : Registry)
    (h : run_ops ops1 reg = .ok reg1) :
    run_ops (ops1 ++ ops2) reg = run_ops ops2 reg1 := by
  induction ops1 generalizing reg with
  | nil =>
    simp only [run_ops, Except.ok.injEq] at h
    subst h
    rfl
  | cons op ops ih =>
    simp only [run_ops, List.cons_append] at h ⊢
    cases hop : apply_op reg op with
    | error e => rw [hop] at h; cases h
    | ok r =>
      rw [hop] at h
      simp only
      exact ih r h

/-- From the registry that holds the sample job alone under the id `m`, the run
`climb_ops n` leads to the registry that holds it alone under the id `m + n`, as
long as that id is in the range of `int`. -/
theorem run_ops_climb (n : Nat) (m : Int) (hm : m + n ≤ INT_MAX) :
    run_ops (climb_ops n) [{ sample_job with id := m }]
      = .ok [{ sample_job with id := m + n }] := by
  induction n generalizing m with
  | zero => simp [climb_ops, run_ops]
  | succ n ih =>
    have h1 : insert_job [{ sample_job with id := m }] sample_job
        = .ok ([{ sample_job with id := m }, { sample_job with id := m + 1 }], m + 1) := by
      have hle : next_id [{ sample_job with id := m }] ≤ INT_MAX := by
        show m + 1 ≤ INT_MAX
        push_cast at hm
        omega
      exact insert_job_ok_of_le _ _ hle
    have h2 : remove_job [{ sample_job with id := m }, { sample_job with id := m + 1 }] 0
        = .ok [{ sample_job with id := m + 1 }] := rfl
    have h3 := ih (m + 1) (by push_cast at hm ⊢; omega)
    rw [climb_ops, run_ops, apply_op, h1]
    simp only [Except.map]
    rw [run_ops, apply_op, h2]
    simp only
    rw [h3]
    have e : m + 1 + (n : Int) = m + ((n + 1 : Nat) : Int) := by
      push_cast
      omega
    rw [e]

/-! ## C1: ids assigned by `insert_job` -/

/-- C1, as the code has it: in every registry reached from the empty one by
`insert_job` and `remove_job` calls the ids of the registered jobs are strictly
increasing in registration order and pairwise distinct. While every registered
id is below `INT_MAX`, which holds after fewer than 2147483647 `insert_job`
calls, `insert_job(j)` appends `j` last with an id strictly greater than the id
of every registered job (1 when the registry is empty). Once a registered job has
the id `INT_MAX`, the sum `last_job->id + 1` overflows. -/
theorem C1_insert_job_assigns_greater_id (ops : List RegistryOp) (reg : Registry) (j : job)
    (h : run_ops ops [] = .ok reg) :
    List.Pairwise (· < ·) (reg.map (fun x => x.id)) ∧
    (reg.map (fun x => x.id)).Nodup ∧
    ((∀ x ∈ reg, x.id < INT_MAX) →
      ∃ id, insert_job reg j = .ok (reg ++ [{ j with id := id }], id) ∧
        (∀ x ∈ reg, x.id < id) ∧ (reg = [] → id = 1)) ∧
    (count_inserts ops < 2147483647 → ∀ x ∈ reg, x.id < INT_MAX) ∧
    ((∃ x ∈ reg, x.id = INT_MAX) → insert_job reg j = .error .signed_overflow) := by
  have hinv := reachable_ids_increasing ops reg h
  refine ⟨hinv.1, hinv.1.imp (fun hab => ne_of_lt hab), ?_, ?_, ?_⟩
  · intro hb
    refine ⟨next_id reg, insert_job_ok reg j hb, next_id_gt reg hinv.1, ?_⟩
    rintro rfl
    rfl
  · intro hc x hx
    have := reachable_ids_le_inserts ops reg h x hx
    have hc1 : ((count_inserts ops : Nat) : Int) < 2147483647 := by exact_mod_cast hc
    show x.id < 2147483647
    omega
  · rintro ⟨x, hx, hxe⟩
    have := next_id_gt reg hinv.1 x hx
    rw [insert_job_eq, if_pos (by omega)]

/-- C1 as amended, at the registry left by two registrations and the removal of
the first job: the next job gets the id 3. -/
theorem C1_insert_job_assigns_greater_id_witness :
    run_ops [.insert sample_job, .insert sample_background_job, .remove 0] []
      = .ok [{ sample_background_job with id := 2 }] ∧
    ∃ id, insert_job [{ sample_background_job with id := 2 }] sample_job
        = .ok ([{ sample_background_job with id := 2 }] ++ [{ sample_job with id := id }], id) ∧
      (∀ x ∈ [{ sample_background_job with id := 2 }], x.id < id) ∧
      (([{ sample_background_job with id := 2 }] : Registry) = [] → id = 1) :=
  ⟨rfl,
   (C1_insert_job_assigns_greater_id
      [.insert sample_job, .insert sample_background_job, .remove 0]
      [{ sample_background_job with id := 2 }] sample_job rfl).2.2.1
      (fun x hx => by rw [List.mem_singleton.mp hx]; decide)⟩

/-- C1 fails as stated: the run that registers the sample job and then 2147483646
times registers it again and removes the older job reaches the registry whose
only job has the id `INT_MAX`. There `last_job->id + 1` overflows: `insert_job`
assigns no id greater than the registered one (where the sum wraps, the id
assigned is `INT_MIN`). -/
theorem C1_no_greater_id_at_int_max :
    run_ops (.insert sample_job :: climb_ops 2147483646) []
      = .ok [{ sample_job with id := 2147483647 }] ∧
    insert_job [{ sample_job with id := 2147483647 }] sample_job = .error .signed_overflow ∧
    int_wrap (2147483647 + 1) = -2147483648 ∧
    ¬ ((2147483647 : Int) < int_wrap (2147483647 + 1)) := by
  refine ⟨?_, ?_, by decide, by decide⟩
  · have h0 : run_ops [.insert sample_job] [] = .ok [{ sample_job with id := 1 }] := rfl
    have h1 := run_ops_append [.insert sample_job] (climb_ops 2147483646) [] _ h0
    rw [List.singleton_append] at h1
    rw [h1, run_ops_climb 2147483646 1 (by decide)]
    rfl
  · rw [insert_job_eq, if_pos (by decide)]

/-! ## C2: reuse of ids after removal -/

/-- C2, as the code has it: in a registry reached from the empty one by
`insert_job` and `remove_job` calls whose ids are below `INT_MAX`, the id that
`insert_job` assigns is the id of the last registered job plus one (1 for the empty
registry); it differs from the id of every job registered at that moment, and
those are ids assigned by earlier `insert_job` calls of the sequence. -/
theorem C2_insert_job_id_differs_from_registered (ops : List RegistryOp) (reg : Registry)
    (j : job) (h : run_ops ops [] = .ok reg) (hb : ∀ x ∈ reg, x.id < INT_MAX) :
    insert_job reg j = .ok (reg ++ [{ j with id := next_id reg }], next_id reg) ∧
    (reg = [] → next_id reg = 1) ∧
    (∀ last_job, reg.getLast? = some last_job → next_id reg = last_job.id + 1) ∧
    (∀ x ∈ reg, x.id ≠ next_id reg) ∧
    (∀ x ∈ reg, x.id ∈ assigned_ids ops []) := by
  have hinv := reachable_ids_increasing ops reg h
  refine ⟨insert_job_ok reg j hb, by rintro rfl; rfl, next_id_of_getLast? reg,
    fun x hx => ne_of_lt (next_id_gt reg hinv.1 x hx), ?_⟩
  intro x hx
  rcases run_ops_ids_assigned ops [] reg h x hx with h1 | h1
  · simp at h1
  · exact h1

/-- C2 as amended, at the registry left by two registrations and the removal of the
first job: the next id is 3. -/
theorem C2_insert_job_id_differs_from_registered_witness :
    run_ops [.insert sample_job, .insert sample_background_job, .remove 0] []
      = .ok [{ sample_background_job with id := 2 }] ∧
    insert_job [{ sample_background_job with id := 2 }] sample_job
      = .ok ([{ sample_background_job with id := 2 }, { sample_job with id := 3 }], 3) :=
  ⟨rfl,
   (C2_insert_job_id_differs_from_registered
      [.insert sample_job, .insert sample_background_job, .remove 0]
      [{ sample_background_job with id := 2 }] sample_job rfl
      (fun x hx => by rw [List.mem_singleton.mp hx]; decide)).1⟩

/-- C2 fails as stated: after `insert_job`, `remove_job` of that job and a second
`insert_job`, both calls have returned the id 1. -/
theorem C2_id_reused_after_removal :
    run_ops [.insert sample_job, .remove 0, .insert sample_background_job] []
      = .ok [{ sample_background_job with id := 1 }] ∧
    assigned_ids [.insert sample_job, .remove 0, .insert sample_background_job] [] = [1, 1] ∧
    ¬ (assigned_ids [.insert sample_job, .remove 0, .insert sample_background_job] []).Nodup := by
  refine ⟨rfl, rfl, ?_⟩
  rw [show assigned_ids [.insert sample_job, .remove 0, .insert sample_background_job] []
    = [1, 1] from rfl]
  decide

/-! ## C3: `is_job_completed` -/

theorem is_job_completed_from_cases (l : List process) :
    (is_job_completed_from l = 1 ∧ ∀ p ∈ l, p.status = STATUS_DONE) ∨
    (is_job_completed_from l = 0 ∧ ∃ p ∈ l, p.status ≠ STATUS_DONE) := by
  induction l with
  | nil => left; simp [is_job_completed_from]
  | cons p rest ih =>
    by_cases hp : p.status = STATUS_DONE
    · simp only [is_job_completed_from, hp, ne_eq, not_true_eq_false, ite_false]
      rcases ih with ⟨h1, h2⟩ | ⟨h1, q, hq, hq2⟩
      · left
        refine ⟨h1, ?_⟩
        intro q hq
        simp only [List.mem_cons] at hq
        rcases hq with rfl | hq
        · exact hp
        · exact h2 q hq
      · right
        exact ⟨h1, q, List.mem_cons_of_mem _ hq, hq2⟩
    · right
      simp only [is_job_completed_from, ne_eq, hp, not_false_eq_true, ite_true, true_and]
      exact ⟨p, List.mem_cons_self _ _, hp⟩

theorem get_processes_count_remaining (l : List process) (count : Int) :
    get_processes_count_from l PROC_FILTER_REMAINING count
      = count + (l.filter (fun p => decide (p.status ≠ STATUS_DONE))).length := by
  induction l generalizing count with
  | nil => simp [get_processes_count_from]
  | cons p rest ih =>
    rw [get_processes_count_from]
    by_cases hp : p.status = STATUS_DONE
    · rw [if_neg (by simp [hp, PROC_FILTER_REMAINING, PROC_FILTER_ALL, PROC_FILTER_DONE]), ih,
        List.filter_cons_of_neg (by simp [hp])]
    · rw [if_pos (by simp [hp]), ih, List.filter_cons_of_pos (by simp [hp])]
      simp only [List.length_cons]
      push_cast
      omega

/-- C3: `is_job_completed` returns 1 when every process of the job is Done and 0
otherwise, never another value, and it returns 1 exactly when
`get_processes_count(j, PROC_FILTER_REMAINING)` is 0. -/
theorem C3_is_job_completed_iff_all_done (j : job) :
    (is_job_completed j = 1 ∨ is_job_completed j = 0) ∧
    (is_job_completed j = 1 ↔ ∀ p ∈ j.processes, p.status = STATUS_DONE) ∧
    (is_job_completed j = 0 ↔ ∃ p ∈ j.processes, p.status ≠ STATUS_DONE) ∧
    (is_job_completed j = 1 ↔ get_processes_count j PROC_FILTER_REMAINING = 0) := by
  unfold is_job_completed get_processes_count
  rw [get_processes_count_remaining]
  have hcount : (0 + ((j.processes.filter
      (fun p => decide (p.status ≠ STATUS_DONE))).length : Int) = 0) ↔
      ∀ p ∈ j.processes, p.status = STATUS_DONE := by
    rw [zero_add, Int.natCast_eq_zero, List.length_eq_zero, List.filter_eq_nil_iff]
    simp
  rcases is_job_completed_from_cases j.processes with ⟨h1, h2⟩ | ⟨h1, q, hq, hq2⟩
  · rw [h1, hcount]
    refine ⟨Or.inl rfl, ⟨fun _ => h2, fun _ => rfl⟩, ⟨fun h => absurd h (by decide), ?_⟩,
      ⟨fun _ => h2, fun _ => rfl⟩⟩
    rintro ⟨p, hp, hp2⟩
    exact absurd (h2 p hp) hp2
  · rw [h1, hcount]
    refine ⟨Or.inr rfl, ⟨fun h => absurd h (by decide), fun h => absurd (h q hq) hq2⟩,
      ⟨fun _ => ⟨q, hq, hq2⟩, fun _ => rfl⟩,
      ⟨fun h => absurd h (by decide), fun h => absurd (h q hq) hq2⟩⟩

/-! ## Lookups -/

theorem exists_first_split {α : Type} (P : α → Prop) (l : List α) (h : ∃ x ∈ l, P x) :
    ∃ pre x post, l = pre ++ x :: post ∧ (∀ y ∈ pre, ¬ P y) ∧ P x := by
  induction l with
  | nil => simp at h
  | cons a rest ih =>
    by_cases ha : P a
    · exact ⟨[], a, rest, rfl, by simp, ha⟩
    · obtain ⟨x, hx, hPx⟩ := h
      simp only [List.mem_cons] at hx
      rcases hx with rfl | hx
      · exact absurd hPx ha
      · obtain ⟨pre, y, post, heq, hpre, hy⟩ := ih ⟨x, hx, hPx⟩
        refine ⟨a :: pre, y, post, by rw [heq]; rfl, ?_, hy⟩
        intro z hz
        simp only [List.mem_cons] at hz
        rcases hz with rfl | hz
        · exact ha
        · exact hpre z hz

theorem get_job_by_id_from_found (pre post : List job) (x : job) (k : Nat) (id : Int)
    (hpre : ∀ y ∈ pre, y.id ≠ id) (hx : x.id = id) :
    get_job_by_id_from (pre ++ x :: post) k id = .ok (k + pre.length) := by
  induction pre generalizing k with
  | nil => simp [get_job_by_id_from, hx]
  | cons a rest ih =>
    have ha : a.id ≠ id := hpre a (List.mem_cons_self _ _)
    rw [List.cons_append, get_job_by_id_from, if_pos ha,
      ih (k + 1) (fun y hy => hpre y (List.mem_cons_of_mem _ hy))]
    simp only [List.length_cons]
    congr 1
    omega

theorem get_job_by_id_from_absent (l : List job) (k : Nat) (id : Int)
    (h : ∀ y ∈ l, y.id ≠ id) : get_job_by_id_from l k id = .error .null_dereference := by
  induction l generalizing k with
  | nil => rfl
  | cons a rest ih =>
    rw [get_job_by_id_from, if_pos (h a (List.mem_cons_self _ _)),
      ih (k + 1) (fun y hy => h y (List.mem_cons_of_mem _ hy))]

theorem get_job_by_id_found (pre post : List job) (x : job) (id : Int)
    (hpre : ∀ y ∈ pre, y.id ≠ id) (hx : x.id = id) :
    get_job_by_id (pre ++ x :: post) id = .ok (some pre.length) := by
  unfold get_job_by_id
  have := get_job_by_id_from_found pre post x 0 id hpre hx
  cases hl : pre ++ x :: post with
  | nil => simp at hl
  | cons a r =>
    rw [hl] at this
    simp only [this, Except.map, zero_add]

/-- On a registry that is not empty and holds no job with the id, `get_job_by_id`
walks off the end of the chain and dereferences `NULL`. -/
theorem get_job_by_id_absent (reg : Registry) (id : Int) (hne : reg ≠ [])
    (h : ∀ y ∈ reg, y.id ≠ id) : get_job_by_id reg id = .error .null_dereference := by
  unfold get_job_by_id
  cases reg with
  | nil => exact absurd rfl hne
  | cons a r =>
    simp only [get_job_by_id_from_absent (a :: r) 0 id h, Except.map]

theorem any_pid_eq_true (l : List process) (pid : Int) :
    l.any (fun p => decide (p.pid = pid)) = true ↔ ∃ q ∈ l, q.pid = pid := by
  simp [List.any_eq_true]

theorem get_job_id_by_pid_found (pre post : List job) (x : job) (pid : Int)
    (hpre : ∀ y ∈ pre, ∀ q ∈ y.processes, q.pid ≠ pid)
    (hx : ∃ q ∈ x.processes, q.pid = pid) :
    get_job_id_by_pid (pre ++ x :: post) pid = x.id := by
  induction pre with
  | nil =>
    rw [List.nil_append, get_job_id_by_pid, if_pos ((any_pid_eq_true _ _).mpr hx)]
  | cons a rest ih =>
    have ha : ¬ (a.processes.any (fun p => decide (p.pid = pid)) = true) := by
      rw [any_pid_eq_true]
      rintro ⟨q, hq, hq2⟩
      exact hpre a (List.mem_cons_self _ _) q hq hq2
    rw [List.cons_append, get_job_id_by_pid, if_neg ha,
      ih (fun y hy => hpre y (List.mem_cons_of_mem _ hy))]

theorem get_job_id_by_pid_absent (l : List job) (pid : Int)
    (h : ∀ y ∈ l, ∀ q ∈ y.processes, q.pid ≠ pid) : get_job_id_by_pid l pid = -1 := by
  induction l with
  | nil => rfl
  | cons a rest ih =>
    have ha : ¬ (a.processes.any (fun p => decide (p.pid = pid)) = true) := by
      rw [any_pid_eq_true]
      rintro ⟨q, hq, hq2⟩
      exact h a (List.mem_cons_self _ _) q hq hq2
    rw [get_job_id_by_pid, if_neg ha, ih (fun y hy => h y (List.mem_cons_of_mem _ hy))]

theorem get_process_by_pid_from_found (ppre ppost : List process) (q : process) (i : Nat)
    (pid : Int) (hpre : ∀ r ∈ ppre, r.pid ≠ pid) (hq : q.pid = pid) :
    get_process_by_pid_from (ppre ++ q :: ppost) i pid = .ok (i + ppre.length) := by
  induction ppre generalizing i with
  | nil => simp [get_process_by_pid_from, hq]
  | cons a rest ih =>
    have ha : a.pid ≠ pid := hpre a (List.mem_cons_self _ _)
    rw [List.cons_append, get_process_by_pid_from, if_pos ha,
      ih (i + 1) (fun y hy => hpre y (List.mem_cons_of_mem _ hy))]
    simp only [List.length_cons]
    congr 1
    omega

theorem get_job_by_pid_absent (reg : Registry) (pid : Int)
    (h : ∀ y ∈ reg, ∀ q ∈ y.processes, q.pid ≠ pid) :
    get_job_by_pid reg pid = .ok none := by
  unfold get_job_by_pid
  rw [if_pos (get_job_id_by_pid_absent reg pid h)]

theorem get_process_by_pid_absent (reg : Registry) (pid : Int)
    (h : ∀ y ∈ reg, ∀ q ∈ y.processes, q.pid ≠ pid) :
    get_process_by_pid reg pid = .ok none := by
  unfold get_process_by_pid
  rw [get_job_by_pid_absent reg pid h]

theorem get_job_by_pid_found (pre post : List job) (x : job) (pid : Int)
    (hpre : ∀ y ∈ pre, ∀ r ∈ y.processes, r.pid ≠ pid)
    (hx : ∃ q ∈ x.processes, q.pid = pid)
    (hid : ∀ y ∈ pre, y.id ≠ x.id) (hne : x.id ≠ -1) :
    get_job_by_pid (pre ++ x :: post) pid = .ok (some pre.length) := by
  unfold get_job_by_pid
  rw [get_job_id_by_pid_found pre post x pid hpre hx, if_neg hne,
    get_job_by_id_found pre post x x.id hid rfl]

theorem get_process_by_pid_found (pre post : List job) (x : job)
    (ppre ppost : List process) (q : process) (pid : Int)
    (hx : x.processes = ppre ++ q :: ppost) (hq : q.pid = pid)
    (hppre : ∀ r ∈ ppre, r.pid ≠ pid)
    (hpre : ∀ y ∈ pre, ∀ r ∈ y.processes, r.pid ≠ pid)
    (hid : ∀ y ∈ pre, y.id ≠ x.id) (hne : x.id ≠ -1) :
    get_process_by_pid (pre ++ x :: post) pid = .ok (some (pre.length, ppre.length)) := by
  unfold get_process_by_pid
  have hex : ∃ r ∈ x.processes, r.pid = pid := ⟨q, by rw [hx]; simp, hq⟩
  rw [get_job_by_pid_found pre post x pid hpre hex hid hne]
  have hget : (pre ++ x :: post)[pre.length]? = some x :=
    getElem?_append_cons_length pre post x
  simp only [hget, hx]
  have := get_process_by_pid_from_found ppre ppost q 0 pid hppre hq
  cases hl : ppre ++ q :: ppost with
  | nil => simp at hl
  | cons a r =>
    rw [hl] at this
    simp only [this, Except.map, zero_add]

/-! ## C6: `get_job_by_id` -/

/-- C6 fails on the code: on the registry that holds one job, with id 1,
`get_job_by_id(2)` dereferences `NULL` instead of returning `NULL`; it returns
`NULL` on the empty registry and the job when the id is registered. -/
theorem C6_get_job_by_id_absent_id_null_dereference :
    get_job_by_id [sample_running_job] 2 = .error .null_dereference ∧
    get_job_by_id [] 2 = .ok none ∧
    get_job_by_id [sample_running_job] 1 = .ok (some 0) :=
  ⟨rfl, rfl, rfl⟩

/-! ## C7: lookups by pid -/

/-- C7: in a registry built by `insert_job` and `remove_job`, when some process of
a registered job has the pid, `get_job_by_pid` returns the first job in
registration order that holds such a process, `get_process_by_pid` returns a
process of that job whose pid is the given one, and `get_job_id_by_pid` returns
the id of that job; when no process of a registered job has the pid,
`get_process_by_pid` and `get_job_by_pid` return `NULL` and `get_job_id_by_pid`
returns -1. -/
theorem C7_lookup_by_pid (ops : List RegistryOp) (reg : Registry) (pid : Int)
    (h : run_ops ops [] = .ok reg) :
    ((∃ j ∈ reg, ∃ p ∈ j.processes, p.pid = pid) →
      ∃ k i j p,
        get_job_by_pid reg pid = .ok (some k) ∧
        get_process_by_pid reg pid = .ok (some (k, i)) ∧
        get_job_id_by_pid reg pid = j.id ∧
        reg[k]? = some j ∧ j.processes[i]? = some p ∧ p.pid = pid ∧
        (∀ k1 j1, k1 < k → reg[k1]? = some j1 → ∀ q ∈ j1.processes, q.pid ≠ pid)) ∧
    ((∀ j ∈ reg, ∀ p ∈ j.processes, p.pid ≠ pid) →
      get_process_by_pid reg pid = .ok none ∧
      get_job_by_pid reg pid = .ok none ∧
      get_job_id_by_pid reg pid = -1) := by
  have hinv := reachable_ids_increasing ops reg h
  constructor
  · intro hex
    obtain ⟨pre, x, post, hreg, hpre, hx⟩ :=
      exists_first_split (fun j : job => ∃ p ∈ j.processes, p.pid = pid) reg hex
    obtain ⟨ppre, q, ppost, hproc, hppre, hq⟩ :=
      exists_first_split (fun p : process => p.pid = pid) x.processes hx
    have hpre1 : ∀ y ∈ pre, ∀ r ∈ y.processes, r.pid ≠ pid :=
      fun y hy r hr hrp => hpre y hy ⟨r, hr, hrp⟩
    have hid : ∀ y ∈ pre, y.id ≠ x.id := by
      intro y hy
      have hp := hinv.1
      rw [hreg] at hp
      simp only [List.map_append, List.map_cons, List.pairwise_append, List.mem_map,
        List.mem_cons, forall_exists_index, and_imp] at hp
      exact ne_of_lt (hp.2.2 y.id y hy rfl x.id (Or.inl rfl))
    have hne : x.id ≠ -1 := by
      have := hinv.2 x (by rw [hreg]; simp)
      omega
    refine ⟨pre.length, ppre.length, x, q, ?_, ?_, ?_, ?_, ?_, hq, ?_⟩
    · rw [hreg]; exact get_job_by_pid_found pre post x pid hpre1 hx hid hne
    · rw [hreg]
      exact get_process_by_pid_found pre post x ppre ppost q pid hproc hq hppre hpre1 hid hne
    · rw [hreg]; exact get_job_id_by_pid_found pre post x pid hpre1 hx
    · rw [hreg]; exact getElem?_append_cons_length pre post x
    · rw [hproc]; exact getElem?_append_cons_length ppre ppost q
    · intro k1 j1 hk hj1
      rw [hreg, List.getElem?_append_left hk] at hj1
      exact hpre1 j1 (List.getElem?_mem hj1)
  · intro hno
    exact ⟨get_process_by_pid_absent reg pid hno, get_job_by_pid_absent reg pid hno,
      get_job_id_by_pid_absent reg pid hno⟩

/-- C7 at a registry with one running job: the lookups of its pid 100. -/
theorem C7_lookup_by_pid_witness :
    run_ops [.insert sample_running_job] [] = .ok [sample_running_job] ∧
    ∃ k i j p,
      get_job_by_pid [sample_running_job] 100 = .ok (some k) ∧
      get_process_by_pid [sample_running_job] 100 = .ok (some (k, i)) ∧
      get_job_id_by_pid [sample_running_job] 100 = j.id ∧
      [sample_running_job][k]? = some j ∧ j.processes[i]? = some p ∧ p.pid = 100 ∧
      (∀ k1 j1, k1 < k → [sample_running_job][k1]? = some j1 →
        ∀ q ∈ j1.processes, q.pid ≠ 100) :=
  ⟨rfl, (C7_lookup_by_pid [.insert sample_running_job] [sample_running_job] 100 rfl).1
    ⟨sample_running_job, List.mem_singleton.mpr rfl,
      { sample_process with pid := 100, status := STATUS_RUNNING },
      List.mem_singleton.mpr rfl, rfl⟩⟩

/-! ## The process with a pid, and updates of one status -/

theorem first_with_pid_in_found (ppre ppost : List process) (q : process) (pid : Int)
    (hppre : ∀ r ∈ ppre, r.pid ≠ pid) (hq : q.pid = pid) :
    first_with_pid_in (ppre ++ q :: ppost) pid = some ppre.length := by
  induction ppre with
  | nil => simp [first_with_pid_in, hq]
  | cons a rest ih =>
    have ha : a.pid ≠ pid := hppre a (List.mem_cons_self _ _)
    rw [List.cons_append, first_with_pid_in, if_neg ha,
      ih (fun r hr => hppre r (List.mem_cons_of_mem _ hr))]
    rfl

theorem first_with_pid_in_none (l : List process) (pid : Int)
    (h : ∀ r ∈ l, r.pid ≠ pid) : first_with_pid_in l pid = none := by
  induction l with
  | nil => rfl
  | cons a rest ih =>
    rw [first_with_pid_in, if_neg (h a (List.mem_cons_self _ _)),
      ih (fun r hr => h r (List.mem_cons_of_mem _ hr))]
    rfl

theorem first_with_pid_found (pre post : List job) (x : job) (ppre ppost : List process)
    (q : process) (pid : Int) (hx : x.processes = ppre ++ q :: ppost) (hq : q.pid = pid)
    (hppre : ∀ r ∈ ppre, r.pid ≠ pid)
    (hpre : ∀ y ∈ pre, ∀ r ∈ y.processes, r.pid ≠ pid) :
    first_with_pid (pre ++ x :: post) pid = some (pre.length, ppre.length) := by
  induction pre with
  | nil =>
    rw [List.nil_append, first_with_pid, hx, first_with_pid_in_found ppre ppost q pid hppre hq]
    rfl
  | cons a rest ih =>
    rw [List.cons_append, first_with_pid,
      first_with_pid_in_none a.processes pid (hpre a (List.mem_cons_self _ _)),
      ih (fun y hy => hpre y (List.mem_cons_of_mem _ hy))]
    rfl

theorem first_with_pid_none (reg : Registry) (pid : Int)
    (h : ∀ y ∈ reg, ∀ r ∈ y.processes, r.pid ≠ pid) : first_with_pid reg pid = none := by
  induction reg with
  | nil => rfl
  | cons a rest ih =>
    rw [first_with_pid, first_with_pid_in_none a.processes pid (h a (List.mem_cons_self _ _)),
      ih (fun y hy => h y (List.mem_cons_of_mem _ hy))]
    rfl

/-- In a registry whose ids are strictly increasing and positive, the pointers that
`get_process_by_pid` and `get_job_by_pid` return are those of the first process
with the pid and of its job. -/
theorem lookups_eq_first_with_pid (reg : Registry) (pid : Int)
    (hs : List.Pairwise (· < ·) (reg.map (fun x => x.id))) (hp : ∀ x ∈ reg, 1 ≤ x.id) :
    get_process_by_pid reg pid = .ok (first_with_pid reg pid) ∧
    get_job_by_pid reg pid = .ok ((first_with_pid reg pid).map (fun ki => ki.1)) := by
  by_cases hex : ∃ j ∈ reg, ∃ p ∈ j.processes, p.pid = pid
  · obtain ⟨pre, x, post, hreg, hpre, hx⟩ :=
      exists_first_split (fun j : job => ∃ p ∈ j.processes, p.pid = pid) reg hex
    obtain ⟨ppre, q, ppost, hproc, hppre, hq⟩ :=
      exists_first_split (fun p : process => p.pid = pid) x.processes hx
    have hpre1 : ∀ y ∈ pre, ∀ r ∈ y.processes, r.pid ≠ pid :=
      fun y hy r hr hrp => hpre y hy ⟨r, hr, hrp⟩
    have hid : ∀ y ∈ pre, y.id ≠ x.id := by
      intro y hy
      have hs1 := hs
      rw [hreg] at hs1
      simp only [List.map_append, List.map_cons, List.pairwise_append, List.mem_map,
        List.mem_cons, forall_exists_index, and_imp] at hs1
      exact ne_of_lt (hs1.2.2 y.id y hy rfl x.id (Or.inl rfl))
    have hne : x.id ≠ -1 := by
      have := hp x (by rw [hreg]; simp)
      omega
    rw [hreg, first_with_pid_found pre post x ppre ppost q pid hproc hq hppre hpre1,
      get_process_by_pid_found pre post x ppre ppost q pid hproc hq hppre hpre1 hid hne,
      get_job_by_pid_found pre post x pid hpre1 hx hid hne]
    exact ⟨rfl, rfl⟩
  · have hno : ∀ y ∈ reg, ∀ r ∈ y.processes, r.pid ≠ pid :=
      fun y hy r hr hrp => hex ⟨y, hy, r, hr, hrp⟩
    rw [first_with_pid_none reg pid hno, get_process_by_pid_absent reg pid hno,
      get_job_by_pid_absent reg pid hno]
    exact ⟨rfl, rfl⟩

theorem first_with_pid_in_modify_status (l : List process) (i : Nat) (pid : Int)
    (status : PROCESS_STATUS) :
    first_with_pid_in (modify_at (fun q => { q with status := status }) l i) pid
      = first_with_pid_in l pid := by
  induction l generalizing i with
  | nil => rfl
  | cons a rest ih =>
    cases i with
    | zero => simp only [modify_at, first_with_pid_in]
    | succ m => simp only [modify_at, first_with_pid_in, ih]

theorem first_with_pid_with_status_at (reg : Registry) (k i : Nat) (pid : Int)
    (status : PROCESS_STATUS) :
    first_with_pid (with_status_at reg k i status) pid = first_with_pid reg pid := by
  unfold with_status_at
  induction reg generalizing k with
  | nil => rfl
  | cons a rest ih =>
    cases k with
    | zero => simp only [modify_at, first_with_pid, first_with_pid_in_modify_status]
    | succ m => simp only [modify_at, first_with_pid, ih]

theorem with_status_at_ids (reg : Registry) (k i : Nat) (status : PROCESS_STATUS) :
    (with_status_at reg k i status).map (fun x => x.id) = reg.map (fun x => x.id) :=
  modify_at_map_eq _ _ reg k (fun _ => rfl)

theorem ids_pos_of_map (reg : Registry) (h : ∀ a ∈ reg.map (fun x => x.id), 1 ≤ a) :
    ∀ x ∈ reg, 1 ≤ x.id :=
  fun x hx => h x.id (List.mem_map_of_mem _ hx)

theorem set_process_status_ptr_eq (reg : Registry) (k i : Nat) (status : PROCESS_STATUS) :
    set_process_status_ptr reg (some (k, i)) status = .ok (with_status_at reg k i status) :=
  rfl

theorem status_at_with_status_at_ne (reg : Registry) (k i k1 i1 : Nat)
    (status : PROCESS_STATUS) (h : k1 ≠ k ∨ i1 ≠ i) :
    status_at (with_status_at reg k i status) k1 i1 = status_at reg k1 i1 := by
  unfold status_at with_status_at
  by_cases hk : k1 = k
  · subst hk
    have hi : i1 ≠ i := by
      rcases h with h | h
      · exact absurd rfl h
      · exact h
    rw [modify_at_getElem?]
    cases reg[k1]? with
    | none => rfl
    | some j => simp only [Option.map_some', modify_at_getElem?_ne _ _ _ _ hi]
  · rw [modify_at_getElem?_ne _ _ _ _ hk]

theorem status_at_with_status_at (reg : Registry) (k i : Nat) (status : PROCESS_STATUS)
    (h : (status_at reg k i).isSome) :
    status_at (with_status_at reg k i status) k i = some status := by
  unfold status_at with_status_at at *
  rw [modify_at_getElem?]
  cases hj : reg[k]? with
  | none => rw [hj] at h; cases h
  | some j =>
    rw [hj] at h
    simp only [Option.map_some', modify_at_getElem?]
    cases hq : j.processes[i]? with
    | none => simp only [hq] at h; cases h
    | some q => rfl

/-! ## The reads of `PROCESS_STATUS_STRING` -/

theorem has_status_string_iff (status : PROCESS_STATUS) :
    has_status_string status = true ↔ status ≠ STATUS_NEW ∧ status ≠ STATUS_READY := by
  cases status <;> simp [has_status_string, status_value, PROCESS_STATUS_STRING]

theorem has_status_string_settled (o : wait_outcome) :
    has_status_string (spec_settled_status o) = true := by
  cases o <;> rfl

theorem status_name_defined (status : PROCESS_STATUS)
    (h : status ≠ STATUS_NEW ∧ status ≠ STATUS_READY) :
    ∃ name, PROCESS_STATUS_STRING[status_value status]? = some name := by
  cases status
  · exact ⟨"running", rfl⟩
  · exact ⟨"done", rfl⟩
  · exact ⟨"suspended", rfl⟩
  · exact ⟨"continued", rfl⟩
  · exact ⟨"terminated", rfl⟩
  · exact absurd rfl h.1
  · exact absurd rfl h.2

theorem status_name_undefined (status : PROCESS_STATUS)
    (h : status = STATUS_NEW ∨ status = STATUS_READY) :
    PROCESS_STATUS_STRING[status_value status]? = none := by
  rcases h with h | h <;> subst h <;> rfl

theorem print_job_status_from_ok (l : List process)
    (h : ∀ p ∈ l, p.status ≠ STATUS_NEW ∧ p.status ≠ STATUS_READY) :
    ∃ text, print_job_status_from l = .ok text := by
  induction l with
  | nil => exact ⟨"", rfl⟩
  | cons p rest ih =>
    obtain ⟨name, hname⟩ := status_name_defined p.status (h p (List.mem_cons_self _ _))
    obtain ⟨tail, htail⟩ := ih (fun q hq => h q (List.mem_cons_of_mem _ hq))
    simp only [print_job_status_from, hname, htail, Except.map]
    exact ⟨_, rfl⟩

theorem print_job_status_from_out_of_bounds (l : List process)
    (h : ∃ p ∈ l, p.status = STATUS_NEW ∨ p.status = STATUS_READY) :
    print_job_status_from l = .error .out_of_bounds := by
  induction l with
  | nil =>
    obtain ⟨p, hp, _⟩ := h
    cases hp
  | cons p rest ih =>
    by_cases hp : p.status = STATUS_NEW ∨ p.status = STATUS_READY
    · simp only [print_job_status_from, status_name_undefined p.status hp]
    · have hrest : ∃ q ∈ rest, q.status = STATUS_NEW ∨ q.status = STATUS_READY := by
        obtain ⟨q, hq, hq2⟩ := h
        simp only [List.mem_cons] at hq
        rcases hq with rfl | hq
        · exact absurd hq2 hp
        · exact ⟨q, hq, hq2⟩
      obtain ⟨name, hname⟩ := status_name_defined p.status
        ⟨fun e => hp (Or.inl e), fun e => hp (Or.inr e)⟩
      simp only [print_job_status_from, hname, ih hrest, Except.map]

/-- The function `print_job_status` reads inside `PROCESS_STATUS_STRING` when
every process of the job has a status with an entry. -/
theorem print_job_status_ok (j : job)
    (h : ∀ p ∈ j.processes, has_status_string p.status = true) :
    ∃ text, print_job_status j = .ok text := by
  obtain ⟨body, hbody⟩ := print_job_status_from_ok j.processes
    (fun p hp => (has_status_string_iff p.status).mp (h p hp))
  simp only [print_job_status, hbody, Except.map]
  exact ⟨_, rfl⟩

/-- The function `print_job_status` reads past the end of `PROCESS_STATUS_STRING`
when a process of the job is New or Ready. -/
theorem print_job_status_out_of_bounds (j : job)
    (h : ∃ p ∈ j.processes, has_status_string p.status = false) :
    print_job_status j = .error .out_of_bounds := by
  obtain ⟨p, hp, hps⟩ := h
  have hp2 : p.status = STATUS_NEW ∨ p.status = STATUS_READY := by
    by_contra hc
    have := (has_status_string_iff p.status).mpr
      ⟨fun e => hc (Or.inl e), fun e => hc (Or.inr e)⟩
    rw [this] at hps
    cases hps
  simp only [print_job_status, print_job_status_from_out_of_bounds j.processes ⟨p, hp, hp2⟩,
    Except.map]

/-- The listing is written without a read past the end of `PROCESS_STATUS_STRING`
when no registered process is New or Ready. -/
theorem print_job_all_status_ok (reg : Registry)
    (h : ∀ j ∈ reg, ∀ p ∈ j.processes, p.status ≠ STATUS_NEW ∧ p.status ≠ STATUS_READY) :
    ∃ text, print_job_all_status reg = .ok text := by
  have hfrom : ∃ text, print_job_all_status_from reg = .ok text := by
    induction reg with
    | nil => exact ⟨"", rfl⟩
    | cons j rest ih =>
      obtain ⟨body, hbody⟩ := print_job_status_from_ok j.processes (h j (List.mem_cons_self _ _))
      obtain ⟨tail, htail⟩ := ih (fun x hx => h x (List.mem_cons_of_mem _ hx))
      simp only [print_job_all_status_from, print_job_status, hbody, htail, Except.map]
      exact ⟨_, rfl⟩
  obtain ⟨text, htext⟩ := hfrom
  simp only [print_job_all_status, htext, Except.map]
  exact ⟨_, rfl⟩

/-- The listing reads past the end of `PROCESS_STATUS_STRING` as soon as a
registered process is New or Ready. -/
theorem print_job_all_status_out_of_bounds (reg : Registry)
    (h : ∃ j ∈ reg, ∃ p ∈ j.processes, p.status = STATUS_NEW ∨ p.status = STATUS_READY) :
    print_job_all_status reg = .error .out_of_bounds := by
  have hfrom : print_job_all_status_from reg = .error .out_of_bounds := by
    induction reg with
    | nil =>
      obtain ⟨j, hj, _⟩ := h
      cases hj
    | cons j rest ih =>
      by_cases hj : ∃ p ∈ j.processes, p.status = STATUS_NEW ∨ p.status = STATUS_READY
      · simp only [print_job_all_status_from, print_job_status,
          print_job_status_from_out_of_bounds j.processes hj, Except.map]
      · have hrest : ∃ x ∈ rest, ∃ p ∈ x.processes,
            p.status = STATUS_NEW ∨ p.status = STATUS_READY := by
          obtain ⟨x, hx, hx2⟩ := h
          simp only [List.mem_cons] at hx
          rcases hx with rfl | hx
          · exact absurd hx2 hj
          · exact ⟨x, hx, hx2⟩
        obtain ⟨body, hbody⟩ := print_job_status_from_ok j.processes
          (fun p hp => ⟨fun e => hj ⟨p, hp, Or.inl e⟩, fun e => hj ⟨p, hp, Or.inr e⟩⟩)
        simp only [print_job_all_status_from, print_job_status, hbody, ih hrest, Except.map]
  simp only [print_job_all_status, hfrom, Except.map]

/-! ## The wait statuses of the three outcomes -/

theorem raw_exited_tests (code : Nat) : WIFEXITED (wait_outcome.exited code).raw = true := by
  simp only [WIFEXITED, WTERMSIG, wait_outcome.raw, W_EXITCODE, decide_eq_true_eq]
  omega

theorem raw_signaled_tests (sig : Nat) (core : Bool) (h : 1 ≤ sig ∧ sig ≤ 126) :
    WIFEXITED (wait_outcome.signaled sig core).raw = false ∧
    WIFSIGNALED (wait_outcome.signaled sig core).raw = true := by
  constructor
  · simp only [WIFEXITED, WTERMSIG, wait_outcome.raw, W_EXITCODE, decide_eq_false_iff_not]
    cases core <;> simp <;> omega
  · simp only [WIFSIGNALED, to_signed_char, wait_outcome.raw, W_EXITCODE, decide_eq_true_eq]
    cases core <;> simp <;> split_ifs <;> omega

theorem raw_stopped_tests (sig : Nat) (h : 1 ≤ sig ∧ sig ≤ 255) :
    WIFEXITED (wait_outcome.stopped sig).raw = false ∧
    WIFSIGNALED (wait_outcome.stopped sig).raw = false ∧
    WSTOPSIG (wait_outcome.stopped sig).raw ≠ 0 := by
  refine ⟨?_, ?_, ?_⟩
  · simp only [WIFEXITED, WTERMSIG, wait_outcome.raw, W_STOPCODE, decide_eq_false_iff_not]
    omega
  · simp only [WIFSIGNALED, to_signed_char, wait_outcome.raw, W_STOPCODE,
      decide_eq_false_iff_not]
    split_ifs <;> omega
  · simp only [WSTOPSIG, WEXITSTATUS, wait_outcome.raw, W_STOPCODE]
    omega

/-- The body of the loop of `wait_for_job` on the status of a valid outcome, for a
process that the lookup found: the status of the rule is stored and the value of
the rule is left in `status`, provided the status names can be read when the job
is printed (after a stop, at the last wait). -/
theorem wait_for_job_classify_outcome (reg : Registry) (k kp i : Nat) (o : wait_outcome)
    (wait_count proc_count : Int) (hv : o.valid = true)
    (hpr : o.is_stop = true → wait_count = proc_count →
      ∃ jb text, (with_status_at reg kp i (spec_settled_status o))[k]? = some jb ∧
        print_job_status jb = .ok text) :
    wait_for_job_classify reg k (some (kp, i)) o.raw wait_count proc_count
      = .ok (with_status_at reg kp i (spec_settled_status o), spec_returned_status o) := by
  unfold wait_for_job_classify
  simp only [set_process_status_ptr_eq, Except.map]
  cases o with
  | exited code =>
    simp only [raw_exited_tests code, if_true, spec_settled_status, spec_returned_status]
  | signaled sig core =>
    simp only [wait_outcome.valid, decide_eq_true_eq] at hv
    obtain ⟨h1, h2⟩ := raw_signaled_tests sig core hv
    simp [h1, h2, spec_settled_status, spec_returned_status]
  | stopped sig =>
    simp only [wait_outcome.valid, decide_eq_true_eq] at hv
    obtain ⟨h1, h2, h3⟩ := raw_stopped_tests sig hv
    by_cases hw : wait_count = proc_count
    · obtain ⟨jb, text, hjb, htext⟩ := hpr rfl hw
      simp only [spec_settled_status] at hjb
      simp [h1, h2, h3, hw, hjb, htext, spec_settled_status, spec_returned_status]
    · simp [h1, h2, h3, hw, spec_settled_status, spec_returned_status]

theorem wait_for_process_outcome (p : process) (e : wait_event) (ws : List wait_result)
    (hpid : 0 < e.1) (hv : e.2.valid = true) :
    wait_for_process p (wait_event_result e :: ws)
      = .ok ({ p with status := spec_settled_status e.2 }, spec_returned_status e.2) := by
  have hst : status_after_waitpid 0 (wait_event_result e) = e.2.raw := by
    simp only [status_after_waitpid, wait_event_result, if_pos hpid]
  unfold wait_for_process
  simp only [hst, set_process_status]
  cases ho : e.2 with
  | exited code =>
    simp [raw_exited_tests code, spec_settled_status, spec_returned_status]
  | signaled sig core =>
    rw [ho] at hv
    simp only [wait_outcome.valid, decide_eq_true_eq] at hv
    obtain ⟨h1, h2⟩ := raw_signaled_tests sig core hv
    simp [h1, h2, spec_settled_status, spec_returned_status]
  | stopped sig =>
    rw [ho] at hv
    simp only [wait_outcome.valid, decide_eq_true_eq] at hv
    obtain ⟨h1, h2, h3⟩ := raw_stopped_tests sig hv
    simp [h1, h2, h3, spec_settled_status, spec_returned_status]

/-! ## The loop of `wait_for_job` -/

theorem first_with_pid_position (reg : Registry) (pid : Int) (k i : Nat)
    (h : first_with_pid reg pid = some (k, i)) :
    ∃ jb q, reg[k]? = some jb ∧ jb.processes[i]? = some q ∧ q.pid = pid := by
  by_cases hex : ∃ j ∈ reg, ∃ p ∈ j.processes, p.pid = pid
  · obtain ⟨pre, x, post, hreg, hpre, hx⟩ :=
      exists_first_split (fun j : job => ∃ p ∈ j.processes, p.pid = pid) reg hex
    obtain ⟨ppre, q, ppost, hproc, hppre, hq⟩ :=
      exists_first_split (fun p : process => p.pid = pid) x.processes hx
    have hpre1 : ∀ y ∈ pre, ∀ r ∈ y.processes, r.pid ≠ pid :=
      fun y hy r hr hrp => hpre y hy ⟨r, hr, hrp⟩
    rw [hreg, first_with_pid_found pre post x ppre ppost q pid hproc hq hppre hpre1] at h
    simp only [Option.some.injEq, Prod.mk.injEq] at h
    refine ⟨x, q, ?_, ?_, hq⟩
    · rw [hreg, ← h.1]; exact getElem?_append_cons_length pre post x
    · rw [hproc, ← h.2]; exact getElem?_append_cons_length ppre ppost q
  · have hno : ∀ y ∈ reg, ∀ r ∈ y.processes, r.pid ≠ pid :=
      fun y hy r hr hrp => hex ⟨y, hy, r, hr, hrp⟩
    rw [first_with_pid_none reg pid hno] at h
    cases h

theorem first_with_pid_isSome (reg : Registry) (pid : Int)
    (hex : ∃ j ∈ reg, ∃ p ∈ j.processes, p.pid = pid) :
    (first_with_pid reg pid).isSome = true := by
  obtain ⟨pre, x, post, hreg, hpre, hx⟩ :=
    exists_first_split (fun j : job => ∃ p ∈ j.processes, p.pid = pid) reg hex
  obtain ⟨ppre, q, ppost, hproc, hppre, hq⟩ :=
    exists_first_split (fun p : process => p.pid = pid) x.processes hx
  have hpre1 : ∀ y ∈ pre, ∀ r ∈ y.processes, r.pid ≠ pid :=
    fun y hy r hr hrp => hpre y hy ⟨r, hr, hrp⟩
  rw [hreg, first_with_pid_found pre post x ppre ppost q pid hproc hq hppre hpre1]
  rfl

/-- The first process with a pid is, in its job, the first process of that job
with the pid. -/
theorem first_with_pid_in_of_first (reg : Registry) (pid : Int) (k i : Nat) (jb : job)
    (h : first_with_pid reg pid = some (k, i)) (hjb : reg[k]? = some jb) :
    first_with_pid_in jb.processes pid = some i := by
  induction reg generalizing k with
  | nil => cases h
  | cons a rest ih =>
    rw [first_with_pid] at h
    cases hin : first_with_pid_in a.processes pid with
    | some i0 =>
      rw [hin] at h
      simp only [Option.some.injEq, Prod.mk.injEq] at h
      obtain ⟨h1, h2⟩ := h
      subst h1
      simp only [List.getElem?_cons_zero, Option.some.injEq] at hjb
      rw [← hjb, hin, h2]
    | none =>
      rw [hin] at h
      cases hr : first_with_pid rest pid with
      | none => rw [hr] at h; cases h
      | some ki =>
        rw [hr] at h
        simp only [Option.map_some', Option.some.injEq, Prod.mk.injEq] at h
        obtain ⟨h1, h2⟩ := h
        subst h1
        rw [List.getElem?_cons_succ] at hjb
        exact ih ki.1 (by rw [hr, ← h2]) hjb

/-- When no job registered before the job at position `k` holds the pid and a
process of that job does, the first process with the pid is a process of that
job. -/
theorem first_with_pid_of_job (reg : Registry) (pid : Int) (k : Nat) (jb : job)
    (hjb : reg[k]? = some jb) (hin : ∃ p ∈ jb.processes, p.pid = pid)
    (hno : ∀ k1 j1, k1 < k → reg[k1]? = some j1 → ∀ q ∈ j1.processes, q.pid ≠ pid) :
    ∃ i, first_with_pid reg pid = some (k, i) ∧ first_with_pid_in jb.processes pid = some i := by
  obtain ⟨hreg, hlen⟩ := eq_take_append_cons_drop reg k jb hjb
  obtain ⟨ppre, q, ppost, hproc, hppre, hq⟩ :=
    exists_first_split (fun p : process => p.pid = pid) jb.processes hin
  have hpre : ∀ y ∈ reg.take k, ∀ r ∈ y.processes, r.pid ≠ pid := by
    intro y hy
    obtain ⟨n, hn, hyn⟩ := List.getElem_of_mem hy
    have hnk : n < k := by rw [List.length_take] at hn; omega
    have hget : reg[n]? = some y := by
      rw [← hyn, List.getElem_take, List.getElem?_eq_getElem]
    exact hno n y hnk hget
  have h1 := first_with_pid_found (reg.take k) (reg.drop (k + 1)) jb ppre ppost q pid hproc hq
    hppre hpre
  rw [← hreg, hlen] at h1
  exact ⟨ppre.length, h1, by rw [hproc]; exact first_with_pid_in_found ppre ppost q pid hppre hq⟩

theorem spec_wait_effect_cons (reg : Registry) (e : wait_event) (es : List wait_event) :
    spec_wait_effect reg (e :: es) = spec_wait_effect (spec_settle reg e) es := rfl

theorem spec_wait_return_cons (e : wait_event) (es : List wait_event) (h : es ≠ []) :
    spec_wait_return (e :: es) = spec_wait_return es := by
  cases es with
  | nil => exact absurd rfl h
  | cons a r => simp only [spec_wait_return, List.getLast?_cons_cons]

theorem with_status_at_getElem? (reg : Registry) (k kp i : Nat) (st : PROCESS_STATUS)
    (jb : job) (hjb : reg[k]? = some jb) :
    ∃ jb1, (with_status_at reg kp i st)[k]? = some jb1 ∧ jb1.id = jb.id ∧
      jb1.mode = jb.mode ∧ jb1.pgid = jb.pgid ∧
      jb1.processes.map (fun q => q.pid) = jb.processes.map (fun q => q.pid) ∧
      (has_status_string st = true →
        (∀ p ∈ jb.processes, has_status_string p.status = true) →
        ∀ p ∈ jb1.processes, has_status_string p.status = true) := by
  unfold with_status_at
  by_cases hk : k = kp
  · subst hk
    rw [modify_at_getElem?, hjb]
    refine ⟨_, rfl, rfl, rfl, rfl, modify_at_map_eq _ _ _ _ (fun _ => rfl), ?_⟩
    intro hst hpr p hp
    rcases mem_modify_at _ _ _ _ hp with h1 | ⟨y, _, hy⟩
    · exact hpr p h1
    · rw [hy]
      exact hst
  · rw [modify_at_getElem?_ne _ _ _ _ hk, hjb]
    exact ⟨jb, rfl, rfl, rfl, rfl, rfl, fun _ hpr => hpr⟩

theorem spec_settle_getElem? (reg : Registry) (k : Nat) (e : wait_event) (jb : job)
    (hjb : reg[k]? = some jb) :
    ∃ jb1, (spec_settle reg e)[k]? = some jb1 ∧ jb1.id = jb.id ∧ jb1.mode = jb.mode ∧
      jb1.pgid = jb.pgid ∧
      jb1.processes.map (fun q => q.pid) = jb.processes.map (fun q => q.pid) ∧
      ((∀ p ∈ jb.processes, has_status_string p.status = true) →
        ∀ p ∈ jb1.processes, has_status_string p.status = true) := by
  unfold spec_settle
  cases first_with_pid reg e.1 with
  | none => exact ⟨jb, hjb, rfl, rfl, rfl, rfl, fun h => h⟩
  | some ki =>
    obtain ⟨kp, i⟩ := ki
    obtain ⟨jb1, h1, h2, h3, h4, h5, h6⟩ :=
      with_status_at_getElem? reg k kp i (spec_settled_status e.2) jb hjb
    exact ⟨jb1, h1, h2, h3, h4, h5, h6 (has_status_string_settled e.2)⟩

/-- One turn of the loop of `wait_for_job` for an observed outcome whose pid a
registered process holds: the lookup and the update are those of `spec_settle`. -/
theorem wait_for_job_turn (reg : Registry) (k : Nat) (e : wait_event)
    (status wait_count proc_count : Int)
    (hs : List.Pairwise (· < ·) (reg.map (fun x => x.id))) (hp : ∀ x ∈ reg, 1 ≤ x.id)
    (hpid : 0 < e.1) (hv : e.2.valid = true) (hf : (first_with_pid reg e.1).isSome = true)
    (hpr : e.2.is_stop = true → wait_count = proc_count →
      ∃ jb, reg[k]? = some jb ∧ ∀ p ∈ jb.processes, has_status_string p.status = true) :
    get_process_by_pid reg (wait_event_result e).pid = .ok (first_with_pid reg e.1) ∧
    wait_for_job_classify reg k (first_with_pid reg e.1)
        (status_after_waitpid status (wait_event_result e)) wait_count proc_count
      = .ok (spec_settle reg e, spec_returned_status e.2) := by
  refine ⟨(lookups_eq_first_with_pid reg e.1 hs hp).1, ?_⟩
  have hst : status_after_waitpid status (wait_event_result e) = e.2.raw := by
    simp only [status_after_waitpid, wait_event_result, if_pos hpid]
  rw [hst]
  have hpr1 : e.2.is_stop = true → wait_count = proc_count →
      ∃ jb text, (spec_settle reg e)[k]? = some jb ∧ print_job_status jb = .ok text := by
    intro h1 h2
    obtain ⟨jb, hjb, hprint⟩ := hpr h1 h2
    obtain ⟨jb1, hjb1, _, _, _, _, h6⟩ := spec_settle_getElem? reg k e jb hjb
    obtain ⟨text, htext⟩ := print_job_status_ok jb1 (h6 hprint)
    exact ⟨jb1, text, hjb1, htext⟩
  unfold spec_settle at hpr1 ⊢
  cases hfp : first_with_pid reg e.1 with
  | none => rw [hfp] at hf; cases hf
  | some ki =>
    obtain ⟨kp, i⟩ := ki
    rw [hfp] at hpr1
    exact wait_for_job_classify_outcome reg k kp i e.2 wait_count proc_count hv hpr1

theorem spec_settle_invariants (reg : Registry) (e : wait_event)
    (hs : List.Pairwise (· < ·) (reg.map (fun x => x.id))) (hp : ∀ x ∈ reg, 1 ≤ x.id) :
    List.Pairwise (· < ·) ((spec_settle reg e).map (fun x => x.id)) ∧
    (∀ x ∈ spec_settle reg e, 1 ≤ x.id) ∧
    (∀ pid, first_with_pid (spec_settle reg e) pid = first_with_pid reg pid) := by
  unfold spec_settle
  cases first_with_pid reg e.1 with
  | none => exact ⟨hs, hp, fun _ => rfl⟩
  | some ki =>
    obtain ⟨k, i⟩ := ki
    simp only
    refine ⟨by rw [with_status_at_ids]; exact hs, ?_,
      fun pid => first_with_pid_with_status_at reg k i pid _⟩
    apply ids_pos_of_map
    rw [with_status_at_ids]
    intro a ha
    obtain ⟨x, hx, rfl⟩ := List.mem_map.mp ha
    exact hp x hx

/-- The loop of `wait_for_job` on the wait results of a sequence of observed
outcomes, each for a pid that a registered process holds: it consumes them all
when their number is the number of turns of the loop, applies `spec_settle` for
each in turn and leaves the value of the last one in `status`. When the last
outcome is a stop the job is printed, and its processes must have statuses with a
name. -/
theorem wait_for_job_loop_events (events : List wait_event) (rest : List wait_result)
    (reg : Registry) (k : Nat) (proc_count wait_count status : Int)
    (hs : List.Pairwise (· < ·) (reg.map (fun x => x.id))) (hp : ∀ x ∈ reg, 1 ≤ x.id)
    (hev : ∀ e ∈ events, 0 < e.1 ∧ e.2.valid = true ∧ (first_with_pid reg e.1).isSome = true)
    (hne : events ≠ [])
    (hlen : wait_count + events.length = max (wait_count + 1) proc_count)
    (hpr : ∀ e, events.getLast? = some e → e.2.is_stop = true →
      ∃ jb, reg[k]? = some jb ∧ ∀ p ∈ jb.processes, has_status_string p.status = true) :
    wait_for_job_loop (events.map wait_event_result ++ rest) reg k proc_count wait_count status
      = .ok (spec_wait_effect reg events, spec_wait_return events, rest) := by
  induction events generalizing reg wait_count status with
  | nil => exact absurd rfl hne
  | cons e es ih =>
    obtain ⟨hpid, hv, hf⟩ := hev e (List.mem_cons_self _ _)
    simp only [List.length_cons, Nat.cast_add, Nat.cast_one] at hlen
    obtain ⟨hs1, hp1, hfirst⟩ := spec_settle_invariants reg e hs hp
    by_cases hmore : wait_count + 1 < proc_count
    · obtain ⟨hlook, hcls⟩ := wait_for_job_turn reg k e status (wait_count + 1) proc_count
        hs hp hpid hv hf (fun _ h2 => by omega)
      simp only [List.map_cons, List.cons_append, wait_for_job_loop, hlook, hcls,
        List.append_eq]
      rw [if_pos hmore]
      have hes : es ≠ [] := by
        rintro rfl
        simp only [List.length_nil, Nat.cast_zero] at hlen
        omega
      rw [ih (spec_settle reg e) (wait_count + 1) (spec_returned_status e.2) hs1 hp1
        (fun a ha => by
          obtain ⟨h1, h2, h3⟩ := hev a (List.mem_cons_of_mem _ ha)
          exact ⟨h1, h2, by rw [hfirst]; exact h3⟩)
        hes (by omega)
        (fun a ha hstop => by
          have hlast : (e :: es).getLast? = some a := by
            cases es with
            | nil => exact absurd rfl hes
            | cons b r => rw [List.getLast?_cons_cons]; exact ha
          obtain ⟨jb, hjb, hprint⟩ := hpr a hlast hstop
          obtain ⟨jb1, hjb1, _, _, _, _, h6⟩ := spec_settle_getElem? reg k e jb hjb
          exact ⟨jb1, hjb1, h6 hprint⟩)]
      rw [spec_wait_effect_cons, spec_wait_return_cons e es hes]
    · have hes : es = [] := by
        have : (es.length : Int) = 0 := by omega
        exact List.length_eq_zero.mp (by exact_mod_cast this)
      subst hes
      obtain ⟨hlook, hcls⟩ := wait_for_job_turn reg k e status (wait_count + 1) proc_count
        hs hp hpid hv hf (fun h1 _ => hpr e rfl h1)
      simp only [List.map_cons, List.cons_append, wait_for_job_loop, hlook, hcls,
        List.append_eq, List.map_nil, List.nil_append]
      rw [if_neg hmore]
      rfl

theorem wait_for_job_loop_short (events : List wait_event) (reg : Registry) (k : Nat)
    (proc_count wait_count status : Int)
    (hs : List.Pairwise (· < ·) (reg.map (fun x => x.id))) (hp : ∀ x ∈ reg, 1 ≤ x.id)
    (hev : ∀ e ∈ events, 0 < e.1 ∧ e.2.valid = true ∧ (first_with_pid reg e.1).isSome = true)
    (hlen : wait_count + events.length < max (wait_count + 1) proc_count) :
    wait_for_job_loop (events.map wait_event_result) reg k proc_count wait_count status
      = .error .waits_forever := by
  induction events generalizing reg wait_count status with
  | nil => rfl
  | cons e es ih =>
    obtain ⟨hpid, hv, hf⟩ := hev e (List.mem_cons_self _ _)
    simp only [List.length_cons, Nat.cast_add, Nat.cast_one] at hlen
    obtain ⟨hlook, hcls⟩ := wait_for_job_turn reg k e status (wait_count + 1) proc_count
      hs hp hpid hv hf (fun _ h2 => by omega)
    obtain ⟨hs1, hp1, hfirst⟩ := spec_settle_invariants reg e hs hp
    simp only [List.map_cons, wait_for_job_loop, hlook, hcls]
    rw [if_pos (by omega)]
    exact ih (spec_settle reg e) (wait_count + 1) (spec_returned_status e.2) hs1 hp1
      (fun a ha => by
        obtain ⟨h1, h2, h3⟩ := hev a (List.mem_cons_of_mem _ ha)
        exact ⟨h1, h2, by rw [hfirst]; exact h3⟩)
      (by omega)

theorem events_of_job_found (reg : Registry) (k : Nat) (j : job) (events : List wait_event)
    (hk : reg[k]? = some j)
    (hev : ∀ e ∈ events, 0 < e.1 ∧ e.2.valid = true ∧ ∃ p ∈ j.processes, p.pid = e.1) :
    ∀ e ∈ events, 0 < e.1 ∧ e.2.valid = true ∧ (first_with_pid reg e.1).isSome = true := by
  intro e he
  obtain ⟨h1, h2, p, hp, hpp⟩ := hev e he
  exact ⟨h1, h2, first_with_pid_isSome reg e.1 ⟨j, List.getElem?_mem hk, p, hp, hpp⟩⟩

/-- The function `wait_for_job` on the wait results of a sequence of observed
outcomes for pids of processes of the job, in a registry with strictly increasing
positive ids. -/
theorem wait_for_job_events (reg : Registry) (k : Nat) (j : job) (events : List wait_event)
    (rest : List wait_result)
    (hs : List.Pairwise (· < ·) (reg.map (fun x => x.id))) (hp : ∀ x ∈ reg, 1 ≤ x.id)
    (hk : reg[k]? = some j)
    (hev : ∀ e ∈ events, 0 < e.1 ∧ e.2.valid = true ∧ ∃ p ∈ j.processes, p.pid = e.1)
    (hlen : (events.length : Int) = max 1 (get_processes_count j PROC_FILTER_REMAINING))
    (hpr : ∀ e, events.getLast? = some e → e.2.is_stop = true →
      ∀ p ∈ j.processes, has_status_string p.status = true) :
    wait_for_job reg k (events.map wait_event_result ++ rest)
      = .ok (spec_wait_effect reg events, spec_wait_return events, rest) := by
  unfold wait_for_job
  rw [hk]
  have hne : events ≠ [] := by
    rintro rfl
    simp only [List.length_nil, Nat.cast_zero] at hlen
    omega
  exact wait_for_job_loop_events events rest reg k _ 0 0 hs hp
    (events_of_job_found reg k j events hk hev) hne (by omega)
    (fun e he hstop => ⟨j, hk, hpr e he hstop⟩)

/-- The effect of the outcomes on the registry is their effect on the waited job
when every outcome is for the pid of a process of that job and no job registered
before it holds that pid. -/
theorem spec_wait_effect_eq_job (events : List wait_event) (reg : Registry) (k : Nat)
    (hev : ∀ e ∈ events, ∃ i, first_with_pid reg e.1 = some (k, i)) :
    spec_wait_effect reg events = spec_wait_effect_job reg k events := by
  induction events generalizing reg with
  | nil => rfl
  | cons e es ih =>
    obtain ⟨i, hi⟩ := hev e (List.mem_cons_self _ _)
    obtain ⟨jb, q, hjb, _, _⟩ := first_with_pid_position reg e.1 k i hi
    have hin := first_with_pid_in_of_first reg e.1 k i jb hi hjb
    have hstep : spec_settle reg e = spec_settle_job reg k e := by
      unfold spec_settle spec_settle_job
      rw [hi, hjb]
      simp only [hin]
    have hfirst : ∀ pid, first_with_pid (spec_settle reg e) pid = first_with_pid reg pid := by
      intro pid
      unfold spec_settle
      rw [hi]
      exact first_with_pid_with_status_at reg k i pid _
    show spec_wait_effect (spec_settle reg e) es = spec_wait_effect_job (spec_settle_job reg k e) k es
    rw [← hstep]
    exact ih (spec_settle reg e) (fun a ha => by
      obtain ⟨i1, hi1⟩ := hev a (List.mem_cons_of_mem _ ha)
      exact ⟨i1, by rw [hfirst]; exact hi1⟩)

/-! ## What the waits and the launches leave in place -/

theorem with_status_at_frame (reg : Registry) (k i : Nat) (status : PROCESS_STATUS) :
    (with_status_at reg k i status).map job_frame = reg.map job_frame :=
  modify_at_map_eq _ _ reg k (fun _ => rfl)

theorem record_child_frame (reg : Registry) (k i : Nat) (childpid : Int) :
    (record_child reg k i childpid).map job_frame = reg.map job_frame :=
  modify_at_map_eq _ _ reg k (fun _ => rfl)

theorem set_process_status_ptr_frame (reg reg1 : Registry) (p : Option (Nat × Nat))
    (status : PROCESS_STATUS) (h : set_process_status_ptr reg p status = .ok reg1) :
    reg1.map job_frame = reg.map job_frame := by
  cases p with
  | none => cases h
  | some ki =>
    obtain ⟨k, i⟩ := ki
    rw [set_process_status_ptr_eq] at h
    injection h with h
    rw [← h]
    exact with_status_at_frame reg k i status

theorem wait_for_job_classify_frame (reg reg1 : Registry) (k : Nat) (p : Option (Nat × Nat))
    (status wait_count proc_count s : Int)
    (h : wait_for_job_classify reg k p status wait_count proc_count = .ok (reg1, s)) :
    reg1.map job_frame = reg.map job_frame ∧ s = status_after_turn status := by
  unfold wait_for_job_classify at h
  unfold status_after_turn
  by_cases h1 : WIFEXITED status = true
  · rw [if_pos h1] at h
    rw [if_pos h1]
    cases hset : set_process_status_ptr reg p STATUS_DONE with
    | error e => rw [hset] at h; cases h
    | ok r =>
      rw [hset] at h
      simp only [Except.map, Except.ok.injEq, Prod.mk.injEq] at h
      rw [← h.1, ← h.2]
      exact ⟨set_process_status_ptr_frame reg r p _ hset, rfl⟩
  · rw [if_neg h1] at h
    rw [if_neg h1]
    by_cases h2 : WIFSIGNALED status = true
    · rw [if_pos h2] at h
      rw [if_pos h2]
      cases hset : set_process_status_ptr reg p STATUS_TERMINATED with
      | error e => rw [hset] at h; cases h
      | ok r =>
        rw [hset] at h
        simp only [Except.map, Except.ok.injEq, Prod.mk.injEq] at h
        rw [← h.1, ← h.2]
        exact ⟨set_process_status_ptr_frame reg r p _ hset, rfl⟩
    · rw [if_neg h2] at h
      rw [if_neg h2]
      by_cases h3 : WSTOPSIG status ≠ 0
      · rw [if_pos h3] at h
        rw [if_pos h3]
        cases hset : set_process_status_ptr reg p STATUS_SUSPENDED with
        | error e => rw [hset] at h; cases h
        | ok r =>
          rw [hset] at h
          simp only at h
          have hfr := set_process_status_ptr_frame reg r p _ hset
          by_cases hw : wait_count = proc_count
          · rw [if_pos hw] at h
            cases hjb : r[k]? with
            | none => rw [hjb] at h; cases h
            | some jb =>
              rw [hjb] at h
              simp only at h
              cases hpr : print_job_status jb with
              | error e => rw [hpr] at h; cases h
              | ok text =>
                rw [hpr] at h
                simp only [Except.map, Except.ok.injEq, Prod.mk.injEq] at h
                rw [← h.1, ← h.2]
                exact ⟨hfr, rfl⟩
          · rw [if_neg hw] at h
            simp only [Except.ok.injEq, Prod.mk.injEq] at h
            rw [← h.1, ← h.2]
            exact ⟨hfr, rfl⟩
      · rw [if_neg h3] at h
        rw [if_neg h3]
        simp only [Except.ok.injEq, Prod.mk.injEq] at h
        rw [← h.1, ← h.2]
        exact ⟨rfl, rfl⟩

/-- A call of the loop of `wait_for_job` that returns leaves the ids and the modes
of the registered jobs in place; the value it returns is the one that the turn of
the last wait result consumed leaves in `status`. -/
theorem wait_for_job_loop_frame (ws : List wait_result) (reg reg1 : Registry) (k : Nat)
    (proc_count wait_count status s : Int) (ws1 : List wait_result)
    (h : wait_for_job_loop ws reg k proc_count wait_count status = .ok (reg1, s, ws1)) :
    reg1.map job_frame = reg.map job_frame ∧
    ∃ consumed w st0, ws = consumed ++ w :: ws1 ∧
      s = status_after_turn (status_after_waitpid st0 w) := by
  induction ws generalizing reg wait_count status with
  | nil => cases h
  | cons w rest ih =>
    rw [wait_for_job_loop] at h
    cases hl : get_process_by_pid reg w.pid with
    | error e => rw [hl] at h; cases h
    | ok p =>
      rw [hl] at h
      simp only at h
      cases hc : wait_for_job_classify reg k p (status_after_waitpid status w)
          (wait_count + 1) proc_count with
      | error e => rw [hc] at h; cases h
      | ok rs =>
        obtain ⟨r, s1⟩ := rs
        rw [hc] at h
        simp only at h
        obtain ⟨hfr, hs1⟩ := wait_for_job_classify_frame reg r k p _ _ _ s1 hc
        by_cases hmore : wait_count + 1 < proc_count
        · rw [if_pos hmore] at h
          obtain ⟨hfr2, consumed, w2, st0, hws, hs⟩ := ih r (wait_count + 1) s1 h
          exact ⟨by rw [hfr2, hfr], w :: consumed, w2, st0, by rw [hws]; rfl, hs⟩
        · rw [if_neg hmore] at h
          simp only [Except.ok.injEq, Prod.mk.injEq] at h
          obtain ⟨e1, e2, e3⟩ := h
          subst e1 e2 e3
          exact ⟨hfr, [], w, status, rfl, hs1⟩

theorem frame_getElem? (reg reg1 : Registry) (k : Nat) (jb : job)
    (h : reg1.map job_frame = reg.map job_frame) (hjb : reg[k]? = some jb) :
    ∃ jb1, reg1[k]? = some jb1 ∧ jb1.id = jb.id ∧ jb1.mode = jb.mode := by
  have h1 : (reg1.map job_frame)[k]? = (reg.map job_frame)[k]? := by rw [h]
  rw [List.getElem?_map, List.getElem?_map, hjb] at h1
  cases hjb1 : reg1[k]? with
  | none => rw [hjb1] at h1; cases h1
  | some jb1 =>
    rw [hjb1] at h1
    simp only [Option.map_some', Option.some.injEq, job_frame, Prod.mk.injEq] at h1
    exact ⟨jb1, rfl, h1.1, h1.2⟩

theorem frame_length (reg reg1 : Registry) (h : reg1.map job_frame = reg.map job_frame) :
    reg1.length = reg.length := by
  have := congrArg List.length h
  simpa using this

/-- A call of `launch_process` that returns leaves the ids and the modes in place.
It returns -1 when `fork` fails; after a `fork` that succeeds it returns 0 without
a wait for a job that is not in the foreground, and for a foreground job the value
that the turn of the last wait result consumed by `wait_for_job` leaves in
`status`. -/
theorem launch_process_frame (reg reg1 : Registry) (k i : Nat) (childpid s : Int)
    (ws ws1 : List wait_result) (jb : job) (hjb : reg[k]? = some jb)
    (h : launch_process reg k i childpid ws = .ok (reg1, s, ws1)) :
    reg1.map job_frame = reg.map job_frame ∧
    ((childpid < 0 ∧ s = -1 ∧ ws1 = ws) ∨
     (0 < childpid ∧ jb.mode ≠ FOREGROUND_EXECUTION ∧ s = 0 ∧ ws1 = ws) ∨
     (0 < childpid ∧ jb.mode = FOREGROUND_EXECUTION ∧
      ∃ consumed w st0, ws = consumed ++ w :: ws1 ∧
        s = status_after_turn (status_after_waitpid st0 w))) := by
  unfold launch_process at h
  rw [set_process_status_ptr_eq] at h
  simp only at h
  have hf1 := with_status_at_frame reg k i STATUS_RUNNING
  by_cases hneg : childpid < 0
  · rw [if_pos hneg] at h
    simp only [Except.ok.injEq, Prod.mk.injEq] at h
    obtain ⟨e1, e2, e3⟩ := h
    exact ⟨by rw [← e1, hf1], Or.inl ⟨hneg, e2.symm, e3.symm⟩⟩
  · rw [if_neg hneg] at h
    by_cases hz : childpid = 0
    · rw [if_pos hz] at h
      cases h
    · rw [if_neg hz] at h
      have hpos : 0 < childpid := by omega
      have hf2 := record_child_frame (with_status_at reg k i STATUS_RUNNING) k i childpid
      obtain ⟨jb2, hjb2, _, hm2⟩ := frame_getElem? reg _ k jb (by rw [hf2, hf1]) hjb
      rw [hjb2] at h
      simp only at h
      by_cases hmode : jb.mode = FOREGROUND_EXECUTION
      · rw [if_pos (by rw [hm2]; exact hmode)] at h
        unfold wait_for_job at h
        rw [hjb2] at h
        simp only at h
        obtain ⟨hf3, hlast⟩ := wait_for_job_loop_frame _ _ _ _ _ _ _ _ _ h
        exact ⟨by rw [hf3, hf2, hf1], Or.inr (Or.inr ⟨hpos, hmode, hlast⟩)⟩
      · rw [if_neg (by rw [hm2]; exact hmode)] at h
        simp only [Except.ok.injEq, Prod.mk.injEq] at h
        obtain ⟨e1, e2, e3⟩ := h
        exact ⟨by rw [← e1, hf2, hf1], Or.inr (Or.inl ⟨hpos, hmode, e2.symm, e3.symm⟩)⟩

/-- A call of the launch loop that returns leaves the ids and the modes in place
and consumes a first part of the wait results. -/
theorem launch_job_loop_frame (todo : List process) (reg reg1 : Registry) (k i : Nat)
    (forks : Nat → Int) (ws ws1 : List wait_result) (status s : Int) (jb : job)
    (hjb : reg[k]? = some jb)
    (h : launch_job_loop todo reg k i forks ws status = .ok (reg1, s, ws1)) :
    reg1.map job_frame = reg.map job_frame ∧ ∃ consumed, ws = consumed ++ ws1 := by
  induction todo generalizing reg i ws status jb with
  | nil =>
    simp only [launch_job_loop, Except.ok.injEq, Prod.mk.injEq] at h
    obtain ⟨e1, _, e3⟩ := h
    exact ⟨by rw [e1], [], by rw [e3]; rfl⟩
  | cons p rest ih =>
    rw [launch_job_loop] at h
    cases hl : launch_process reg k i (forks i) ws with
    | error e => rw [hl] at h; cases h
    | ok r =>
      obtain ⟨r1, s1, w1⟩ := r
      rw [hl] at h
      simp only at h
      obtain ⟨hf1, hcases⟩ := launch_process_frame reg r1 k i (forks i) s1 ws w1 jb hjb hl
      obtain ⟨jb1, hjb1, _, _⟩ := frame_getElem? reg r1 k jb hf1 hjb
      obtain ⟨hf2, c2, hc2⟩ := ih r1 (i + 1) w1 s1 jb1 hjb1 h
      refine ⟨by rw [hf2, hf1], ?_⟩
      rcases hcases with ⟨_, _, e⟩ | ⟨_, _, _, e⟩ | ⟨_, _, consumed, w, st0, e, _⟩
      · exact ⟨c2, by rw [← e]; exact hc2⟩
      · exact ⟨c2, by rw [← e]; exact hc2⟩
      · exact ⟨consumed ++ w :: c2, by rw [e, hc2]; simp⟩

theorem launch_job_loop_append_last (l1 : List process) (x : process) (reg : Registry)
    (k i : Nat) (forks : Nat → Int) (ws : List wait_result) (status : Int) :
    launch_job_loop (l1 ++ [x]) reg k i forks ws status =
      match launch_job_loop l1 reg k i forks ws status with
      | .error e => .error e
      | .ok (r1, _, w1) => launch_process r1 k (i + l1.length) (forks (i + l1.length)) w1 := by
  induction l1 generalizing reg i ws status with
  | nil =>
    simp only [List.nil_append, launch_job_loop, List.length_nil, Nat.add_zero]
    cases launch_process reg k i (forks i) ws with
    | error e => rfl
    | ok r =>
      obtain ⟨r1, s1, w1⟩ := r
      rfl
  | cons a l ih =>
    simp only [List.cons_append, launch_job_loop, List.length_cons]
    cases launch_process reg k i (forks i) ws with
    | error e => rfl
    | ok r =>
      obtain ⟨r1, s1, w1⟩ := r
      simp only [List.append_eq]
      rw [ih r1 (i + 1) w1 s1]
      have e : i + 1 + l.length = i + (l.length + 1) := by omega
      simp only [e]

/-! ## Launching a job -/

theorem launch_job_processes_eq (reg : Registry) (j : job) (forks : Nat → Int)
    (ws : List wait_result) (hle : next_id reg ≤ INT_MAX) :
    launch_job_processes reg j true forks ws =
      launch_job_loop j.processes (reg ++ [{ j with id := next_id reg }]) reg.length 0
        forks ws 0 := by
  unfold launch_job_processes
  rw [insert_job_ok_of_le reg j hle]
  simp only [if_true]

/-- A launch loop of `launch_job` that returns has registered the job last, under
the id `next_id`, and has left the ids and the modes in place. -/
theorem launch_job_processes_frame (reg reg1 : Registry) (j : job) (pipes_ok : Bool)
    (forks : Nat → Int) (ws ws1 : List wait_result) (status : Int)
    (h : launch_job_processes reg j pipes_ok forks ws = .ok (reg1, status, ws1)) :
    next_id reg ≤ INT_MAX ∧
    launch_job_loop j.processes (reg ++ [{ j with id := next_id reg }]) reg.length 0
      forks ws 0 = .ok (reg1, status, ws1) ∧
    reg1.map job_frame = (reg ++ [{ j with id := next_id reg }]).map job_frame ∧
    reg1.length = reg.length + 1 ∧
    (∃ jb, reg1[reg.length]? = some jb ∧ jb.id = next_id reg ∧ jb.mode = j.mode) ∧
    ∃ consumed, ws = consumed ++ ws1 := by
  unfold launch_job_processes at h
  cases hi : insert_job reg j with
  | error e => rw [hi] at h; cases h
  | ok r =>
    obtain ⟨r0, id⟩ := r
    rw [hi] at h
    obtain ⟨_, hr0, hle⟩ := insert_job_ok_cases reg r0 j id hi
    subst hr0
    simp only at h
    cases pipes_ok with
    | false => simp at h
    | true =>
      simp only [if_true] at h
      have hget : (reg ++ [{ j with id := next_id reg }])[reg.length]?
          = some { j with id := next_id reg } := getElem?_append_cons_length reg [] _
      obtain ⟨hfr, hcons⟩ := launch_job_loop_frame j.processes _ reg1 reg.length 0 forks ws ws1
        0 status _ hget h
      obtain ⟨jb, hjb, hid, hmode⟩ := frame_getElem? _ reg1 reg.length _ hfr hget
      refine ⟨hle, h, hfr, ?_, ⟨jb, hjb, hid, hmode⟩, hcons⟩
      rw [frame_length _ _ hfr]
      simp

/-- The statement `if (status >= 0 && j->mode == FOREGROUND_EXECUTION) remove_job(j);`
of `launch_job`: the job, which sits at position `reg.length`, is taken out of the
chain and released exactly when the status is not negative and the mode is
Foreground. -/
theorem launch_job_removal_eq (reg : Registry) (j : job) (pipes_ok : Bool)
    (forks : Nat → Int) (ws : List wait_result) :
    launch_job_removal reg j pipes_ok forks ws =
      match launch_job_processes reg j pipes_ok forks ws with
      | .error e => .error e
      | .ok (reg1, status, ws1) =>
        if status ≥ 0 ∧ j.mode = FOREGROUND_EXECUTION then
          .ok (reg1.eraseIdx reg.length, status, ws1, true)
        else .ok (reg1, status, ws1, false) := by
  unfold launch_job_removal
  cases h : launch_job_processes reg j pipes_ok forks ws with
  | error e => rfl
  | ok r =>
    obtain ⟨reg1, status, ws1⟩ := r
    obtain ⟨_, _, _, hlen, _, _⟩ := launch_job_processes_frame reg reg1 j pipes_ok forks ws ws1
      status h
    have hne : reg1 ≠ [] := by
      rintro rfl
      simp at hlen
    simp only
    by_cases hg : status ≥ 0 ∧ j.mode = FOREGROUND_EXECUTION
    · rw [if_pos hg, if_pos hg, remove_job_eq_eraseIdx reg1 reg.length (by omega)]
      simp [Except.map, hne]
    · rw [if_neg hg, if_neg hg]

/-- The function `launch_job` after its launch loop: when the status is not
negative and the mode is Foreground, the job is removed and released, and the
read of `j->mode` that follows is a read of the released block. -/
theorem launch_job_eq (reg : Registry) (j : job) (pipes_ok : Bool)
    (forks : Nat → Int) (ws : List wait_result) :
    launch_job reg j pipes_ok forks ws =
      match launch_job_processes reg j pipes_ok forks ws with
      | .error e => .error e
      | .ok (reg1, status, ws1) =>
        if status ≥ 0 ∧ j.mode = FOREGROUND_EXECUTION then .error .use_after_free
        else .ok (reg1, status, ws1) := by
  unfold launch_job
  rw [launch_job_removal_eq]
  cases h : launch_job_processes reg j pipes_ok forks ws with
  | error e => rfl
  | ok r =>
    obtain ⟨reg1, status, ws1⟩ := r
    simp only
    by_cases hg : status ≥ 0 ∧ j.mode = FOREGROUND_EXECUTION
    · rw [if_pos hg, if_pos hg]
      rfl
    · rw [if_neg hg, if_neg hg]
      rfl

theorem launch_job_of_processes (reg reg1 : Registry) (j : job) (forks : Nat → Int)
    (ws ws1 : List wait_result) (status : Int)
    (h : launch_job_processes reg j true forks ws = .ok (reg1, status, ws1)) :
    launch_job_removal reg j true forks ws =
      (if status ≥ 0 ∧ j.mode = FOREGROUND_EXECUTION then
        .ok (reg1.eraseIdx reg.length, status, ws1, true)
      else .ok (reg1, status, ws1, false)) ∧
    launch_job reg j true forks ws =
      (if status ≥ 0 ∧ j.mode = FOREGROUND_EXECUTION then .error .use_after_free
      else .ok (reg1, status, ws1)) := by
  rw [launch_job_removal_eq, launch_job_eq, h]
  exact ⟨rfl, rfl⟩

theorem eraseIdx_append_length (reg : Registry) (x : job) :
    (reg ++ [x]).eraseIdx reg.length = reg := by
  induction reg with
  | nil => rfl
  | cons a rest ih => simp only [List.cons_append, List.length_cons, List.eraseIdx_cons_succ, ih]

theorem remove_job_last (reg : Registry) (x : job) :
    remove_job (reg ++ [x]) reg.length = .ok reg := by
  rw [remove_job_eq_eraseIdx _ _ (by simp), eraseIdx_append_length]

/-! ## Launching a job with one process -/

theorem set_process_status_ptr_last (reg : Registry) (jr : job) (q : process)
    (hjr : jr.processes = [q]) (status : PROCESS_STATUS) :
    set_process_status_ptr (reg ++ [jr]) (some (reg.length, 0)) status
      = .ok (reg ++ [{ jr with processes := [{ q with status := status }] }]) := by
  unfold set_process_status_ptr
  simp only [modify_at_append_length, hjr, modify_at, set_process_status]

theorem launch_process_single (reg : Registry) (j0 : job) (p : process)
    (hj : j0.processes = [p]) (childpid : Int) (hc : 0 < childpid)
    (ws : List wait_result) :
    launch_process (reg ++ [j0]) reg.length 0 childpid ws =
      if j0.mode = FOREGROUND_EXECUTION then
        wait_for_job
          (reg ++ [{ j0 with
                      processes := [{ p with pid := childpid, status := STATUS_RUNNING }]
                      pgid := if j0.pgid ≤ 0 then childpid else j0.pgid }])
          reg.length ws
      else
        .ok (reg ++ [{ j0 with
                        processes := [{ p with pid := childpid, status := STATUS_RUNNING }]
                        pgid := if j0.pgid ≤ 0 then childpid else j0.pgid }], 0, ws) := by
  unfold launch_process
  rw [set_process_status_ptr_last reg j0 p hj]
  simp only
  rw [if_neg (by omega), if_neg (by omega)]
  unfold record_child
  rw [modify_at_append_length]
  simp only [modify_at, getElem?_append_cons_length]

theorem get_processes_count_single_remaining (jr : job) (q : process)
    (hjr : jr.processes = [q]) (hq : q.status ≠ STATUS_DONE) :
    get_processes_count jr PROC_FILTER_REMAINING = 1 := by
  unfold get_processes_count
  rw [get_processes_count_remaining, hjr, List.filter_cons_of_pos (by simp [hq])]
  simp

theorem wait_for_job_single (reg : Registry) (jr : job) (q : process)
    (w : wait_result) (ws : List wait_result)
    (hjr : jr.processes = [q]) (hq : q.status ≠ STATUS_DONE)
    (hpid : q.pid = w.pid) (hw : 0 < w.pid)
    (hfresh : ∀ x ∈ reg, ∀ r ∈ x.processes, r.pid ≠ w.pid)
    (hid : ∀ y ∈ reg, y.id ≠ jr.id) (hne : jr.id ≠ -1) :
    wait_for_job (reg ++ [jr]) reg.length (w :: ws) =
      match wait_for_job_classify (reg ++ [jr]) reg.length (some (reg.length, 0)) w.status
          1 1 with
      | .error e => .error e
      | .ok (r, s) => .ok (r, s, ws) := by
  unfold wait_for_job
  rw [getElem?_append_cons_length]
  simp only
  rw [get_processes_count_single_remaining jr q hjr hq]
  unfold wait_for_job_loop
  have hfound := get_process_by_pid_found reg [] jr [] [] q w.pid hjr hpid (by simp)
    hfresh hid hne
  simp only [List.length_nil] at hfound
  rw [hfound]
  simp only [status_after_waitpid, if_pos hw, zero_add]
  cases wait_for_job_classify (reg ++ [jr]) reg.length (some (reg.length, 0)) w.status 1 1 with
  | error e => rfl
  | ok rs =>
    obtain ⟨r, s⟩ := rs
    simp

theorem wait_for_job_classify_last (reg : Registry) (jr : job) (q : process)
    (hjr : jr.processes = [q]) (s wait_count proc_count : Int) :
    wait_for_job_classify (reg ++ [jr]) reg.length (some (reg.length, 0)) s
        wait_count proc_count =
      if WIFEXITED s then
        .ok (reg ++ [{ jr with processes := [{ q with status := STATUS_DONE }] }], s)
      else if WIFSIGNALED s then
        .ok (reg ++ [{ jr with processes := [{ q with status := STATUS_TERMINATED }] }], s)
      else if WSTOPSIG s ≠ 0 then
        .ok (reg ++ [{ jr with processes := [{ q with status := STATUS_SUSPENDED }] }], -1)
      else .ok (reg ++ [jr], s) := by
  unfold wait_for_job_classify
  simp only [set_process_status_ptr_last reg jr q hjr, Except.map]
  have hprint : ∃ text,
      print_job_status { jr with processes := [{ q with status := STATUS_SUSPENDED }] }
        = .ok text :=
    print_job_status_ok _ (fun p hp => by
      rw [List.mem_singleton.mp hp]
      rfl)
  obtain ⟨text, htext⟩ := hprint
  by_cases hw : wait_count = proc_count
  · simp only [hw, if_true, getElem?_append_cons_length, htext]
  · simp only [hw, if_false]

/-- The launch loop of `launch_job` for a job with one process whose `fork`
succeeds, in a reachable registry with ids below `INT_MAX`, followed, for a
foreground job, by one wait result for the child. -/
theorem launch_job_processes_single_eq (ops : List RegistryOp) (reg : Registry) (j : job)
    (p : process) (forks : Nat → Int) (hreach : run_ops ops [] = .ok reg)
    (hb : ∀ x ∈ reg, x.id < INT_MAX)
    (hj : j.processes = [p]) (hpos : 0 < forks 0)
    (hfresh : ∀ x ∈ reg, ∀ q ∈ x.processes, q.pid ≠ forks 0) :
    (j.mode ≠ FOREGROUND_EXECUTION → ∀ ws,
      launch_job_processes reg j true forks ws
        = .ok (reg ++ [launched_job j (next_id reg) p (forks 0) STATUS_RUNNING], 0, ws)) ∧
    (j.mode = FOREGROUND_EXECUTION → ∀ s ws,
      launch_job_processes reg j true forks (⟨forks 0, s⟩ :: ws) =
        if WIFEXITED s then
          .ok (reg ++ [launched_job j (next_id reg) p (forks 0) STATUS_DONE], s, ws)
        else if WIFSIGNALED s then
          .ok (reg ++ [launched_job j (next_id reg) p (forks 0) STATUS_TERMINATED], s, ws)
        else if WSTOPSIG s ≠ 0 then
          .ok (reg ++ [launched_job j (next_id reg) p (forks 0) STATUS_SUSPENDED], -1, ws)
        else
          .ok (reg ++ [launched_job j (next_id reg) p (forks 0) STATUS_RUNNING], s, ws)) := by
  have hinv := reachable_ids_increasing ops reg hreach
  have hgt := next_id_gt reg hinv.1
  have hn := next_id_pos reg hinv.2
  have hle : next_id reg ≤ INT_MAX := (insert_job_ok_cases reg _ j _ (insert_job_ok reg j hb)).2.2
  have hloop : ∀ ws, launch_job_processes reg j true forks ws =
      launch_process (reg ++ [{ j with id := next_id reg }]) reg.length 0 (forks 0) ws := by
    intro ws
    rw [launch_job_processes_eq reg j forks ws hle, hj]
    unfold launch_job_loop
    generalize launch_process _ _ _ _ _ = res
    cases res with
    | error e => rfl
    | ok r =>
      obtain ⟨r1, s, w⟩ := r
      simp only [launch_job_loop]
  constructor
  · intro hmode ws
    rw [hloop,
      launch_process_single reg { j with id := next_id reg } p hj (forks 0) hpos, if_neg hmode]
    rfl
  · intro hmode s ws
    rw [hloop,
      launch_process_single reg { j with id := next_id reg } p hj (forks 0) hpos, if_pos hmode]
    rw [wait_for_job_single reg _ { p with pid := forks 0, status := STATUS_RUNNING }
      ⟨forks 0, s⟩ ws rfl (by simp) rfl hpos hfresh
      (fun y hy => ne_of_lt (hgt y hy)) (by show next_id reg ≠ -1; omega)]
    rw [wait_for_job_classify_last reg _ _ rfl]
    by_cases h1 : WIFEXITED s = true
    · simp [h1, launched_job]
    · by_cases h2 : WIFSIGNALED s = true
      · simp [h1, h2, launched_job]
      · by_cases h3 : WSTOPSIG s = 0
        · simp [h1, h2, h3, launched_job]
        · simp [h1, h2, h3, launched_job]

/-! ## C4: removal of a foreground job by `launch_job` -/

theorem status_after_turn_nonneg (s : Int) (h : 0 ≤ status_after_turn s) :
    status_after_turn s = s ∧
    (WIFEXITED s = true ∨ WIFSIGNALED s = true ∨ WSTOPSIG s = 0) := by
  unfold status_after_turn at h ⊢
  by_cases h1 : WIFEXITED s = true
  · simp [h1]
  · by_cases h2 : WIFSIGNALED s = true
    · simp [h1, h2]
    · by_cases h3 : WSTOPSIG s = 0
      · simp [h1, h2, h3]
      · simp [h1, h2, h3] at h

theorem status_after_turn_stop (s : Int) (h1 : WIFEXITED s = false)
    (h2 : WIFSIGNALED s = false) (h3 : WSTOPSIG s ≠ 0) : status_after_turn s = -1 := by
  unfold status_after_turn
  simp [h1, h2, h3]

/-- The status that the launch loop of `launch_job` leaves for a Foreground job
with at least one process: -1 when the `fork` of the last process fails, and
after a `fork` that succeeds the value that the turn of the last wait result
consumed leaves in the `status` of `wait_for_job`. -/
theorem launch_job_processes_foreground_status (reg reg1 : Registry) (j : job)
    (pipes_ok : Bool) (forks : Nat → Int) (ws ws1 : List wait_result) (status : Int)
    (h : launch_job_processes reg j pipes_ok forks ws = .ok (reg1, status, ws1))
    (hmode : j.mode = FOREGROUND_EXECUTION) (hne : j.processes ≠ []) :
    (forks (j.processes.length - 1) < 0 ∧ status = -1) ∨
    (0 < forks (j.processes.length - 1) ∧
      ∃ consumed w st0, ws = consumed ++ w :: ws1 ∧
        status = status_after_turn (status_after_waitpid st0 w)) := by
  obtain ⟨_, hloop, _, _, _, _⟩ := launch_job_processes_frame reg reg1 j pipes_ok forks ws ws1
    status h
  have hget : (reg ++ [{ j with id := next_id reg }])[reg.length]?
      = some { j with id := next_id reg } := getElem?_append_cons_length reg [] _
  generalize reg ++ [{ j with id := next_id reg }] = reg0 at hloop hget
  have hsplit : j.processes = j.processes.dropLast ++ [j.processes.getLast hne] :=
    (List.dropLast_append_getLast hne).symm
  have hlen : j.processes.length - 1 = j.processes.dropLast.length := by
    rw [List.length_dropLast]
  rw [hlen]
  rw [hsplit, launch_job_loop_append_last] at hloop
  cases hl : launch_job_loop j.processes.dropLast reg0 reg.length 0 forks ws 0 with
  | error e => rw [hl] at hloop; cases hloop
  | ok r =>
    obtain ⟨r1, s1, w1⟩ := r
    rw [hl] at hloop
    simp only [Nat.zero_add] at hloop
    obtain ⟨hfr, c1, hc1⟩ := launch_job_loop_frame j.processes.dropLast reg0 r1 reg.length 0
      forks ws w1 0 s1 _ hget hl
    obtain ⟨jb, hjb, _, hm⟩ := frame_getElem? reg0 r1 reg.length _ hfr hget
    obtain ⟨_, hcases⟩ := launch_process_frame r1 reg1 reg.length j.processes.dropLast.length
      (forks j.processes.dropLast.length) status w1 ws1 jb hjb hloop
    rcases hcases with ⟨h1, h2, _⟩ | ⟨_, h2, _⟩ | ⟨h1, _, consumed, w, st0, hw, hs⟩
    · exact Or.inl ⟨h1, h2⟩
    · exact absurd (by rw [hm]; exact hmode) h2
    · exact Or.inr ⟨h1, c1 ++ consumed, w, st0, by rw [hc1, hw]; simp, hs⟩

/-- C4, as the code has it: for every job, `launch_job` removes the job (which it
has registered last) exactly when the mode of the job is Foreground and the
status left by the launch of its last process is not negative; `is_job_completed`
is not consulted. For a Foreground job with at least one process that status is
-1 when the `fork` of the last process fails, and otherwise the value that the
turn of the last wait of `wait_for_job` leaves: -1 in the branch of a stop, the
wait status itself after a normal exit or a death by signal. For a Foreground job
with one process (reachable registry with ids below `INT_MAX`, `fork` succeeds
with a pid that no registered process holds): after a normal exit the process is
Done and the job is removed; after a death by signal the process is Terminated,
`is_job_completed` is 0 and the job is removed all the same; after a stop the job
stays registered with the process Suspended. -/
theorem C4_launch_job_removes_on_status (reg : Registry) (j : job) (pipes_ok : Bool)
    (forks : Nat → Int) (ws : List wait_result) :
    launch_job_removal reg j pipes_ok forks ws =
      (match launch_job_processes reg j pipes_ok forks ws with
      | .error e => .error e
      | .ok (reg1, status, ws1) =>
        if status ≥ 0 ∧ j.mode = FOREGROUND_EXECUTION then
          .ok (reg1.eraseIdx reg.length, status, ws1, true)
        else .ok (reg1, status, ws1, false)) ∧
    (∀ reg1 status ws1,
      launch_job_processes reg j pipes_ok forks ws = .ok (reg1, status, ws1) →
      (∃ jb, reg1[reg.length]? = some jb ∧ jb.id = next_id reg ∧ jb.mode = j.mode) ∧
      reg1.length = reg.length + 1 ∧
      (j.mode = FOREGROUND_EXECUTION → j.processes ≠ [] →
        (forks (j.processes.length - 1) < 0 ∧ status = -1) ∨
        (0 < forks (j.processes.length - 1) ∧
          ∃ consumed w st0, ws = consumed ++ w :: ws1 ∧
            status = status_after_turn (status_after_waitpid st0 w)))) ∧
    (∀ s : Int,
      (0 ≤ status_after_turn s →
        status_after_turn s = s ∧
        (WIFEXITED s = true ∨ WIFSIGNALED s = true ∨ WSTOPSIG s = 0)) ∧
      (WIFEXITED s = false → WIFSIGNALED s = false → WSTOPSIG s ≠ 0 →
        status_after_turn s = -1)) ∧
    (∀ (ops : List RegistryOp) (p : process) (s : Int) (rest : List wait_result),
      run_ops ops [] = .ok reg → (∀ x ∈ reg, x.id < INT_MAX) →
      j.processes = [p] → j.mode = FOREGROUND_EXECUTION → 0 < forks 0 →
      (∀ x ∈ reg, ∀ q ∈ x.processes, q.pid ≠ forks 0) → 0 ≤ s →
      (WIFEXITED s = true →
        launch_job_processes reg j true forks (⟨forks 0, s⟩ :: rest)
          = .ok (reg ++ [launched_job j (next_id reg) p (forks 0) STATUS_DONE], s, rest) ∧
        is_job_completed (launched_job j (next_id reg) p (forks 0) STATUS_DONE) = 1 ∧
        launch_job_removal reg j true forks (⟨forks 0, s⟩ :: rest)
          = .ok (reg, s, rest, true)) ∧
      (WIFEXITED s = false → WIFSIGNALED s = true →
        launch_job_processes reg j true forks (⟨forks 0, s⟩ :: rest)
          = .ok (reg ++ [launched_job j (next_id reg) p (forks 0) STATUS_TERMINATED],
              s, rest) ∧
        is_job_completed (launched_job j (next_id reg) p (forks 0) STATUS_TERMINATED) = 0 ∧
        launch_job_removal reg j true forks (⟨forks 0, s⟩ :: rest)
          = .ok (reg, s, rest, true)) ∧
      (WIFEXITED s = false → WIFSIGNALED s = false → WSTOPSIG s ≠ 0 →
        launch_job_removal reg j true forks (⟨forks 0, s⟩ :: rest)
          = .ok (reg ++ [launched_job j (next_id reg) p (forks 0) STATUS_SUSPENDED],
              -1, rest, false))) := by
  refine ⟨launch_job_removal_eq reg j pipes_ok forks ws, ?_, ?_, ?_⟩
  · intro reg1 status ws1 h
    obtain ⟨_, _, _, hlen, hjb, _⟩ := launch_job_processes_frame reg reg1 j pipes_ok forks ws ws1
      status h
    exact ⟨hjb, hlen, fun hmode hne =>
      launch_job_processes_foreground_status reg reg1 j pipes_ok forks ws ws1 status h hmode hne⟩
  · intro s
    exact ⟨status_after_turn_nonneg s, status_after_turn_stop s⟩
  · intro ops p s rest hreach hb hj hmode hpos hfresh hs
    have hfg := (launch_job_processes_single_eq ops reg j p forks hreach hb hj hpos hfresh).2
      hmode s rest
    refine ⟨?_, ?_, ?_⟩
    · intro h1
      rw [if_pos h1] at hfg
      refine ⟨hfg, rfl, ?_⟩
      rw [(launch_job_of_processes reg _ j forks _ rest s hfg).1, if_pos ⟨hs, hmode⟩,
        eraseIdx_append_length]
    · intro h1 h2
      rw [if_neg (by simp [h1]), if_pos h2] at hfg
      refine ⟨hfg, rfl, ?_⟩
      rw [(launch_job_of_processes reg _ j forks _ rest s hfg).1, if_pos ⟨hs, hmode⟩,
        eraseIdx_append_length]
    · intro h1 h2 h3
      rw [if_neg (by simp [h1]), if_neg (by simp [h2]), if_pos h3] at hfg
      rw [(launch_job_of_processes reg _ j forks _ rest (-1) hfg).1, if_neg (by omega)]

/-- C4 as amended, at the foreground sample job launched on the empty registry with
child pid 100, for the death of the child by signal 2. -/
theorem C4_launch_job_removes_on_status_witness :
    launch_job_processes [] sample_job true (fun _ => 100) [⟨100, W_EXITCODE 0 2⟩]
      = .ok ([launched_job sample_job 1 sample_process 100 STATUS_TERMINATED],
          W_EXITCODE 0 2, []) ∧
    is_job_completed (launched_job sample_job 1 sample_process 100 STATUS_TERMINATED) = 0 ∧
    launch_job_removal [] sample_job true (fun _ => 100) [⟨100, W_EXITCODE 0 2⟩]
      = .ok ([], W_EXITCODE 0 2, [], true) :=
  ((C4_launch_job_removes_on_status [] sample_job true (fun _ => 100) []).2.2.2
    [] sample_process (W_EXITCODE 0 2) [] rfl (by simp) rfl rfl (by decide) (by simp)
    (by decide)).2.1 rfl rfl

/-- C4 fails as stated: the foreground sample job is launched on the empty registry,
its child (pid 100) is killed by signal 2; at the end of the launch loop the job is
registered with its process Terminated, `is_job_completed` is 0 for it, and
`launch_job` removes it all the same. -/
theorem C4_removed_when_not_completed :
    launch_job_processes [] sample_job true (fun _ => 100) [⟨100, 2⟩]
      = .ok ([{ id := 1
                processes := [{ sample_process with pid := 100, status := STATUS_TERMINATED }]
                pgid := 100
                mode := FOREGROUND_EXECUTION }], 2, []) ∧
    is_job_completed
      { id := 1
        processes := [{ sample_process with pid := 100, status := STATUS_TERMINATED }]
        pgid := 100
        mode := FOREGROUND_EXECUTION } = 0 ∧
    launch_job_removal [] sample_job true (fun _ => 100) [⟨100, 2⟩] = .ok ([], 2, [], true) ∧
    WIFSIGNALED 2 = true ∧ (2 : Int) = W_EXITCODE 0 2 :=
  ⟨rfl, rfl, rfl, rfl, rfl⟩

/-! ## C5: launch of a job with one process -/

/-- C5 fails on the code for a Foreground job. In a registry built by `insert_job`
and `remove_job` with ids below `INT_MAX`, for a job with one process whose
`fork` succeeds with a pid that no registered process holds: a Background job is,
on return from `launch_job`, registered last with the child pid recorded and
status Running, and no wait result has been consumed, as the claim says. For a
Foreground job whose process exits with any code, the process is Done at the end
of the launch loop and `remove_job` leaves the registry as it was before the
call, but `launch_job` then reads `j->mode` in the job that `remove_job` has
released, and has no defined result. -/
theorem C5_launch_job_reads_released_job (ops : List RegistryOp) (reg : Registry) (j : job)
    (p : process) (forks : Nat → Int) (ws : List wait_result)
    (hreach : run_ops ops [] = .ok reg) (hb : ∀ x ∈ reg, x.id < INT_MAX)
    (hj : j.processes = [p]) (hpos : 0 < forks 0)
    (hfresh : ∀ x ∈ reg, ∀ q ∈ x.processes, q.pid ≠ forks 0) :
    (j.mode = BACKGROUND_EXECUTION →
      launch_job reg j true forks ws
        = .ok (reg ++ [launched_job j (next_id reg) p (forks 0) STATUS_RUNNING], 0, ws)) ∧
    (j.mode = FOREGROUND_EXECUTION → ∀ code : Int, 0 ≤ code → code < 256 →
      launch_job_processes reg j true forks (⟨forks 0, W_EXITCODE code 0⟩ :: ws)
        = .ok (reg ++ [launched_job j (next_id reg) p (forks 0) STATUS_DONE],
            W_EXITCODE code 0, ws) ∧
      launch_job_removal reg j true forks (⟨forks 0, W_EXITCODE code 0⟩ :: ws)
        = .ok (reg, W_EXITCODE code 0, ws, true) ∧
      launch_job reg j true forks (⟨forks 0, W_EXITCODE code 0⟩ :: ws)
        = .error .use_after_free) := by
  have hboth := launch_job_processes_single_eq ops reg j p forks hreach hb hj hpos hfresh
  constructor
  · intro hmode
    have hbg := hboth.1 (by rw [hmode]; decide) ws
    rw [(launch_job_of_processes reg _ j forks ws ws 0 hbg).2,
      if_neg (by rw [hmode]; simp)]
  · intro hmode code h0 _
    have hfg := hboth.2 hmode (W_EXITCODE code 0) ws
    have hex : WIFEXITED (W_EXITCODE code 0) = true := by
      simp only [WIFEXITED, WTERMSIG, W_EXITCODE, decide_eq_true_eq]
      omega
    rw [if_pos hex] at hfg
    have hgate : W_EXITCODE code 0 ≥ 0 ∧ j.mode = FOREGROUND_EXECUTION :=
      ⟨by simp only [W_EXITCODE]; omega, hmode⟩
    obtain ⟨h1, h2⟩ := launch_job_of_processes reg _ j forks _ ws _ hfg
    refine ⟨hfg, ?_, ?_⟩
    · rw [h1, if_pos hgate, eraseIdx_append_length]
    · rw [h2, if_pos hgate]

/-- C5 at the empty registry: the foreground sample job whose child, pid 100,
exits with code 0. -/
theorem C5_launch_job_reads_released_job_witness :
    launch_job_processes [] sample_job true (fun _ => 100) [⟨100, W_EXITCODE 0 0⟩]
      = .ok ([launched_job sample_job 1 sample_process 100 STATUS_DONE], W_EXITCODE 0 0, []) ∧
    launch_job_removal [] sample_job true (fun _ => 100) [⟨100, W_EXITCODE 0 0⟩]
      = .ok ([], W_EXITCODE 0 0, [], true) ∧
    launch_job [] sample_job true (fun _ => 100) [⟨100, W_EXITCODE 0 0⟩]
      = .error .use_after_free :=
  (C5_launch_job_reads_released_job [] [] sample_job sample_process
    (fun _ => 100) [] rfl (by simp) rfl (by decide) (by simp)).2 rfl 0 (by decide) (by decide)

/-! ## C8: a pid that matches no registered process -/

/-- When the reaped pid matches no process of a registered job, `sigint_handler`
dereferences `NULL`, whatever the status is. -/
theorem sigint_handler_miss (reg : Registry) (w : wait_result) (ws : List wait_result)
    (hw : 0 < w.pid) (hmiss : ∀ x ∈ reg, ∀ q ∈ x.processes, q.pid ≠ w.pid) :
    sigint_handler (w :: ws) reg = .error .null_dereference := by
  unfold sigint_handler
  rw [if_pos hw, get_job_by_pid_absent reg w.pid hmiss,
    get_process_by_pid_absent reg w.pid hmiss]
  simp only [sigint_handler_classify, set_process_status_ptr]
  by_cases h1 : WIFEXITED w.status = true
  · simp [h1]
  · by_cases h2 : WIFSTOPPED w.status = true
    · simp [h1, h2]
    · by_cases h3 : WIFCONTINUED w.status = true
      · simp [h1, h2, h3]
      · simp [h1, h2, h3]

/-- When the pid that `waitpid` returns matches no process of a registered job and
the status is one of a normal exit, a death by signal or a stop, `wait_for_job`
dereferences `NULL`. -/
theorem wait_for_job_miss (reg : Registry) (k : Nat) (j : job) (w : wait_result)
    (ws : List wait_result) (hk : reg[k]? = some j)
    (hmiss : ∀ x ∈ reg, ∀ q ∈ x.processes, q.pid ≠ w.pid)
    (hst : WIFEXITED (status_after_waitpid 0 w) = true ∨
      WIFSIGNALED (status_after_waitpid 0 w) = true ∨
      WSTOPSIG (status_after_waitpid 0 w) ≠ 0) :
    wait_for_job reg k (w :: ws) = .error .null_dereference := by
  unfold wait_for_job
  rw [hk]
  simp only
  unfold wait_for_job_loop
  rw [get_process_by_pid_absent reg w.pid hmiss]
  simp only [wait_for_job_classify, set_process_status_ptr, Except.map]
  by_cases h1 : WIFEXITED (status_after_waitpid 0 w) = true
  · simp [h1]
  · by_cases h2 : WIFSIGNALED (status_after_waitpid 0 w) = true
    · simp [h1, h2]
    · have h3 : WSTOPSIG (status_after_waitpid 0 w) ≠ 0 := by
        rcases hst with h | h | h
        · exact absurd h h1
        · exact absurd h h2
        · exact h
      simp [h1, h2, h3]

/-- C8 fails on the code: with one running job registered (process pid 100), a wait
result for pid 200, or the failure of `waitpid` (-1, `status` untouched), matches no
registered process; the lookups return `NULL` and both `wait_for_job` and
`sigint_handler` dereference it. -/
theorem C8_lookup_miss_null_dereference :
    get_process_by_pid [sample_running_job] 200 = .ok none ∧
    get_job_by_pid [sample_running_job] 200 = .ok none ∧
    wait_for_job [sample_running_job] 0 [⟨200, W_EXITCODE 0 0⟩] = .error .null_dereference ∧
    wait_for_job [sample_running_job] 0 [⟨-1, 0⟩] = .error .null_dereference ∧
    sigint_handler [⟨200, W_EXITCODE 0 0⟩] [sample_running_job] = .error .null_dereference ∧
    sigint_handler [⟨200, W_EXITCODE 0 9⟩] [sample_running_job] = .error .null_dereference :=
  ⟨rfl, rfl, rfl, rfl, rfl, rfl⟩

/-! ## C9: `new_process` and `new_job` -/

theorem strcpy_block_sizes (token : String) :
    strcpy (strlen token) token = .error .buffer_overflow ∧
    strcpy (strlen token + 1) token = .ok token := by
  unfold strcpy
  constructor
  · rw [if_neg (by omega)]
  · rw [if_pos (by omega)]

theorem str_to_array_loop_overflow (token : String) (rest : List String)
    (argv : List (Option String)) (n : Nat) :
    str_to_array_loop (token :: rest) argv n = .error .buffer_overflow := by
  rw [str_to_array_loop, (strcpy_block_sizes token).1]

theorem argv_strings_map_some (l : List String) (rest : List (Option String)) :
    argv_strings (l.map some ++ none :: rest) = l := by
  induction l with
  | nil => rfl
  | cons a r ih =>
    simp only [List.map_cons, List.cons_append, argv_strings, List.append_eq]
    rw [ih]

theorem new_job_of_tokens (init : List String) (last : String) (pid : Int)
    (status : PROCESS_STATUS) :
    new_job { argc := init.length + 1
              argv := init.map some ++ [some last, none]
              pid := pid
              status := status } =
      if last = "&" then
        .ok { id := 0
              pgid := -1
              mode := BACKGROUND_EXECUTION
              processes :=
                [{ argc := init.length + 1
                   argv := init.map some ++ [none, none]
                   pid := pid
                   status := STATUS_READY }] }
      else
        .ok { id := 0
              pgid := -1
              mode := FOREGROUND_EXECUTION
              processes :=
                [{ argc := init.length + 1
                   argv := init.map some ++ [some last, none]
                   pid := pid
                   status := STATUS_READY }] } := by
  unfold new_job
  simp only [Nat.add_one_ne_zero, if_false, Nat.add_sub_cancel]
  have hget : (init.map some ++ [some last, none])[init.length]? = some (some last) := by
    have := getElem?_append_cons_length (init.map some) [none] (some last)
    rwa [List.length_map] at this
  rw [hget]
  simp only
  have hslot : (init.map some ++ [some last, none])[init.length + 1]? = some none := by
    have := getElem?_append_cons_length (init.map some ++ [some last]) [] (none : Option String)
    simp only [List.length_append, List.length_map, List.length_singleton,
      List.append_assoc, List.singleton_append] at this
    exact this
  rw [hslot]
  simp only
  have hset : (init.map some ++ [some last, none]).set init.length none
      = init.map some ++ [none, none] := by
    have := set_append_length (init.map some) [none] (some last) none
    rwa [List.length_map] at this
  rw [hset]

/-- What `new_job` does with a process whose `argv` holds the tokens of a command
line followed by `NULL` and whose `argc` is their number (what `new_process` is
to build): the job has id 0, `pgid` -1 and the process Ready with `argc` as it
was; the mode is Background exactly when the last token is `&`, and then the
`NULL`-terminated argument list is the token list without its last token;
otherwise the mode is Foreground and the argument list is unchanged. -/
theorem new_job_mode_from_last_token (toks : List String) (p : process)
    (htok : toks ≠ []) (hargv : p.argv = toks.map some ++ [none])
    (hargc : p.argc = toks.length) :
    ∃ j q, new_job p = .ok j ∧ j.processes = [q] ∧
      j.id = 0 ∧ j.pgid = -1 ∧ q.status = STATUS_READY ∧ q.argc = p.argc ∧ q.pid = p.pid ∧
      (j.mode = BACKGROUND_EXECUTION ↔ toks.getLast? = some "&") ∧
      (j.mode = BACKGROUND_EXECUTION → argv_strings q.argv = toks.dropLast) ∧
      (j.mode ≠ BACKGROUND_EXECUTION →
        j.mode = FOREGROUND_EXECUTION ∧ q.argv = p.argv ∧ argv_strings q.argv = toks) := by
  obtain ⟨init, last, hsplit⟩ : ∃ init last, toks = init ++ [last] :=
    ⟨toks.dropLast, toks.getLast htok, (List.dropLast_append_getLast htok).symm⟩
  subst hsplit
  have hp : p = { argc := init.length + 1
                  argv := init.map some ++ [some last, none]
                  pid := p.pid
                  status := p.status } := by
    cases p with
    | mk argc argv pid status =>
      simp only at hargv hargc
      subst hargv hargc
      simp
  have hjob := new_job_of_tokens init last p.pid p.status
  rw [← hp] at hjob
  by_cases hamp : last = "&"
  · rw [if_pos hamp] at hjob
    refine ⟨_, _, hjob, rfl, rfl, rfl, rfl, ?_, rfl, ?_, ?_, ?_⟩
    · rw [hargc]; simp
    · simp [hamp]
    · intro _
      simp only [List.dropLast_concat]
      exact argv_strings_map_some init [none]
    · intro h
      exact absurd rfl h
  · rw [if_neg hamp] at hjob
    refine ⟨_, _, hjob, rfl, rfl, rfl, rfl, ?_, rfl, ?_, ?_, ?_⟩
    · rw [hargc]; simp
    · simp [hamp]
    · intro h
      cases h
    · intro _
      refine ⟨rfl, by rw [hargv]; simp, ?_⟩
      have := argv_strings_map_some (init ++ [last]) []
      simpa using this

/-- C9 fails on the code: for every command line with at least one token,
`str_to_array` allocates `strlen(token)` bytes for the first token and `strcpy`
writes `strlen(token) + 1` bytes into them (the string and its terminating zero
byte), one byte past the end of the block; `new_process` has no defined result,
so no process reaches `new_job`. A block of `strlen(token) + 1` bytes holds the
copy. -/
theorem C9_new_process_overruns_token_block (command : String)
    (htok : strtok_all command ≠ []) :
    new_process command = .error .buffer_overflow ∧
    str_to_array command = .error .buffer_overflow ∧
    (∀ token ∈ strtok_all command,
      strcpy (strlen token) token = .error .buffer_overflow ∧
      strcpy (strlen token + 1) token = .ok token) := by
  have harr : str_to_array command = .error .buffer_overflow := by
    unfold str_to_array
    cases h : strtok_all command with
    | nil => exact absurd h htok
    | cons token rest => exact str_to_array_loop_overflow token rest [none] 0
  refine ⟨?_, harr, fun token _ => strcpy_block_sizes token⟩
  unfold new_process
  rw [harr]

/-- C9 at the command `ls -l &`: three tokens, and `new_process` overruns the block
of the first. -/
theorem C9_new_process_overruns_token_block_witness :
    strtok_all "ls -l &" = ["ls", "-l", "&"] ∧
    new_process "ls -l &" = .error .buffer_overflow :=
  ⟨by decide, (C9_new_process_overruns_token_block "ls -l &" (by decide)).1⟩

/-! ## One reaped status change in `sigint_handler` -/

/-- One reaped normal exit in a registry with strictly increasing positive ids:
when it makes every process of the job Done, `sigint_handler` removes that job,
whatever its mode. -/
theorem sigint_handler_exit_completes (reg : Registry) (w : wait_result) (k i : Nat)
    (jb : job)
    (hs : List.Pairwise (· < ·) (reg.map (fun x => x.id))) (hp : ∀ x ∈ reg, 1 ≤ x.id)
    (hw : 0 < w.pid) (hf : first_with_pid reg w.pid = some (k, i))
    (hex : WIFEXITED w.status = true)
    (hjb : (with_status_at reg k i STATUS_DONE)[k]? = some jb)
    (hdone : is_job_completed jb = 1) :
    sigint_handler [w] reg = .ok (reg.eraseIdx k) := by
  obtain ⟨hlp, hlj⟩ := lookups_eq_first_with_pid reg w.pid hs hp
  rw [hf] at hlp hlj
  have hid : jb.id > 0 := by
    have hmem : jb.id ∈ (with_status_at reg k i STATUS_DONE).map (fun x => x.id) :=
      List.mem_map_of_mem _ (List.getElem?_mem hjb)
    rw [with_status_at_ids] at hmem
    obtain ⟨x, hx, hxe⟩ := List.mem_map.mp hmem
    have := hp x hx
    rw [hxe] at this
    omega
  have hk : k < (with_status_at reg k i STATUS_DONE).length := by
    rcases Nat.lt_or_ge k (with_status_at reg k i STATUS_DONE).length with h | h
    · exact h
    · rw [List.getElem?_eq_none h] at hjb
      cases hjb
  have hrm := remove_job_eq_eraseIdx _ k hk
  have her : (with_status_at reg k i STATUS_DONE).eraseIdx k = reg.eraseIdx k :=
    modify_at_eraseIdx _ reg k
  rw [her] at hrm
  unfold sigint_handler
  rw [if_pos hw, hlj, hlp]
  simp only [Option.map_some', sigint_handler_classify, hex, if_true,
    set_process_status_ptr_eq, hjb]
  rw [if_pos ⟨hid, by rw [hdone]; decide⟩, hrm]
  rfl

/-- One reaped death by signal in a registry with strictly increasing positive ids:
`sigint_handler` changes no status; the registry is unchanged when the job of the
process is not completed. -/
theorem sigint_handler_signal_death (reg : Registry) (w : wait_result) (k i : Nat)
    (jb : job) (sig : Nat) (core : Bool)
    (hs : List.Pairwise (· < ·) (reg.map (fun x => x.id))) (hp : ∀ x ∈ reg, 1 ≤ x.id)
    (hw : 0 < w.pid) (hf : first_with_pid reg w.pid = some (k, i))
    (hsig : 1 ≤ sig ∧ sig ≤ 126) (hst : w.status = (wait_outcome.signaled sig core).raw)
    (hjb : reg[k]? = some jb) (hnot : is_job_completed jb = 0) :
    sigint_handler [w] reg = .ok reg := by
  obtain ⟨hlp, hlj⟩ := lookups_eq_first_with_pid reg w.pid hs hp
  rw [hf] at hlp hlj
  obtain ⟨h1, _⟩ := raw_signaled_tests sig core hsig
  have h2 : WIFSTOPPED w.status = false := by
    rw [hst]
    simp only [WIFSTOPPED, wait_outcome.raw, W_EXITCODE, decide_eq_false_iff_not]
    cases core <;> simp <;> omega
  have h3 : WIFCONTINUED w.status = false := by
    rw [hst]
    simp only [WIFCONTINUED, wait_outcome.raw, W_EXITCODE, decide_eq_false_iff_not]
    cases core <;> simp <;> omega
  rw [← hst] at h1
  unfold sigint_handler
  rw [if_pos hw, hlj, hlp]
  simp only [Option.map_some', sigint_handler_classify, h1, h2, h3, if_false, hjb,
    Bool.false_eq_true]
  rw [if_neg (by rw [hnot]; simp)]
  rfl

/-! ## C10: the statuses that the operations write -/

theorem status_at_record_child (reg : Registry) (k i : Nat) (childpid : Int) :
    status_at (record_child reg k i childpid) k i = status_at reg k i := by
  unfold status_at record_child
  rw [modify_at_getElem?]
  cases reg[k]? with
  | none => rfl
  | some j =>
    simp only [Option.map_some', modify_at_getElem?]
    cases j.processes[i]? <;> rfl

theorem status_at_isSome (reg : Registry) (k i : Nat) (j : job) (p : process)
    (hk : reg[k]? = some j) (hi : j.processes[i]? = some p) :
    (status_at reg k i).isSome = true := by
  simp only [status_at, hk, hi]
  rfl

/-- The function `launch_process` stores Running in the launched process, whatever
its status was, before it calls `fork`; what follows keeps that status, up to the
wait of a foreground job. -/
theorem launch_process_sets_running (reg : Registry) (k i : Nat) (j : job) (p : process)
    (childpid : Int) (ws : List wait_result)
    (hk : reg[k]? = some j) (hi : j.processes[i]? = some p) :
    status_at (with_status_at reg k i STATUS_RUNNING) k i = some STATUS_RUNNING ∧
    status_at (record_child (with_status_at reg k i STATUS_RUNNING) k i childpid) k i
      = some STATUS_RUNNING ∧
    (childpid < 0 →
      launch_process reg k i childpid ws
        = .ok (with_status_at reg k i STATUS_RUNNING, -1, ws)) ∧
    (0 < childpid → j.mode ≠ FOREGROUND_EXECUTION →
      launch_process reg k i childpid ws
        = .ok (record_child (with_status_at reg k i STATUS_RUNNING) k i childpid, 0, ws)) ∧
    (0 < childpid → j.mode = FOREGROUND_EXECUTION →
      launch_process reg k i childpid ws
        = wait_for_job (record_child (with_status_at reg k i STATUS_RUNNING) k i childpid)
            k ws) := by
  have hs1 : status_at (with_status_at reg k i STATUS_RUNNING) k i = some STATUS_RUNNING :=
    status_at_with_status_at reg k i _ (status_at_isSome reg k i j p hk hi)
  obtain ⟨j1, hj1, _, hm1, _⟩ := with_status_at_getElem? reg k k i STATUS_RUNNING j hk
  obtain ⟨j2, hj2, _, hm2⟩ := frame_getElem? _ _ k j1
    (record_child_frame (with_status_at reg k i STATUS_RUNNING) k i childpid) hj1
  refine ⟨hs1, by rw [status_at_record_child]; exact hs1, ?_, ?_, ?_⟩
  · intro hneg
    unfold launch_process
    rw [set_process_status_ptr_eq]
    simp only [hneg, if_true]
  · intro hpos hmode
    unfold launch_process
    rw [set_process_status_ptr_eq]
    simp only
    rw [if_neg (by omega), if_neg (by omega), hj2]
    simp only
    rw [if_neg (by rw [hm2, hm1]; exact hmode)]
  · intro hpos hmode
    unfold launch_process
    rw [set_process_status_ptr_eq]
    simp only
    rw [if_neg (by omega), if_neg (by omega), hj2]
    simp only
    rw [if_pos (by rw [hm2, hm1]; exact hmode)]

theorem new_job_sets_ready (p : process) (last : String) (h0 : p.argc ≠ 0)
    (hslot : p.argc < p.argv.length)
    (hlast : p.argv[p.argc - 1]? = some (some last)) :
    ∃ j, new_job p = .ok j ∧ j.processes.map (fun q => q.status) = [STATUS_READY] := by
  unfold new_job
  rw [if_neg h0, hlast]
  simp only
  by_cases hamp : last = "&"
  · rw [if_pos hamp, List.getElem?_eq_getElem hslot]
    exact ⟨_, rfl, rfl⟩
  · rw [if_neg hamp]
    exact ⟨_, rfl, rfl⟩

/-- The function `insert_process` appends the process and writes no status: the
process added keeps the status it has. -/
theorem insert_process_processes (j : job) (p : process) :
    (insert_process j p).processes = j.processes ++ [p] := by
  unfold insert_process
  cases h : get_last_process j.processes with
  | none =>
    have : j.processes = [] := by
      cases hl : j.processes with
      | nil => rfl
      | cons a rest =>
        rw [hl] at h
        exfalso
        clear hl
        induction rest generalizing a with
        | nil => simp [get_last_process] at h
        | cons b r ih => exact ih b (by simpa [get_last_process] using h)
    simp [this]
  | some l => rfl

theorem set_job_status_statuses (j : job) (status : PROCESS_STATUS) :
    (set_job_status j status).processes.map (fun q => q.status)
      = j.processes.map (fun q => if q.status = STATUS_DONE then STATUS_DONE else status) := by
  unfold set_job_status
  simp only [List.map_map]
  apply List.map_congr_left
  intro q _
  by_cases hq : q.status = STATUS_DONE
  · simp [hq]
  · simp [hq, set_process_status]

theorem sigint_handler_classify_eq (reg : Registry) (k i : Nat) (status : Int) :
    sigint_handler_classify reg (some (k, i)) status
      = .ok (reaped_registry reg k i status) := by
  unfold sigint_handler_classify reaped_registry reaped_status
  simp only [set_process_status_ptr_eq]
  by_cases h1 : WIFEXITED status = true
  · simp [h1]
  · by_cases h2 : WIFSTOPPED status = true
    · simp [h1, h2]
    · by_cases h3 : WIFCONTINUED status = true
      · simp [h1, h2, h3]
      · simp [h1, h2, h3]

theorem reaped_registry_getElem? (reg : Registry) (k kp i : Nat) (status : Int) (jb : job)
    (hjb : reg[k]? = some jb) :
    ∃ jb1, (reaped_registry reg kp i status)[k]? = some jb1 ∧ jb1.id = jb.id ∧
      jb1.mode = jb.mode := by
  unfold reaped_registry
  cases reaped_status status with
  | none => exact ⟨jb, hjb, rfl, rfl⟩
  | some st =>
    obtain ⟨jb1, h1, h2, h3, _⟩ := with_status_at_getElem? reg k kp i st jb hjb
    exact ⟨jb1, h1, h2, h3⟩

/-- One status change reaped by `sigint_handler` for a pid that a registered
process holds, in a registry with strictly increasing positive ids: the status
that the three-way test selects is stored in the first process with the pid,
whatever its status was; then the job of that process is removed when all its
processes are Done, and the handler goes on with the next status change. -/
theorem sigint_handler_step (reg : Registry) (w : wait_result) (ws : List wait_result)
    (k i : Nat)
    (hs : List.Pairwise (· < ·) (reg.map (fun x => x.id))) (hp : ∀ x ∈ reg, 1 ≤ x.id)
    (hw : 0 < w.pid) (hf : first_with_pid reg w.pid = some (k, i)) :
    (∃ jb, (reaped_registry reg k i w.status)[k]? = some jb ∧
      sigint_handler (w :: ws) reg =
        if is_job_completed jb ≠ 0 then
          sigint_handler ws ((reaped_registry reg k i w.status).eraseIdx k)
        else sigint_handler ws (reaped_registry reg k i w.status)) ∧
    (∀ st, reaped_status w.status = some st →
      status_at (reaped_registry reg k i w.status) k i = some st) ∧
    (reaped_status w.status = none → reaped_registry reg k i w.status = reg) := by
  obtain ⟨hlp, hlj⟩ := lookups_eq_first_with_pid reg w.pid hs hp
  rw [hf] at hlp hlj
  obtain ⟨jb0, q, hjb0, hq, _⟩ := first_with_pid_position reg w.pid k i hf
  obtain ⟨jb, hjb, hid, _⟩ := reaped_registry_getElem? reg k k i w.status jb0 hjb0
  have hpos : jb.id > 0 := by
    have := hp jb0 (List.getElem?_mem hjb0)
    omega
  have hk : k < (reaped_registry reg k i w.status).length := by
    rcases Nat.lt_or_ge k (reaped_registry reg k i w.status).length with h | h
    · exact h
    · rw [List.getElem?_eq_none h] at hjb
      cases hjb
  refine ⟨⟨jb, hjb, ?_⟩, ?_, ?_⟩
  · rw [sigint_handler, if_pos hw, hlj, hlp]
    simp only [Option.map_some', sigint_handler_classify_eq, hjb]
    by_cases hc : is_job_completed jb ≠ 0
    · rw [if_pos ⟨hpos, hc⟩, if_pos hc, remove_job_eq_eraseIdx _ k hk]
    · rw [if_neg (fun h => hc h.2), if_neg hc]
  · intro st hst
    unfold reaped_registry
    rw [hst]
    exact status_at_with_status_at reg k i st (status_at_isSome reg k i jb0 q hjb0 hq)
  · intro hnone
    unfold reaped_registry
    rw [hnone]

theorem reaped_status_cases (status : Int) :
    (WIFEXITED status = true → reaped_status status = some STATUS_DONE) ∧
    (WIFEXITED status = false → WIFSTOPPED status = true →
      reaped_status status = some STATUS_SUSPENDED) ∧
    (WIFEXITED status = false → WIFSTOPPED status = false → WIFCONTINUED status = true →
      reaped_status status = some STATUS_CONTINUED) ∧
    (WIFEXITED status = false → WIFSTOPPED status = false → WIFCONTINUED status = false →
      reaped_status status = none) := by
  unfold reaped_status
  refine ⟨?_, ?_, ?_, ?_⟩
  · intro h1; simp [h1]
  · intro h1 h2; simp [h1, h2]
  · intro h1 h2 h3; simp [h1, h2, h3]
  · intro h1 h2 h3; simp [h1, h2, h3]

/-- C10, as the code has it: the operations write statuses without looking at the
status they replace. `new_job` makes the first process Ready; `launch_process`
sets the launched process Running; `wait_for_process` and `wait_for_job` set Done
after a normal exit, Terminated after a death by signal and Suspended after a
stop, in the first process with the reported pid; `sigint_handler` sets Done,
Suspended or Continued in the first process with the reaped pid, and then removes
the job of that process when all its processes are Done; `set_job_status` sets
every process that is not Done to the given status and leaves the Done ones. The
writes of `new_job` on a New process, of `launch_process` on a Ready one and of
the waits on a Running one are edges of the state machine. -/
theorem C10_status_writes :
    (∀ (p : process) (last : String), p.argc ≠ 0 → p.argc < p.argv.length →
      p.argv[p.argc - 1]? = some (some last) →
      ∃ j, new_job p = .ok j ∧ j.processes.map (fun q => q.status) = [STATUS_READY]) ∧
    (∀ (reg : Registry) (k i : Nat) (j : job) (p : process) (childpid : Int)
        (ws : List wait_result),
      reg[k]? = some j → j.processes[i]? = some p →
      status_at (with_status_at reg k i STATUS_RUNNING) k i = some STATUS_RUNNING ∧
      status_at (record_child (with_status_at reg k i STATUS_RUNNING) k i childpid) k i
        = some STATUS_RUNNING ∧
      (childpid < 0 →
        launch_process reg k i childpid ws
          = .ok (with_status_at reg k i STATUS_RUNNING, -1, ws)) ∧
      (0 < childpid → j.mode ≠ FOREGROUND_EXECUTION →
        launch_process reg k i childpid ws
          = .ok (record_child (with_status_at reg k i STATUS_RUNNING) k i childpid, 0, ws)) ∧
      (0 < childpid → j.mode = FOREGROUND_EXECUTION →
        launch_process reg k i childpid ws
          = wait_for_job (record_child (with_status_at reg k i STATUS_RUNNING) k i childpid)
              k ws)) ∧
    (∀ (p : process) (w : wait_result) (ws : List wait_result),
      wait_for_process p (w :: ws) =
        if WIFEXITED (status_after_waitpid 0 w) then
          .ok ({ p with status := STATUS_DONE }, status_after_waitpid 0 w)
        else if WIFSIGNALED (status_after_waitpid 0 w) then
          .ok ({ p with status := STATUS_TERMINATED }, status_after_waitpid 0 w)
        else if WSTOPSIG (status_after_waitpid 0 w) ≠ 0 then
          .ok ({ p with status := STATUS_SUSPENDED }, -1)
        else .ok (p, status_after_waitpid 0 w)) ∧
    (∀ (ops : List RegistryOp) (reg : Registry) (k : Nat) (j : job)
        (events : List wait_event) (rest : List wait_result),
      run_ops ops [] = .ok reg → reg[k]? = some j →
      (∀ e ∈ events, 0 < e.1 ∧ e.2.valid = true ∧ ∃ p ∈ j.processes, p.pid = e.1) →
      (events.length : Int) = max 1 (get_processes_count j PROC_FILTER_REMAINING) →
      (∀ e, events.getLast? = some e → e.2.is_stop = true →
        ∀ p ∈ j.processes, has_status_string p.status = true) →
      wait_for_job reg k (events.map wait_event_result ++ rest)
        = .ok (spec_wait_effect reg events, spec_wait_return events, rest)) ∧
    (∀ (r : Registry) (e : wait_event) (k1 i1 : Nat),
      first_with_pid r e.1 = some (k1, i1) →
      status_at (spec_settle r e) k1 i1 = some (spec_settled_status e.2) ∧
      ∀ k2 i2, (k2 ≠ k1 ∨ i2 ≠ i1) →
        status_at (spec_settle r e) k2 i2 = status_at r k2 i2) ∧
    (∀ code sig core, spec_settled_status (.exited code) = STATUS_DONE ∧
      spec_settled_status (.signaled sig core) = STATUS_TERMINATED ∧
      spec_settled_status (.stopped sig) = STATUS_SUSPENDED) ∧
    (∀ (ops : List RegistryOp) (reg : Registry) (w : wait_result) (ws : List wait_result)
        (k i : Nat),
      run_ops ops [] = .ok reg → 0 < w.pid → first_with_pid reg w.pid = some (k, i) →
      (∃ jb, (reaped_registry reg k i w.status)[k]? = some jb ∧
        sigint_handler (w :: ws) reg =
          if is_job_completed jb ≠ 0 then
            sigint_handler ws ((reaped_registry reg k i w.status).eraseIdx k)
          else sigint_handler ws (reaped_registry reg k i w.status)) ∧
      (∀ st, reaped_status w.status = some st →
        status_at (reaped_registry reg k i w.status) k i = some st) ∧
      (reaped_status w.status = none → reaped_registry reg k i w.status = reg)) ∧
    (∀ status : Int,
      (WIFEXITED status = true → reaped_status status = some STATUS_DONE) ∧
      (WIFEXITED status = false → WIFSTOPPED status = true →
        reaped_status status = some STATUS_SUSPENDED) ∧
      (WIFEXITED status = false → WIFSTOPPED status = false → WIFCONTINUED status = true →
        reaped_status status = some STATUS_CONTINUED) ∧
      (WIFEXITED status = false → WIFSTOPPED status = false → WIFCONTINUED status = false →
        reaped_status status = none)) ∧
    (∀ (j : job) (status : PROCESS_STATUS),
      (set_job_status j status).processes.map (fun q => q.status)
        = j.processes.map
            (fun q => if q.status = STATUS_DONE then STATUS_DONE else status)) ∧
    spec_state_machine_edge STATUS_NEW STATUS_READY = true ∧
    spec_state_machine_edge STATUS_READY STATUS_RUNNING = true ∧
    spec_state_machine_edge STATUS_RUNNING STATUS_DONE = true ∧
    spec_state_machine_edge STATUS_RUNNING STATUS_TERMINATED = true ∧
    spec_state_machine_edge STATUS_RUNNING STATUS_SUSPENDED = true := by
  refine ⟨new_job_sets_ready, ?_, ?_, ?_, ?_, fun _ _ _ => ⟨rfl, rfl, rfl⟩, ?_,
    reaped_status_cases, set_job_status_statuses, rfl, rfl, rfl, rfl, rfl⟩
  · intro reg k i j p childpid ws hk hi
    exact launch_process_sets_running reg k i j p childpid ws hk hi
  · intro p w ws
    unfold wait_for_process
    simp only [set_process_status]
  · intro ops reg k j events rest hreach hk hev hlen hpr
    have hinv := reachable_ids_increasing ops reg hreach
    exact wait_for_job_events reg k j events rest hinv.1 hinv.2 hk hev hlen hpr
  · intro r e k1 i1 hf
    obtain ⟨jb, q, hjb, hq, _⟩ := first_with_pid_position r e.1 k1 i1 hf
    constructor
    · unfold spec_settle
      rw [hf]
      exact status_at_with_status_at r k1 i1 _ (status_at_isSome r k1 i1 jb q hjb hq)
    · intro k2 i2 hne
      unfold spec_settle
      rw [hf]
      exact status_at_with_status_at_ne r k1 i1 k2 i2 _ hne
  · intro ops reg w ws k i hreach hw hf
    have hinv := reachable_ids_increasing ops reg hreach
    exact sigint_handler_step reg w ws k i hinv.1 hinv.2 hw hf

/-- C10 as amended, at the registry of one running background job with pid 100
whose stop by signal 19 `sigint_handler` reaps: the process is Suspended. -/
theorem C10_status_writes_witness :
    reaped_status (W_STOPCODE 19) = some STATUS_SUSPENDED ∧
    status_at (reaped_registry [sample_running_job] 0 0 (W_STOPCODE 19)) 0 0
      = some STATUS_SUSPENDED ∧
    sigint_handler [⟨100, W_STOPCODE 19⟩] [sample_running_job]
      = .ok (reaped_registry [sample_running_job] 0 0 (W_STOPCODE 19)) :=
  ⟨rfl,
   (C10_status_writes.2.2.2.2.2.2.1 [.insert sample_running_job] [sample_running_job]
      ⟨100, W_STOPCODE 19⟩ [] 0 0 rfl (by decide) rfl).2.1 STATUS_SUSPENDED rfl,
   rfl⟩

/-- C10 fails as stated: `set_job_status` moves a Terminated process to Running,
and `sigint_handler`, when it reaps the normal exit of a process that is
Continued, makes it Done. Neither change is an edge of the state machine. -/
theorem C10_status_changes_off_the_state_machine :
    sample_terminated_job.processes.map (fun q => q.status) = [STATUS_TERMINATED] ∧
    (set_job_status sample_terminated_job STATUS_RUNNING).processes.map (fun q => q.status)
      = [STATUS_RUNNING] ∧
    spec_state_machine_edge STATUS_TERMINATED STATUS_RUNNING = false ∧
    run_ops [.insert sample_continued_job] [] = .ok [sample_continued_job] ∧
    status_at [sample_continued_job] 0 0 = some STATUS_CONTINUED ∧
    (∃ reg, sigint_handler [⟨100, W_EXITCODE 0 0⟩] [sample_continued_job] = .ok reg ∧
      reg.map (fun x => x.processes.map (fun q => q.status))
        = [[STATUS_DONE, STATUS_RUNNING]]) ∧
    spec_state_machine_edge STATUS_CONTINUED STATUS_DONE = false :=
  ⟨rfl, rfl, rfl, rfl, rfl, ⟨_, rfl, rfl⟩, rfl⟩

/-! ## C11: the statuses that the waits set and the value they return -/

theorem first_with_pid_in_getElem? (l : List process) (pid : Int) (i : Nat)
    (h : first_with_pid_in l pid = some i) : ∃ q, l[i]? = some q ∧ q.pid = pid := by
  induction l generalizing i with
  | nil => cases h
  | cons a rest ih =>
    rw [first_with_pid_in] at h
    by_cases ha : a.pid = pid
    · rw [if_pos ha] at h
      injection h with h
      subst h
      exact ⟨a, by simp, ha⟩
    · rw [if_neg ha] at h
      cases hr : first_with_pid_in rest pid with
      | none => rw [hr] at h; cases h
      | some i0 =>
        rw [hr] at h
        simp only [Option.map_some', Option.some.injEq] at h
        subst h
        obtain ⟨q, hq, hqp⟩ := ih i0 hr
        exact ⟨q, by rw [List.getElem?_cons_succ]; exact hq, hqp⟩

theorem spec_wait_return_last (events : List wait_event) (e : wait_event)
    (h : events.getLast? = some e) :
    spec_wait_return events = if e.2.is_stop then -1 else e.2.raw := by
  unfold spec_wait_return
  rw [h]
  obtain ⟨pid, o⟩ := e
  cases o <;> simp [spec_returned_status, wait_outcome.is_stop]

/-- The read that `wait_for_job` makes when it prints the job after a stop at its
last wait: the foreground job has a second process that is still New, the first
process (pid 100) is stopped twice, and at the second stop, the last wait of the
call, `print_job_status` reads `PROCESS_STATUS_STRING[5]`, past the end of the
array. -/
theorem wait_for_job_prints_unnamed_status :
    get_processes_count sample_half_launched_job PROC_FILTER_REMAINING = 2 ∧
    wait_for_job [sample_half_launched_job] 0 [⟨100, W_STOPCODE 19⟩, ⟨100, W_STOPCODE 19⟩]
      = .error .out_of_bounds ∧
    wait_for_job [sample_half_launched_job] 0 [⟨100, W_STOPCODE 19⟩, ⟨100, W_EXITCODE 0 0⟩]
      = .ok ([{ sample_half_launched_job with
                processes :=
                  [{ sample_process with pid := 100, status := STATUS_DONE },
                   { sample_process with argv := [some "wc", none], status := STATUS_NEW }] }],
          W_EXITCODE 0 0, []) :=
  ⟨rfl, rfl, rfl⟩

/-- C11, as the code has it: in a registry built by `insert_job` and `remove_job`,
for a registered job and the sequence of outcomes that `wait_for_job` observes
(normal exits, deaths by signal, stops, each for the pid of a process of the job,
a pid that no job registered before it holds), `wait_for_job` returns after the
last of them with each outcome applied in turn: the process of the job with the
reported pid is Done after a normal exit, Terminated after a death by signal,
Suspended after a stop, and no other status changes; the value returned is the
status code of the last outcome, and -1 when the last outcome is a stop. When the
last outcome is a stop the job is printed, which asks that each of its processes
has a status with a name. `wait_for_process` applies the same rule to its
process. -/
theorem C11_waits_settle_statuses (ops : List RegistryOp) (reg : Registry) (k : Nat)
    (j : job) (events : List wait_event) (rest : List wait_result)
    (hreach : run_ops ops [] = .ok reg) (hk : reg[k]? = some j)
    (hev : ∀ e ∈ events, 0 < e.1 ∧ e.2.valid = true ∧ ∃ p ∈ j.processes, p.pid = e.1)
    (hno : ∀ e ∈ events, ∀ k1 j1, k1 < k → reg[k1]? = some j1 →
      ∀ q ∈ j1.processes, q.pid ≠ e.1)
    (hlen : (events.length : Int) = max 1 (get_processes_count j PROC_FILTER_REMAINING))
    (hpr : ∀ e, events.getLast? = some e → e.2.is_stop = true →
      ∀ p ∈ j.processes, has_status_string p.status = true) :
    wait_for_job reg k (events.map wait_event_result ++ rest)
      = .ok (spec_wait_effect_job reg k events, spec_wait_return events, rest) ∧
    (∀ e, events.getLast? = some e →
      spec_wait_return events = if e.2.is_stop then -1 else e.2.raw) ∧
    (∀ (r : Registry) (e : wait_event) (jb : job) (i : Nat),
      r[k]? = some jb → first_with_pid_in jb.processes e.1 = some i →
      (∃ q, jb.processes[i]? = some q ∧ q.pid = e.1) ∧
      status_at (spec_settle_job r k e) k i = some (spec_settled_status e.2) ∧
      ∀ k2 i2, (k2 ≠ k ∨ i2 ≠ i) →
        status_at (spec_settle_job r k e) k2 i2 = status_at r k2 i2) ∧
    (∀ code sig core, spec_settled_status (.exited code) = STATUS_DONE ∧
      spec_settled_status (.signaled sig core) = STATUS_TERMINATED ∧
      spec_settled_status (.stopped sig) = STATUS_SUSPENDED) ∧
    (∀ (p : process) (e : wait_event) (ws : List wait_result),
      0 < e.1 → e.2.valid = true →
      wait_for_process p (wait_event_result e :: ws)
        = .ok ({ p with status := spec_settled_status e.2 }, spec_returned_status e.2)) := by
  have hinv := reachable_ids_increasing ops reg hreach
  refine ⟨?_, spec_wait_return_last events, ?_, fun _ _ _ => ⟨rfl, rfl, rfl⟩, ?_⟩
  · rw [wait_for_job_events reg k j events rest hinv.1 hinv.2 hk hev hlen hpr]
    rw [spec_wait_effect_eq_job events reg k (fun e he => by
      obtain ⟨_, _, hin⟩ := hev e he
      obtain ⟨i, hi, _⟩ := first_with_pid_of_job reg e.1 k j hk hin (hno e he)
      exact ⟨i, hi⟩)]
  · intro r e jb i hjb hf
    obtain ⟨q, hq, hpid⟩ := first_with_pid_in_getElem? jb.processes e.1 i hf
    refine ⟨⟨q, hq, hpid⟩, ?_, ?_⟩
    · unfold spec_settle_job
      rw [hjb]
      simp only [hf]
      apply status_at_with_status_at
      simp only [status_at, hjb, hq]
      rfl
    · intro k2 i2 hne
      unfold spec_settle_job
      rw [hjb]
      simp only [hf]
      exact status_at_with_status_at_ne r k i k2 i2 _ hne
  · intro p e ws hpid hv
    exact wait_for_process_outcome p e ws hpid hv

/-- C11 as amended, at the registry of one running job with pid 100, whose child
is stopped by signal 19: the process is Suspended and -1 is returned. -/
theorem C11_waits_settle_statuses_witness :
    wait_for_job [sample_running_job] 0
        ([((100 : Int), wait_outcome.stopped 19)].map wait_event_result ++ [])
      = .ok (spec_wait_effect_job [sample_running_job] 0 [(100, wait_outcome.stopped 19)],
          spec_wait_return [(100, wait_outcome.stopped 19)], []) ∧
    spec_wait_effect_job [sample_running_job] 0 [(100, wait_outcome.stopped 19)]
      = [{ sample_running_job with
            processes := [{ sample_process with pid := 100, status := STATUS_SUSPENDED }] }] ∧
    spec_wait_return [(100, wait_outcome.stopped 19)] = -1 :=
  ⟨(C11_waits_settle_statuses [.insert sample_running_job] [sample_running_job] 0
      sample_running_job [(100, wait_outcome.stopped 19)] [] rfl rfl
      (fun e he => by
        rw [List.mem_singleton.mp he]
        exact ⟨by decide, rfl, _, List.mem_singleton.mpr rfl, rfl⟩)
      (fun _ _ k1 _ hk1 => absurd hk1 (Nat.not_lt_zero k1))
      (by decide)
      (fun _ _ _ p hp => by
        rw [List.mem_singleton.mp hp]
        rfl)).1, rfl, rfl⟩

/-- C11 fails as stated: a background job whose process (pid 100) was killed by a
signal is still registered (id 1) when a foreground job (id 2) runs a process to
which the operating system has given the pid 100 again. `wait_for_job` on the
second job, for the normal exit of pid 100, marks the process of the first job
Done and leaves the process of the waited job Running. -/
theorem C11_earlier_job_with_the_pid_is_updated :
    run_ops [.insert sample_terminated_job, .insert sample_same_pid_job] []
      = .ok [sample_terminated_job, sample_same_pid_job] ∧
    wait_for_job [sample_terminated_job, sample_same_pid_job] 1 [⟨100, W_EXITCODE 0 0⟩]
      = .ok ([sample_done_job, sample_same_pid_job], W_EXITCODE 0 0, []) ∧
    status_at [sample_terminated_job, sample_same_pid_job] 1 0 = some STATUS_RUNNING ∧
    status_at [sample_done_job, sample_same_pid_job] 1 0 = some STATUS_RUNNING ∧
    status_at [sample_terminated_job, sample_same_pid_job] 0 0 = some STATUS_TERMINATED ∧
    status_at [sample_done_job, sample_same_pid_job] 0 0 = some STATUS_DONE :=
  ⟨rfl, rfl, rfl, rfl, rfl, rfl⟩

/-! ## C12: the number of events that `wait_for_job` consumes -/

/-- In a registry built by `insert_job` and `remove_job`, with n the number of
processes of the job that are not Done at entry and outcomes observed for pids of
its processes, `wait_for_job` consumes exactly max(n, 1) events: it returns right
after that many, leaving the later ones (when the last of them is a stop the job
is printed, which asks that each of its processes has a status with a name), and
it keeps waiting while fewer have arrived. For n at least 1 that is exactly n
events. -/
theorem wait_for_job_consumes_events (ops : List RegistryOp) (reg : Registry) (k : Nat)
    (j : job) (events : List wait_event)
    (hreach : run_ops ops [] = .ok reg) (hk : reg[k]? = some j)
    (hev : ∀ e ∈ events, 0 < e.1 ∧ e.2.valid = true ∧ ∃ p ∈ j.processes, p.pid = e.1) :
    ((events.length : Int) = max 1 (get_processes_count j PROC_FILTER_REMAINING) →
      (∀ e, events.getLast? = some e → e.2.is_stop = true →
        ∀ p ∈ j.processes, has_status_string p.status = true) →
      ∀ rest : List wait_result, ∃ r s,
        wait_for_job reg k (events.map wait_event_result ++ rest) = .ok (r, s, rest)) ∧
    ((events.length : Int) < max 1 (get_processes_count j PROC_FILTER_REMAINING) →
      wait_for_job reg k (events.map wait_event_result) = .error .waits_forever) := by
  have hinv := reachable_ids_increasing ops reg hreach
  have hfound := events_of_job_found reg k j events hk hev
  constructor
  · intro hlen hpr rest
    exact ⟨spec_wait_effect reg events, spec_wait_return events,
      wait_for_job_events reg k j events rest hinv.1 hinv.2 hk hev hlen hpr⟩
  · intro hlen
    unfold wait_for_job
    rw [hk]
    exact wait_for_job_loop_short events reg k _ 0 0 hinv.1 hinv.2 hfound (by omega)

/-- At the registry of one running job (n = 1), with no event the call keeps waiting. -/
theorem wait_for_job_consumes_events_example :
    get_processes_count sample_running_job PROC_FILTER_REMAINING = 1 ∧
    wait_for_job [sample_running_job] 0 (([] : List wait_event).map wait_event_result)
      = .error .waits_forever :=
  ⟨rfl,
   (wait_for_job_consumes_events [.insert sample_running_job] [sample_running_job] 0
      sample_running_job [] rfl rfl (fun e he => absurd he (List.not_mem_nil e))).2
      (by decide)⟩

/-- C12 fails on the code: for a job whose only process is Done, n is 0, yet the
`do ... while` loop of `wait_for_job` calls `waitpid` once: with no event the call
does not return, and with two events at hand it consumes the first one. -/
theorem C12_one_wait_when_none_remains :
    get_processes_count sample_done_job PROC_FILTER_REMAINING = 0 ∧
    wait_for_job [sample_done_job] 0 [] = .error .waits_forever ∧
    wait_for_job [sample_done_job] 0 [⟨100, 0⟩, ⟨100, 0⟩]
      = .ok ([sample_done_job], 0, [⟨100, 0⟩]) :=
  ⟨rfl, rfl, rfl⟩

/-! ## The launch loop of a job that is not in the foreground -/

/-- C14 fails on the code: the foreground job that `launch_job` is waiting for (id 1,
mode Foreground, process 100 Running) is removed by `sigint_handler` when the
handler reaps the exit of its process. For a job that is not in the foreground
the handler removes exactly the completed job and keeps the other one. -/
theorem C14_handler_removes_foreground_job :
    sample_foreground_running_job.mode = FOREGROUND_EXECUTION ∧
    sigint_handler [⟨100, W_EXITCODE 0 0⟩] [sample_foreground_running_job] = .ok [] ∧
    sigint_handler [⟨100, W_EXITCODE 0 0⟩] [sample_running_job, sample_second_running_job]
      = .ok [sample_second_running_job] ∧
    sigint_handler [⟨200, W_EXITCODE 3 0⟩] [sample_running_job, sample_second_running_job]
      = .ok [sample_running_job] :=
  ⟨rfl, rfl, rfl, rfl⟩

/-! ## C15: the status listing -/

/-- C15 fails on the code: `PROCESS_STATUS_STRING` has five entries, for the status
values 0 to 4, and New and Ready have the values 5 and 6. After `new_job` for the
process of the command `ls` and `insert_job` of that job, whose process is Ready,
`print_job_all_status` reads `PROCESS_STATUS_STRING[6]`, past the end of the
array. The empty registry gives the two line breaks alone, and a registry whose
processes are running is listed in the format of the claim. -/
theorem C15_status_name_missing_for_ready :
    PROCESS_STATUS_STRING.length = 5 ∧
    status_value STATUS_NEW = 5 ∧ status_value STATUS_READY = 6 ∧
    new_job sample_new_process = .ok sample_job ∧
    insert_job [] sample_job = .ok ([{ sample_job with id := 1 }], 1) ∧
    print_job_all_status [{ sample_job with id := 1 }] = .error .out_of_bounds ∧
    print_job_all_status [] = .ok "\n\n" ∧
    print_job_all_status [sample_running_job, sample_second_running_job]
      = .ok ("\n" ++ KBLU ++ "[1]" ++ KDEF ++ KBLU ++ " 100 running ls" ++ KDEF ++ "\n"
          ++ KBLU ++ "[2]" ++ KDEF ++ KBLU ++ " 200 running ls" ++ KDEF ++ "\n" ++ "\n") := by
  refine ⟨rfl, rfl, rfl, rfl, rfl, rfl, rfl, ?_⟩
  rfl

/-! ## C16: the statuses that `sigint_handler` sets -/

/-- C16 fails on the code: when `sigint_handler` reaps the death by signal 9 of the
running process 100, the process stays Running (`wait_for_job` sets Terminated for
the same status). A stop sets Suspended, a continue sets Continued, and a normal
exit sets Done, which completes the job and has it removed. -/
theorem C16_handler_ignores_signal_death :
    WIFSIGNALED (W_EXITCODE 0 9) = true ∧
    sigint_handler [⟨100, W_EXITCODE 0 9⟩] [sample_running_job] = .ok [sample_running_job] ∧
    wait_for_job [sample_running_job] 0 [⟨100, W_EXITCODE 0 9⟩]
      = .ok ([sample_terminated_job], W_EXITCODE 0 9, []) ∧
    sigint_handler [⟨100, W_STOPCODE 19⟩] [sample_running_job]
      = .ok [{ sample_running_job with
                processes := [{ sample_process with pid := 100, status := STATUS_SUSPENDED }] }] ∧
    sigint_handler [⟨100, 65535⟩] [sample_running_job]
      = .ok [{ sample_running_job with
                processes := [{ sample_process with pid := 100, status := STATUS_CONTINUED }] }] ∧
    sigint_handler [⟨100, W_EXITCODE 0 0⟩] [sample_running_job] = .ok [] :=
  ⟨rfl, rfl, rfl, rfl, rfl, rfl⟩

end JobControl
